import Mathlib

/-!
Shallow embedding of the semantic-sdp-js repository (src/lib/SDPInfo.js,
src/lib/ICEInfo.js, src/unnamed StreamInfo) in Lean 4, together with
theorems settling the frozen claims about its specification.

JavaScript strings are modelled as lists of characters, JS `Map` objects and
plain objects used as dictionaries as insertion-ordered association lists,
numbers as `Nat`/`Int`, and `null`/`undefined` as `Option.none` where the
code can observe them.  Code paths that throw (null dereference, missing
required attribute) are modelled in the `Except` monad.  The external
`sdp-transform` collaborator is modelled at the attribute-tree level: the
serialize path produces the tree handed to `SDPTransform.write`, and the
parse path consumes the tree produced by `SDPTransform.parse`, per the
collaborator contract of spec section 6.
-/

namespace SemanticSDP

/-- JavaScript strings, modelled as lists of characters. -/
abbrev JStr := List Char

/-- Embed a Lean string literal as a JS string. -/
def js (s : String) : JStr := s.toList

/-- JS `String.prototype.toLowerCase` (ASCII-relevant part). -/
def jsLower (s : JStr) : JStr := s.map Char.toLower

/-- JS `String.prototype.toUpperCase` (ASCII-relevant part). -/
def jsUpper (s : JStr) : JStr := s.map Char.toUpper

/-- JS `String.prototype.split` with a single-character separator:
splits on every occurrence, keeping empty segments, and yields one
(possibly empty) segment for the empty string. -/
def jsSplit (sep : Char) : JStr → List JStr
  | [] => [[]]
  | c :: rest =>
    match jsSplit sep rest with
    | [] => if c = sep then [[], []] else [[c]]
    | h :: t => if c = sep then [] :: h :: t else (c :: h) :: t

/-- JS `String.prototype.trim`: drop whitespace from both ends. -/
def jsTrim (s : JStr) : JStr :=
  ((s.dropWhile Char.isWhitespace).reverse.dropWhile Char.isWhitespace).reverse

/-- JS `Array.prototype.join` with a separator string. -/
def jsJoin (sep : JStr) : List JStr → JStr
  | [] => []
  | [x] => x
  | x :: y :: rest => x ++ sep ++ jsJoin sep (y :: rest)

/-- Decimal digits of a natural number, least significant first, computed
with explicit fuel so the definition reduces in the kernel; with fuel at
least `n` it agrees with `Nat.digits 10 n`. -/
def natDigitsRev (fuel n : Nat) : List Nat :=
  match fuel with
  | 0 => []
  | fuel + 1 => if n = 0 then [] else n % 10 :: natDigitsRev fuel (n / 10)

/-- JS number-to-string conversion for a non-negative integer
(decimal representation, `0` included). -/
def natToJStr (n : Nat) : JStr :=
  if n = 0 then ['0']
  else ((natDigitsRev n n).reverse.map fun d => Char.ofNat (48 + d))

/-- Value of a list of decimal digit characters, most significant first. -/
def digitsVal (acc : Nat) : List Char → Nat
  | [] => acc
  | c :: rest => digitsVal (acc * 10 + (c.toNat - 48)) rest

/-- The longest decimal-digit prefix of a string read as a number, `none`
(NaN) when there is no digit. -/
def parseDigitsCore (t : JStr) : Option Nat :=
  let ds := t.takeWhile Char.isDigit
  if ds = [] then none else some (digitsVal 0 ds)

/-- JS `parseInt` on a string (radix unspecified): skip leading whitespace,
read an optional sign, then the longest prefix of decimal digits; the result
is `none` (NaN) when no digit is found.  The hexadecimal `0x` prefix form is
not exercised by this repository and is not modelled. -/
def jsParseInt (s : JStr) : Option Int :=
  match s.dropWhile Char.isWhitespace with
  | [] => none
  | c :: rest =>
    if c = '-' then (parseDigitsCore rest).map fun n => -(n : Int)
    else if c = '+' then (parseDigitsCore rest).map fun n => (n : Int)
    else (parseDigitsCore (c :: rest)).map fun n => (n : Int)

/-- JS `Number` conversion of a string to a non-negative integer as used by
the uint32 normalization of source-group ssrcs: the whole trimmed string must
be decimal digits ("" converts to 0); anything else is NaN, which `ToUint32`
maps to 0. -/
def jsToUint32OfStr (s : JStr) : Nat :=
  let t := jsTrim s
  if t = [] then 0
  else if t.all Char.isDigit then digitsVal 0 t else 0

/-- JS truthiness of an optional string: `undefined`/`null` and the empty
string are falsy. -/
def jsTruthyStr : Option JStr → Bool
  | none => false
  | some s => s ≠ []

section AList

variable {α : Type} {β : Type} [DecidableEq α]

/-- JS `Map.prototype.get` / keyed-object read on an insertion-ordered
association list. -/
def aget (k : α) : List (α × β) → Option β
  | [] => none
  | (k2, v) :: rest => if k2 = k then some v else aget k rest

/-- JS `Map.prototype.set` / keyed-object write: update the value in place
when the key exists, append otherwise. -/
def aset (k : α) (v : β) : List (α × β) → List (α × β)
  | [] => [(k, v)]
  | (k2, v2) :: rest => if k2 = k then (k, v) :: rest else (k2, v2) :: aset k v rest

/-- Update the value stored at a key, when present. -/
def amod (k : α) (f : β → β) : List (α × β) → List (α × β)
  | [] => []
  | (k2, v) :: rest => if k2 = k then (k2, f v) :: rest else (k2, v) :: amod k f rest

end AList

/-- Replace the first element satisfying the predicate, leaving the rest of
the list unchanged (models a JS `for` loop that mutates one element and then
breaks). -/
def updateFirst {α : Type} (p : α → Bool) (f : α → α) : List α → List α
  | [] => []
  | x :: rest => if p x then f x :: rest else x :: updateFirst p f rest

/-- Errors thrown by the embedded JavaScript (TypeError on null/undefined
dereference, and similar). -/
inductive JsError where
  | typeError (msg : JStr)
  deriving DecidableEq, Repr

/-- Dereference a possibly-null JS value, throwing a TypeError when it is
null or undefined. -/
def deref {β : Type} (msg : String) : Option β → Except JsError β
  | none => .error (.typeError (js msg))
  | some v => .ok v

instance {ε α : Type} [DecidableEq ε] [DecidableEq α] :
    DecidableEq (Except ε α) := fun x y =>
  match x, y with
  | .error a, .error b => decidable_of_iff (a = b) (by simp)
  | .error _, .ok _ => .isFalse (by simp)
  | .ok _, .error _ => .isFalse (by simp)
  | .ok a, .ok b => decidable_of_iff (a = b) (by simp)

/-! ## Enumerations

`Direction.js`, `DirectionWay.js` and `Setup.js` are modules of this
repository that are not under src/. -/

/-- Modelled from the spec: media direction enumeration used by MediaInfo
(spec sections 3 and 4.1 step 1; values are the standard SDP direction
attributes). -/
inductive Direction where
  | SENDRECV | SENDONLY | RECVONLY | INACTIVE
  deriving DecidableEq, Repr

/-- Modelled from the spec: Direction.toString, mapping each enumeration
value to its SDP attribute string. -/
def Direction.toStr : Direction → JStr
  | .SENDRECV => js "sendrecv"
  | .SENDONLY => js "sendonly"
  | .RECVONLY => js "recvonly"
  | .INACTIVE => js "inactive"

/-- Modelled from the spec: Direction.byValue, the inverse mapping; the
parser applies it only to present direction attributes and defaults to
SENDRECV otherwise (spec section 4.1 step 1). -/
def Direction.byValue (s : JStr) : Direction :=
  if s = js "sendrecv" then .SENDRECV
  else if s = js "sendonly" then .SENDONLY
  else if s = js "recvonly" then .RECVONLY
  else if s = js "inactive" then .INACTIVE
  else .SENDRECV

/-- Modelled from the spec: one-way direction (send/receive) used by RID and
simulcast attributes. -/
inductive DirectionWay where
  | SEND | RECV
  deriving DecidableEq, Repr

/-- Modelled from the spec: DirectionWay.toString. -/
def DirectionWay.toStr : DirectionWay → JStr
  | .SEND => js "send"
  | .RECV => js "recv"

/-- Modelled from the spec: DirectionWay.byValue. -/
def DirectionWay.byValue (s : JStr) : DirectionWay :=
  if s = js "recv" then .RECV else .SEND

/-- Modelled from the spec: DTLS setup role enumeration (spec section 4.1
step 2: defaults to ACTPASS when the attribute is absent). -/
inductive Setup where
  | ACTIVE | PASSIVE | ACTPASS | INACTIVE
  deriving DecidableEq, Repr

/-- Modelled from the spec: Setup.toString. -/
def Setup.toStr : Setup → JStr
  | .ACTIVE => js "active"
  | .PASSIVE => js "passive"
  | .ACTPASS => js "actpass"
  | .INACTIVE => js "inactive"

/-- Modelled from the spec: Setup.byValue, the inverse mapping (applied by
the parser only to well-formed setup attributes). -/
def Setup.byValue (s : JStr) : Setup :=
  if s = js "active" then .ACTIVE
  else if s = js "passive" then .PASSIVE
  else if s = js "inactive" then .INACTIVE
  else .ACTPASS

/-! ## Entity graph

SDPInfo and StreamInfo are translated from src/lib/SDPInfo.js and the
StreamInfo source file; ICEInfo from src/lib/ICEInfo.js (its `lite` flag and
the `isLite` accessor used by SDPInfo.toString are modelled from the spec,
the provided copy of ICEInfo.js being visibly truncated).  The remaining
entity classes (MediaInfo, CodecInfo, DTLSInfo, CandidateInfo, TrackInfo,
SourceInfo, SourceGroupInfo, RIDInfo, SimulcastInfo, TrackEncodingInfo) are
modules of this repository missing from src/ and are modelled from the
spec's data-model table (section 3). -/

/-- ICE credentials (src/lib/ICEInfo.js): ufrag, pwd and the lite flag. -/
structure ICEInfo where
  ufrag : JStr
  pwd : JStr
  lite : Bool := false
  deriving DecidableEq, Repr

/-- Modelled from the spec: ICEInfo.isLite, the accessor SDPInfo.toString
reads (the truncated src copy shows the `lite` field with a plain getter). -/
def ICEInfo.isLite (i : ICEInfo) : Bool := i.lite

/-- Modelled from the spec: DTLSInfo value record (setup role, hash
function, fingerprint). -/
structure DTLSInfo where
  setup : Setup
  hash : JStr
  fingerprint : JStr
  deriving DecidableEq, Repr

/-- Modelled from the spec: CandidateInfo value record (foundation,
component, transport, priority, address, port, type). -/
structure CandidateInfo where
  foundation : JStr
  componentId : Nat
  transport : JStr
  priority : Nat
  address : JStr
  port : Nat
  type : JStr
  deriving DecidableEq, Repr

/-- Modelled from the spec: CodecInfo value record — codec name, payload
type, fmtp parameter map (insertion-ordered), optional associated RTX
payload type.  `setRTX` writes the rtx field; `hasRTX` tests it. -/
structure CodecInfo where
  codec : JStr
  type : Nat
  params : List (JStr × JStr) := []
  rtx : Option Nat := none
  deriving DecidableEq, Repr

/-- Modelled from the spec: RIDInfo value record (id, direction, associated
payload-type formats, generic parameter map). -/
structure RIDInfo where
  id : JStr
  direction : DirectionWay
  formats : List JStr := []
  params : List (JStr × JStr) := []
  deriving DecidableEq, Repr

/-- Modelled from the spec: one simulcast alternative stream (rid id and
paused flag). -/
structure SimulcastStreamInfo where
  id : JStr
  paused : Bool
  deriving DecidableEq, Repr

/-- Modelled from the spec: SimulcastInfo — per direction, the ordered list
of alternative-stream sets. -/
structure SimulcastInfo where
  send : List (List SimulcastStreamInfo) := []
  recv : List (List SimulcastStreamInfo) := []
  deriving DecidableEq, Repr

/-- Modelled from the spec: SimulcastInfo.getSimulcastStreams. -/
def SimulcastInfo.getSimulcastStreams (s : SimulcastInfo) :
    DirectionWay → List (List SimulcastStreamInfo)
  | .SEND => s.send
  | .RECV => s.recv

/-- Modelled from the spec: SimulcastInfo.addSimulcastAlternativeStreams,
appending an alternative set to the given direction. -/
def SimulcastInfo.addAlternatives (s : SimulcastInfo) (d : DirectionWay)
    (alts : List SimulcastStreamInfo) : SimulcastInfo :=
  match d with
  | .SEND => { s with send := s.send ++ [alts] }
  | .RECV => { s with recv := s.recv ++ [alts] }

/-- Modelled from the spec: TrackEncodingInfo — one simulcast encoding: rid
id, paused flag, resolved codecs, rid parameters. -/
structure TrackEncodingInfo where
  id : JStr
  paused : Bool
  codecs : List (Nat × CodecInfo) := []
  params : List (JStr × JStr) := []
  deriving DecidableEq, Repr

/-- Modelled from the spec: MediaInfo — one negotiated media section: id
(mid), type, direction, codec map keyed by payload type, extension map,
RID map, optional simulcast, bitrate (0 meaning unset). -/
structure MediaInfo where
  id : JStr
  type : JStr
  direction : Direction := .SENDRECV
  codecs : List (Nat × CodecInfo) := []
  extensions : List (Nat × JStr) := []
  rids : List (JStr × RIDInfo) := []
  simulcast : Option SimulcastInfo := none
  bitrate : Nat := 0
  deriving DecidableEq, Repr

/-- Modelled from the spec: MediaInfo.addCodec — store the codec in the
codec map keyed by its payload type. -/
def MediaInfo.addCodec (m : MediaInfo) (c : CodecInfo) : MediaInfo :=
  { m with codecs := aset c.type c m.codecs }

/-- A JS value used as a `Map` key or lookup argument: a number, a string,
or NaN; JS Map key equality (SameValueZero) distinguishes the three and
equates NaN with NaN. -/
inductive MKey where
  | num (n : Int)
  | str (s : JStr)
  | nan
  deriving DecidableEq, Repr

/-- Modelled from the spec: MediaInfo.getCodecForType — look the codec map
up by payload-type key; a string or NaN key never matches a numeric payload
type (spec section 9 directs the association to be resolved purely by
payload-type equality). -/
def MediaInfo.getCodecForType (m : MediaInfo) (k : MKey) : Option CodecInfo :=
  match k with
  | .num n => if 0 ≤ n then aget n.toNat m.codecs else none
  | _ => none

/-- Modelled from the spec: MediaInfo.getRID. -/
def MediaInfo.getRID (m : MediaInfo) (id : JStr) : Option RIDInfo :=
  aget id m.rids

/-- Modelled from the spec: SourceGroupInfo — semantics tag plus the ordered
ssrc list; per the data model (ssrcs: ordered seq of uint32) the constructor
normalizes its arguments to uint32, so string ssrcs coming from the parse
path are converted to numbers. -/
structure SourceGroupInfo where
  semantics : JStr
  ssrcs : List Nat
  deriving DecidableEq, Repr

/-- Modelled from the spec: the parse-path SourceGroupInfo constructor,
taking the space-split ssrc strings and normalizing each to uint32. -/
def SourceGroupInfo.ofStrings (semantics : JStr) (ssrcs : List JStr) :
    SourceGroupInfo :=
  { semantics := semantics, ssrcs := ssrcs.map jsToUint32OfStr }

/-- Modelled from the spec: TrackInfo — media type, id, optional owning
media-line id, ordered ssrc list, source groups, simulcast encodings. -/
structure TrackInfo where
  media : JStr
  id : JStr
  mediaId : Option JStr := none
  ssrcs : List Nat := []
  groups : List SourceGroupInfo := []
  encodings : List (List TrackEncodingInfo) := []
  deriving DecidableEq, Repr

/-- Modelled from the spec: TrackInfo.addSSRC. -/
def TrackInfo.addSSRC (t : TrackInfo) (ssrc : Nat) : TrackInfo :=
  { t with ssrcs := t.ssrcs ++ [ssrc] }

/-- Modelled from the spec: TrackInfo.addSourceGroup. -/
def TrackInfo.addSourceGroup (t : TrackInfo) (g : SourceGroupInfo) : TrackInfo :=
  { t with groups := t.groups ++ [g] }

/-- Media stream information (StreamInfo source file): id plus the track
map keyed by track id. -/
structure StreamInfo where
  id : JStr
  tracks : List (JStr × TrackInfo) := []
  deriving DecidableEq, Repr

/-- StreamInfo.addTrack: `this.tracks.set(track.getId(), track)`. -/
def StreamInfo.addTrack (s : StreamInfo) (t : TrackInfo) : StreamInfo :=
  { s with tracks := aset t.id t s.tracks }

/-- StreamInfo.getTrack: `this.tracks.get(trackId)`. -/
def StreamInfo.getTrack (s : StreamInfo) (trackId : JStr) : Option TrackInfo :=
  aget trackId s.tracks

/-- Modelled from the spec: the parse-time scratch Source entity — a single
ssrc's correlated attributes (cname, owning stream id and track id). -/
structure SourceInfo where
  ssrc : Nat
  cname : Option JStr := none
  streamId : Option JStr := none
  trackId : Option JStr := none
  deriving DecidableEq, Repr

/-- The session root (src/lib/SDPInfo.js): version, stream map (insertion
order), ordered media list, ordered candidate list, optional session-level
ICE and DTLS. -/
structure SDPInfo where
  version : Nat := 1
  streams : List (JStr × StreamInfo) := []
  medias : List MediaInfo := []
  candidates : List CandidateInfo := []
  ice : Option ICEInfo := none
  dtls : Option DTLSInfo := none
  deriving DecidableEq, Repr

/-- The SDPInfo constructor: `this.version = version || 1` (an absent or
zero argument yields 1), with empty collections and null ice/dtls. -/
def SDPInfo.mkNew (version : Option Nat) : SDPInfo :=
  { version := match version with
      | none => 1
      | some v => if v = 0 then 1 else v }

/-- SDPInfo.addStream: `this.streams.set(stream.getId(), stream)`. -/
def SDPInfo.addStream (s : SDPInfo) (st : StreamInfo) : SDPInfo :=
  { s with streams := aset st.id st s.streams }

/-- SDPInfo.getStream: `this.streams.get(id)`; the id may be undefined when
it comes from an unset SourceInfo field, in which case no stream matches. -/
def SDPInfo.getStream (s : SDPInfo) (id : Option JStr) : Option StreamInfo :=
  match id with
  | none => none
  | some i => aget i s.streams

/-- SDPInfo.addMedia. -/
def SDPInfo.addMedia (s : SDPInfo) (m : MediaInfo) : SDPInfo :=
  { s with medias := s.medias ++ [m] }

/-! ## getMediaById, clone, plain, answer -/

/-- A JS return value that is either `undefined`, `null`, or a MediaInfo
object. -/
inductive JSRet where
  | undef
  | nullv
  | mediaV (m : MediaInfo)
  deriving DecidableEq, Repr

/-- SDPInfo.getMediaById (src/lib/SDPInfo.js lines 156-165): scan the media
list in order; on the first media whose id equals the argument
case-insensitively, return `this.media` — the SDPInfo object has no field
named `media` (its field is `medias`), so that property access yields
`undefined`; when no media matches, return `null`. -/
def SDPInfo.getMediaById (s : SDPInfo) (msid : JStr) : JSRet :=
  go s.medias
where
  go : List MediaInfo → JSRet
  | [] => .nullv
  | m :: rest => if jsLower m.id = jsLower msid then .undef else go rest

/-- SDPInfo.clone (src/lib/SDPInfo.js lines 46-66): deep-copy the object
graph.  Element clones of the pure value records are the values themselves;
the two final statements dereference `this.ice` and `this.dtls`
unconditionally (`this.ice.clone()` first), throwing a TypeError when either
is null. -/
def SDPInfo.clone (s : SDPInfo) : Except JsError SDPInfo := do
  let base := SDPInfo.mkNew (some s.version)
  let ice ← deref "Cannot read properties of null (reading clone of ice)" s.ice
  let dtls ← deref "Cannot read properties of null (reading clone of dtls)" s.dtls
  pure { base with
    medias := s.medias
    streams := s.streams
    candidates := s.candidates
    ice := some ice
    dtls := some dtls }

/-- The plain-object projection of a session (SDPInfo.plain): the entity
plain() projections of the pure value records are modelled as the records
themselves; ice and dtls are emitted via `this.ice && this.ice.plain()`, so
a null field stays null-ish. -/
structure PlainSDPInfo where
  version : Nat
  streams : List StreamInfo
  medias : List MediaInfo
  candidates : List CandidateInfo
  ice : Option ICEInfo
  dtls : Option DTLSInfo
  deriving DecidableEq, Repr

/-- SDPInfo.plain (src/lib/SDPInfo.js lines 72-97): total — no null check is
needed because of the short-circuit `&&` guards on ice and dtls. -/
def SDPInfo.plain (s : SDPInfo) : PlainSDPInfo :=
  { version := s.version
    streams := s.streams.map Prod.snd
    medias := s.medias
    candidates := s.candidates
    ice := s.ice
    dtls := s.dtls }

/-- The params object of SDPInfo.answer: local ICE, DTLS, candidates and the
per-media-type capability map (a missing map makes the per-media index
throw).  The capability payload type is abstract — capability filtering
lives in MediaInfo, a collaborator. -/
structure AnswerParams (α : Type) where
  ice : Option ICEInfo := none
  dtls : Option DTLSInfo := none
  candidates : Option (List CandidateInfo) := none
  capabilities : Option (JStr → Option α) := none

/-- SDPInfo.answer (src/lib/SDPInfo.js lines 300-326), parameterized by the
dispatch to the collaborator method MediaInfo.answer.  Note the source's
swapped guards: a truthy `params.ice` triggers `setDTLS(params.dtls)` and a
truthy `params.dtls` triggers `setICE(params.ice)`; with both present the
answer still carries the caller's ice and dtls. -/
def SDPInfo.answer {α : Type} (mediaAnswer : MediaInfo → Option α → MediaInfo)
    (s : SDPInfo) (params : AnswerParams α) : Except JsError SDPInfo := do
  let base := SDPInfo.mkNew none
  let base := if params.ice.isSome then { base with dtls := params.dtls } else base
  let base := if params.dtls.isSome then { base with ice := params.ice } else base
  let base := match params.candidates with
    | some cs => { base with candidates := base.candidates ++ cs }
    | none => base
  s.medias.foldlM
    (fun acc m => do
      let caps ← deref "Cannot read properties of undefined (capabilities)"
        params.capabilities
      pure (acc.addMedia (mediaAnswer m (caps m.type))))
    base

/-! ## The generic attribute tree

These record types model the tree consumed from `SDPTransform.parse` and
handed to `SDPTransform.write` (spec section 6 collaborator contract). -/

/-- One `a=rtpmap` record of the tree. -/
structure RtpEntry where
  payload : Nat
  codec : JStr
  rate : Option Nat := none
  encoding : Option Nat := none
  deriving DecidableEq, Repr

/-- One `a=fmtp` record of the tree. -/
structure FmtpEntry where
  payload : Nat
  config : JStr
  deriving DecidableEq, Repr

/-- One `a=rtcp-fb` record of the tree. -/
structure RtcpFbEntry where
  payload : Nat
  type : JStr
  subtype : Option JStr := none
  deriving DecidableEq, Repr

/-- One `a=extmap` record of the tree. -/
structure ExtEntry where
  value : Nat
  uri : JStr
  deriving DecidableEq, Repr

/-- One `b=` record of the tree. -/
structure BandwidthEntry where
  type : JStr
  limit : Nat
  deriving DecidableEq, Repr

/-- One `a=candidate` record of the tree. -/
structure TreeCandidate where
  foundation : JStr
  component : Nat
  transport : JStr
  priority : Nat
  ip : JStr
  port : Nat
  type : JStr
  deriving DecidableEq, Repr

/-- One `a=ssrc` record of the tree; `attr` models the record field the
source reads as `ssrcAttr.attribute`. -/
structure SsrcEntry where
  id : Nat
  attr : JStr
  value : JStr
  deriving DecidableEq, Repr

/-- One `a=ssrc-group` record of the tree. -/
structure SsrcGroupEntry where
  semantics : JStr
  ssrcs : JStr
  deriving DecidableEq, Repr

/-- One `a=rid` record of the tree. -/
structure RidEntry where
  id : JStr
  direction : JStr
  params : JStr
  deriving DecidableEq, Repr

/-- The `a=simulcast` record of the tree (dir/list attribute pairs filled in
index order by the serializer). -/
structure SimulcastAttr where
  dir1 : Option JStr := none
  list1 : Option JStr := none
  dir2 : Option JStr := none
  list2 : Option JStr := none
  deriving DecidableEq, Repr

/-- An `a=fingerprint` record of the tree. -/
structure FingerprintAttr where
  type : JStr
  hash : JStr
  deriving DecidableEq, Repr

/-- One media description of the tree. -/
structure MD where
  type : JStr
  port : Nat := 9
  protocol : JStr := js "UDP/TLS/RTP/SAVPF"
  fmtp : List FmtpEntry := []
  rtp : List RtpEntry := []
  rtcpFb : List RtcpFbEntry := []
  ext : List ExtEntry := []
  bandwidth : List BandwidthEntry := []
  candidates : List TreeCandidate := []
  ssrcGroups : List SsrcGroupEntry := []
  ssrcs : List SsrcEntry := []
  rids : List RidEntry := []
  direction : Option JStr := none
  rtcpMux : Option JStr := none
  rtcpRsize : Option JStr := none
  mid : JStr := []
  msid : Option JStr := none
  iceUfrag : JStr := []
  icePwd : JStr := []
  fingerprint : Option FingerprintAttr := none
  setup : Option JStr := none
  payloads : JStr := []
  simulcast : Option SimulcastAttr := none
  deriving DecidableEq, Repr

/-- The `o=` record of the tree. -/
structure Origin where
  username : JStr
  sessionId : Nat
  sessionVersion : Nat
  netType : JStr
  ipVer : Nat
  address : JStr
  deriving DecidableEq, Repr

/-- The `c=` record of the tree. -/
structure ConnectionAttr where
  version : Nat
  ip : JStr
  deriving DecidableEq, Repr

/-- The `t=` record of the tree. -/
structure TimingAttr where
  start : Nat
  stop : Nat
  deriving DecidableEq, Repr

/-- The `a=msid-semantic` record of the tree. -/
structure MsidSemanticAttr where
  semantic : JStr
  token : JStr
  deriving DecidableEq, Repr

/-- One `a=group` record of the tree. -/
structure GroupAttr where
  type : JStr
  mids : JStr
  deriving DecidableEq, Repr

/-- The root of the generic attribute tree. -/
structure SdpTree where
  version : Nat := 0
  origin : Origin
  name : JStr := []
  connection : ConnectionAttr
  timing : TimingAttr
  icelite : Option JStr := none
  msidSemantic : MsidSemanticAttr
  groups : List GroupAttr := []
  media : List MD := []
  fingerprint : Option FingerprintAttr := none
  deriving DecidableEq, Repr

/-! ## Parse path stages (SDPInfo.process) -/

/-- The fmtp config parser of SDPInfo.process (lines 818-828): split the
config string on semicolons, split each item on the first `=`, trim key and
value, defaulting a missing value to the empty string, and assign into the
accumulated parameter object. -/
def applyFmtpConfig (config : JStr) (params : List (JStr × JStr)) :
    List (JStr × JStr) :=
  (jsSplit ';' config).foldl
    (fun acc item =>
      let parts := jsSplit '=' item
      let key := jsTrim parts.headI
      let value := jsTrim ((parts.get? 1).getD [])
      aset key value acc)
    params

/-- The parameter object accumulated for one payload type: every fmtp entry
whose payload matches contributes its config string in order (lines
809-830). -/
def parseFmtpFor (type : Nat) (fmtps : List FmtpEntry) : List (JStr × JStr) :=
  fmtps.foldl
    (fun acc f => if f.payload = type then applyFmtpConfig f.config acc else acc)
    []

/-- The fmtp params lookup feeding `parseInt(params.apt)`: an absent `apt`
key gives `parseInt(undefined)` which is NaN; a present value is parsed as
an integer, NaN on failure. -/
def aptKey (params : List (JStr × JStr)) : MKey :=
  match aget (js "apt") params with
  | none => .nan
  | some v =>
    match jsParseInt v with
    | none => .nan
    | some i => .num i

/-- One step of the main rtp pass of SDPInfo.process (lines 793-838): skip
RED and ULPFEC entries; record an RTX entry's (apt, payload) pair in the
scratch map instead of creating a codec; create a codec from any other
entry. -/
def codecPassStep (fmtps : List FmtpEntry) (st : MediaInfo × List (MKey × Nat))
    (fmt : RtpEntry) : MediaInfo × List (MKey × Nat) :=
  let type := fmt.payload
  let codec := fmt.codec
  if jsUpper codec = js "RED" ∨ jsUpper codec = js "ULPFEC" then st
  else
    let params := parseFmtpFor type fmtps
    if jsUpper codec = js "RTX" then
      (st.1, aset (aptKey params) type st.2)
    else
      (st.1.addCodec { codec := codec, type := type, params := params }, st.2)

/-- The main rtp pass of SDPInfo.process over all rtp entries, returning the
populated MediaInfo and the scratch apt map. -/
def codecMainPass (rtps : List RtpEntry) (fmtps : List FmtpEntry)
    (m : MediaInfo) : MediaInfo × List (MKey × Nat) :=
  rtps.foldl (codecPassStep fmtps) (m, [])

/-- One entry of the post-pass RTX resolution of SDPInfo.process (lines
841-849): look up the codec whose payload type equals the recorded apt key
(the `getCodecForType` lookup); when found, set its RTX payload in place;
otherwise drop the pair silently. -/
def rtxStep (m : MediaInfo) (ap : MKey × Nat) : MediaInfo :=
  match ap.1 with
  | .num n =>
    if 0 ≤ n then
      match aget n.toNat m.codecs with
      | some _ =>
        { m with
          codecs := amod n.toNat (fun c => { c with rtx := some ap.2 }) m.codecs }
      | none => m
    else m
  | _ => m

/-- The post-pass RTX resolution loop over the recorded apt map. -/
def resolveRTX (st : MediaInfo × List (MKey × Nat)) : MediaInfo :=
  st.2.foldl rtxStep st.1

/-- The whole codec reconstruction of one media line: main rtp pass followed
by RTX resolution. -/
def buildCodecs (rtps : List RtpEntry) (fmtps : List FmtpEntry)
    (m : MediaInfo) : MediaInfo :=
  resolveRTX (codecMainPass rtps fmtps m)

/-- Modelled from the spec: MediaInfo.addExtension — store the uri in the
extension map keyed by numeric id. -/
def MediaInfo.addExtension (m : MediaInfo) (id : Nat) (uri : JStr) : MediaInfo :=
  { m with extensions := aset id uri m.extensions }

/-- Modelled from the spec: MediaInfo.addRID — store the RID in the rid map
keyed by its id. -/
def MediaInfo.addRID (m : MediaInfo) (r : RIDInfo) : MediaInfo :=
  { m with rids := aset r.id r m.rids }

/-- Modelled from the spec: the collaborator `SDPTransform.parseParams`
applied to a rid parameter string — the same semicolon-separated
`key=value` grammar as fmtp configs (spec section 4.1 step 5). -/
def parseParams (s : JStr) : List (JStr × JStr) :=
  applyFmtpConfig s []

/-- The rid reconstruction of SDPInfo.process (lines 863-894): build a
RIDInfo from id and direction; when the parameter string is truthy, parse it,
turning the reserved `pt` key into the comma-separated format list and
every other key into a generic parameter. -/
def processRid (r : RidEntry) : RIDInfo :=
  let ridInfo : RIDInfo := { id := r.id, direction := DirectionWay.byValue r.direction }
  if r.params ≠ [] then
    let list := parseParams r.params
    let fp := list.foldl
      (fun acc kv =>
        if kv.1 = js "pt" then (jsSplit ',' kv.2, acc.2)
        else (acc.1, aset kv.1 kv.2 acc.2))
      (([] : List JStr), ([] : List (JStr × JStr)))
    { ridInfo with formats := fp.1, params := fp.2 }
  else ridInfo

/-- One entry of the simulcast stream-list micro-syntax. -/
structure SimStreamEntry where
  scid : JStr
  paused : Bool
  deriving DecidableEq, Repr

/-- Modelled from the spec: the collaborator
`SDPTransform.parseSimulcastStreamList` — semicolon-separated alternative
sets, comma-separated choices, optional leading `~` pause marker (spec
sections 4.1 step 6 and 8). -/
def parseSimulcastStreamList (s : JStr) : List (List SimStreamEntry) :=
  (jsSplit ';' s).map fun alt =>
    (jsSplit ',' alt).map fun e =>
      match e with
      | '~' :: rest => { scid := rest, paused := true }
      | _ => { scid := e, paused := false }

/-- One direction of the simulcast attribute handling of SDPInfo.process
(lines 906-944): when the dir attribute is truthy, parse the stream list and
append each alternative set under that direction. -/
def addSimDir (s : SimulcastInfo) (dir : Option JStr) (list : Option JStr) :
    SimulcastInfo :=
  if jsTruthyStr dir then
    let d := DirectionWay.byValue (dir.getD [])
    (parseSimulcastStreamList (list.getD [])).foldl
      (fun acc l =>
        acc.addAlternatives d (l.map fun e => SimulcastStreamInfo.mk e.scid e.paused))
      s
  else s

/-- The sending-encodings derivation of SDPInfo.process (lines 947-983):
for each SEND alternative set, materialize a TrackEncodingInfo per entry
whose rid resolves, resolving its formats through `getCodecForType` (the
string keys never match the numeric codec map, faithfully to the source),
and keep only non-empty alternative lists. -/
def buildEncodings (mediaInfo : MediaInfo) (simulcast : SimulcastInfo) :
    List (List TrackEncodingInfo) :=
  (simulcast.getSimulcastStreams .SEND).foldl
    (fun acc streams =>
      let alternatives := streams.foldl
        (fun alts st =>
          let encoding : TrackEncodingInfo := { id := st.id, paused := st.paused }
          match mediaInfo.getRID encoding.id with
          | some ridInfo =>
            let encoding := ridInfo.formats.foldl
              (fun e fmt =>
                match mediaInfo.getCodecForType (.str fmt) with
                | some codecInfo =>
                  { e with codecs := aset codecInfo.type codecInfo e.codecs }
                | none => e)
              encoding
            let encoding := { encoding with params := ridInfo.params }
            alts ++ [encoding]
          | none => alts)
        []
      if alternatives ≠ [] then acc ++ [alternatives] else acc)
    []

/-- One step of the source-correlation pass of SDPInfo.process (lines
993-1054): get or create the scratch Source for this ssrc; a `cname`
attribute records the cname; an `msid` attribute (split on spaces, a missing
track component modelled as the empty string) records the owning ids and
immediately gets or creates the StreamInfo and TrackInfo — a newly created
track receives the simulcast encodings — and appends the ssrc to the
track. -/
def sourcesStep (media : JStr) (encodings : List (List TrackEncodingInfo))
    (st : List (Nat × SourceInfo) × SDPInfo) (e : SsrcEntry) :
    List (Nat × SourceInfo) × SDPInfo :=
  let (sources, sdpInfo) := st
  let source := match aget e.id sources with
    | some s => s
    | none => { ssrc := e.id : SourceInfo }
  if jsLower e.attr = js "cname" then
    (aset e.id { source with cname := some e.value } sources, sdpInfo)
  else if jsLower e.attr = js "msid" then
    let ids := jsSplit ' ' e.value
    let streamId := ids.headI
    let trackId := (ids.get? 1).getD []
    let source := { source with streamId := some streamId, trackId := some trackId }
    let sources := aset e.id source sources
    let stream := match aget streamId sdpInfo.streams with
      | some s => s
      | none => { id := streamId : StreamInfo }
    let track := match stream.getTrack trackId with
      | some t => t
      | none => { media := media, id := trackId, encodings := encodings : TrackInfo }
    let track := track.addSSRC e.id
    (sources, sdpInfo.addStream (stream.addTrack track))
  else
    (aset e.id source sources, sdpInfo)

/-- The global-msid fallback of SDPInfo.process (lines 1057-1103): when the
media line carries a truthy msid, get or create the stream and track — a
newly created track gets `mediaId := mid` and the encodings — and assign
every scratch Source without a truthy stream id to this track, appending its
ssrc. -/
def globalMsidPass (media mid : JStr) (encodings : List (List TrackEncodingInfo))
    (mdMsid : Option JStr) (st : List (Nat × SourceInfo) × SDPInfo) :
    List (Nat × SourceInfo) × SDPInfo :=
  if jsTruthyStr mdMsid then
    let msid := mdMsid.getD []
    let ids := jsSplit ' ' msid
    let streamId := ids.headI
    let trackId := (ids.get? 1).getD []
    let (sources, sdpInfo) := st
    let stream := match aget streamId sdpInfo.streams with
      | some s => s
      | none => { id := streamId : StreamInfo }
    let track := match stream.getTrack trackId with
      | some t => t
      | none =>
        { media := media, id := trackId, mediaId := some mid,
          encodings := encodings : TrackInfo }
    let fin := sources.foldl
      (fun (acc : List (Nat × SourceInfo) × TrackInfo) p =>
        if jsTruthyStr p.2.streamId then acc
        else
          (aset p.1 { p.2 with streamId := some streamId, trackId := some trackId } acc.1,
           acc.2.addSSRC p.1))
      (sources, track)
    (fin.1, sdpInfo.addStream (stream.addTrack fin.2))
  else st

/-- StreamInfo.getTrack applied to a possibly-undefined track id (an unset
SourceInfo field): an undefined key matches nothing. -/
def StreamInfo.getTrackOpt (s : StreamInfo) : Option JStr → Option TrackInfo
  | none => none
  | some tid => aget tid s.tracks

/-- The scratch-Source lookup for a group's first listed ssrc
(`sources.get(parseInt(ssrcs[0]))` at line 1121): the split string list's
head parsed as an integer, then looked up in the sources map (a NaN or
negative parse matches no numeric key). -/
def groupFirstSource (sources : List (Nat × SourceInfo)) (g : SsrcGroupEntry) :
    Option SourceInfo :=
  match jsParseInt (jsSplit ' ' g.ssrcs).headI with
  | some n => if 0 ≤ n then aget n.toNat sources else none
  | none => none

/-- One ssrc-group record of the ssrcGroups pass of SDPInfo.process (lines
1109-1127): split the ssrc list, build the group, resolve the owning track
through the first listed ssrc's scratch Source, and append the group to that
track; each failed lookup in the chain is the TypeError the source would
throw on the corresponding null/undefined dereference. -/
def ssrcGroupsStep (sources : List (Nat × SourceInfo)) (sdpInfo : SDPInfo)
    (g : SsrcGroupEntry) : Except JsError SDPInfo := do
  let ssrcsStrs := jsSplit ' ' g.ssrcs
  let group := SourceGroupInfo.ofStrings g.semantics ssrcsStrs
  let source ← deref "Cannot read properties of undefined (reading getStreamId)"
    (groupFirstSource sources g)
  let stream ← deref "Cannot read properties of undefined (reading getTrack)"
    (sdpInfo.getStream source.streamId)
  let track ← deref "Cannot read properties of undefined (reading addSourceGroup)"
    (stream.getTrackOpt source.trackId)
  pure (sdpInfo.addStream (stream.addTrack (track.addSourceGroup group)))

/-- The whole ssrcGroups pass over one media line. -/
def applySSRCGroups (groups : List SsrcGroupEntry)
    (sources : List (Nat × SourceInfo)) (sdpInfo : SDPInfo) :
    Except JsError SDPInfo :=
  groups.foldlM (ssrcGroupsStep sources) sdpInfo

/-- Processing of one media description by SDPInfo.process (lines 739-1131):
media info creation, session ICE/DTLS overwrite (a missing fingerprint
attribute at both levels is the TypeError of reading `.type` of undefined),
direction, codecs, extensions, rids, simulcast and encodings, source
correlation, global msid fallback, and the ssrcGroups pass. -/
def processMedia (tree : SdpTree) (sdp0 : SDPInfo) (md : MD) :
    Except JsError SDPInfo := do
  let media := md.type
  let mid := md.mid
  let mediaInfo : MediaInfo := { id := mid, type := media }
  let sdp1 := { sdp0 with ice := some { ufrag := md.iceUfrag, pwd := md.icePwd } }
  let fingerprintAttr ← deref "Cannot read properties of undefined (reading type)"
    (match md.fingerprint with
     | some f => some f
     | none => tree.fingerprint)
  let setup := match md.setup with
    | none => Setup.ACTPASS
    | some v => Setup.byValue v
  let sdp2 := { sdp1 with
    dtls := some { setup := setup, hash := fingerprintAttr.type,
                   fingerprint := fingerprintAttr.hash } }
  let direction := match md.direction with
    | none => Direction.SENDRECV
    | some v => Direction.byValue v
  let mediaInfo := { mediaInfo with direction := direction }
  let mediaInfo := buildCodecs md.rtp md.fmtp mediaInfo
  let mediaInfo := md.ext.foldl (fun m e => m.addExtension e.value e.uri) mediaInfo
  let mediaInfo := md.rids.foldl (fun m r => m.addRID (processRid r)) mediaInfo
  let enc : List (List TrackEncodingInfo) × MediaInfo :=
    match md.simulcast with
    | none => ([], mediaInfo)
    | some sa =>
      let simulcast := addSimDir (addSimDir {} sa.dir1 sa.list1) sa.dir2 sa.list2
      (buildEncodings mediaInfo simulcast,
       { mediaInfo with simulcast := some simulcast })
  let encodings := enc.1
  let mediaInfo := enc.2
  let st := md.ssrcs.foldl (sourcesStep media encodings) ([], sdp2)
  let st := globalMsidPass media mid encodings md.msid st
  let sdp3 ← applySSRCGroups md.ssrcGroups st.1 st.2
  pure (sdp3.addMedia mediaInfo)

/-- SDPInfo.process (src/lib/SDPInfo.js lines 727-1133) applied to the
attribute tree produced by the `SDPTransform.parse` collaborator: set the
version and fold the media descriptions. -/
def processTree (tree : SdpTree) : Except JsError SDPInfo := do
  let sdpInfo := SDPInfo.mkNew none
  let sdpInfo := { sdpInfo with version := tree.version }
  tree.media.foldlM (processMedia tree) sdpInfo

/-! ## Serialize path stages (SDPInfo.toString) -/

/-- JS strict equality (`===`) between a Boolean and a String: operands of
different types are never strictly equal. -/
def jsStrictEqBoolStr (_b : Bool) (_s : JStr) : Bool := false

/-- The guard at src/lib/SDPInfo.js line 467, exactly as written:
`!"flex-fec" === codec.getCodec().toLowerCase()`.  By JS precedence the
negation applies to the string literal first — a non-empty string is truthy,
so `!"flex-fec"` is the Boolean false — and the strict equality then
compares that Boolean with the lowercased codec name, which is false for
every codec. -/
def flexFecGuard (name : JStr) : Bool :=
  jsStrictEqBoolStr (!(jsTruthyStr (some (js "flex-fec")))) (jsLower name)

/-- The per-codec loop of SDPInfo.toString (lines 454-510): video codecs get
a 90000-rate rtp entry and — only under `flexFecGuard` — nack/pli and
goog-remb feedback; audio codecs get a 48000-rate 2-channel entry for opus
and an 8000-rate entry otherwise; every codec gets transport-cc feedback;
a codec with an associated RTX payload adds the rtx rtp entry and its apt
fmtp entry. -/
def codecEntryStep (mtype : JStr) (md : MD) (codec : CodecInfo) : MD :=
  let md : MD :=
    if js "video" = jsLower mtype then
      let md := { md with rtp := md.rtp ++
        [{ payload := codec.type, codec := codec.codec, rate := some 90000 }] }
      if flexFecGuard codec.codec then
        { md with rtcpFb := md.rtcpFb ++
          [{ payload := codec.type, type := js "nack", subtype := some (js "pli") },
           { payload := codec.type, type := js "goog-remb" }] }
      else md
    else
      if js "opus" = jsLower codec.codec then
        { md with rtp := md.rtp ++
          [{ payload := codec.type, codec := codec.codec, rate := some 48000,
             encoding := some 2 }] }
      else
        { md with rtp := md.rtp ++
          [{ payload := codec.type, codec := codec.codec, rate := some 8000 }] }
  let md := { md with rtcpFb := md.rtcpFb ++
    [{ payload := codec.type, type := js "transport-cc" }] }
  match codec.rtx with
  | some rtx =>
    { md with
      rtp := md.rtp ++ [{ payload := rtx, codec := js "rtx", rate := some 90000 }],
      fmtp := md.fmtp ++ [{ payload := rtx, config := js "apt=" ++ natToJStr codec.type }] }
  | none => md

def codecLoop (mtype : JStr) (codecs : List CodecInfo) (md : MD) : MD :=
  codecs.foldl (codecEntryStep mtype) md

/-- The rid serialization of SDPInfo.toString (lines 531-549): a `pt=` list
when formats are present, then each parameter appended with `;`
separators. -/
def ridToEntry (r : RIDInfo) : RidEntry :=
  let params0 : JStr :=
    if r.formats.length ≠ 0 then js "pt=" ++ jsJoin (js ",") r.formats else []
  let params := r.params.foldl
    (fun acc kv =>
      acc ++ (if acc.length ≠ 0 then js ";" else []) ++ kv.1 ++ js "=" ++ kv.2)
    params0
  { id := r.id, direction := DirectionWay.toStr r.direction, params := params }

/-- The simulcast list serialization of SDPInfo.toString: alternatives
joined with commas (a paused stream prefixed with the tilde marker) and
alternative sets joined with semicolons. -/
def simulcastList (streams : List (List SimulcastStreamInfo)) : JStr :=
  streams.foldl
    (fun list alts =>
      let alternatives := alts.foldl
        (fun acc st =>
          acc ++ (if acc.length ≠ 0 then js "," else []) ++
            (if st.paused then js "~" else []) ++ st.id)
        []
      list ++ (if list.length ≠ 0 then js ";" else []) ++ alternatives)
    []

/-- The simulcast attribute of SDPInfo.toString (lines 552-608): dir/list
attribute pairs filled in index order, send first when non-empty. -/
def buildSimulcastAttr (sim : SimulcastInfo) : SimulcastAttr :=
  let send := sim.getSimulcastStreams .SEND
  let recv := sim.getSimulcastStreams .RECV
  let sa : SimulcastAttr := {}
  if send ≠ [] then
    let sa := { sa with dir1 := some (js "send"), list1 := some (simulcastList send) }
    if recv ≠ [] then
      { sa with dir2 := some (js "recv"), list2 := some (simulcastList recv) }
    else sa
  else
    if recv ≠ [] then
      { sa with dir1 := some (js "recv"), list1 := some (simulcastList recv) }
    else sa

/-- The per-media tree construction of SDPInfo.toString (lines 379-611):
defaults, direction, rtcp flags, mid, bandwidth, the session candidates, ICE
credentials, DTLS fingerprint and setup (a null dtls makes the `getHash`
dereference throw), the codec loop, the payloads string, extensions, rids,
and the simulcast attribute. -/
def buildMD (s : SDPInfo) (ice : ICEInfo) (media : MediaInfo) :
    Except JsError MD := do
  let md : MD := { type := media.type }
  let md := { md with
    direction := some (Direction.toStr media.direction),
    rtcpMux := some (js "rtcp-mux"),
    rtcpRsize := some (js "rtcp-rsize"),
    mid := media.id }
  let md :=
    if media.bitrate > 0 then
      { md with bandwidth := [{ type := js "AS", limit := media.bitrate }] }
    else md
  let mdCandidates : List TreeCandidate := s.candidates.map fun c =>
    { foundation := c.foundation, component := c.componentId,
      transport := c.transport, priority := c.priority, ip := c.address,
      port := c.port, type := c.type }
  let md := { md with candidates := mdCandidates }
  let dtls ← deref "Cannot read properties of null (reading getHash)" s.dtls
  let md := { md with
    iceUfrag := ice.ufrag,
    icePwd := ice.pwd,
    fingerprint := some { type := dtls.hash, hash := dtls.fingerprint },
    setup := some (Setup.toStr dtls.setup) }
  let md := codecLoop media.type (media.codecs.map Prod.snd) md
  let md := { md with
    payloads := jsJoin (js " ") (md.rtp.map fun (r : RtpEntry) => natToJStr r.payload) }
  let mdExt : List ExtEntry := media.extensions.map fun p =>
    { value := p.1, uri := p.2 }
  let md := { md with ext := mdExt }
  let md := { md with rids := (media.rids.map Prod.snd).map ridToEntry }
  let md := match media.simulcast with
    | some sim => { md with simulcast := some (buildSimulcastAttr sim) }
    | none => md
  pure md

/-- The unified-plan attachment of SDPInfo.toString (lines 630-665): append
the track's ssrc-groups, a cname ssrc attribute per ssrc (valued with the
stream id), and set the media-level msid. -/
def unifiedAttach (stream : StreamInfo) (track : TrackInfo) (md : MD) : MD :=
  let newGroups : List SsrcGroupEntry := track.groups.map fun g =>
    { semantics := g.semantics, ssrcs := jsJoin (js " ") (g.ssrcs.map natToJStr) }
  let newSsrcs : List SsrcEntry := track.ssrcs.map fun ssrc =>
    { id := ssrc, attr := js "cname", value := stream.id }
  { md with
    ssrcGroups := md.ssrcGroups ++ newGroups,
    ssrcs := md.ssrcs ++ newSsrcs,
    msid := some (stream.id ++ js " " ++ track.id) }

/-- The plan-B attachment of SDPInfo.toString (lines 668-706): append the
track's ssrc-groups and, per ssrc, both a cname and an msid ssrc
attribute. -/
def planBAttach (stream : StreamInfo) (track : TrackInfo) (md : MD) : MD :=
  let newGroups : List SsrcGroupEntry := track.groups.map fun g =>
    { semantics := g.semantics, ssrcs := jsJoin (js " ") (g.ssrcs.map natToJStr) }
  let newSsrcs : List SsrcEntry := track.ssrcs.foldl
    (fun acc ssrc => acc ++
      [{ id := ssrc, attr := js "cname", value := stream.id },
       { id := ssrc, attr := js "msid", value := stream.id ++ js " " ++ track.id }])
    []
  { md with
    ssrcGroups := md.ssrcGroups ++ newGroups,
    ssrcs := md.ssrcs ++ newSsrcs }

/-- The per-track media scan of SDPInfo.toString (lines 621-707): with a
truthy mediaId the track attaches to the first media description whose mid
equals it and the loop breaks; otherwise it attaches to the first media
description whose type equals the track's media type case-insensitively, and
the loop breaks. -/
def attachTrack (stream : StreamInfo) (track : TrackInfo) (mds : List MD) :
    List MD :=
  if jsTruthyStr track.mediaId then
    updateFirst (fun md => track.mediaId.getD [] = md.mid)
      (unifiedAttach stream track) mds
  else
    updateFirst (fun md => jsLower md.type = jsLower track.media)
      (planBAttach stream track) mds

/-- The stream/track pass of SDPInfo.toString (lines 615-709), walking
streams and tracks in insertion order. -/
def attachTracks (streams : List (JStr × StreamInfo)) (mds : List MD) :
    List MD :=
  streams.foldl
    (fun mds p => p.2.tracks.foldl (fun mds q => attachTrack p.2 q.2 mds) mds)
    mds

/-- The session-level part of the tree built by SDPInfo.toString (lines
334-371 and 711-715): fixed origin (whose sessionId is the wall-clock time
`(new Date()).getTime()`, passed here explicitly as `now`), name, connection,
timing, the ice-lite flag, the WMS msid-semantic, and the BUNDLE group over
every media id. -/
def assembleTree (s : SDPInfo) (ice : ICEInfo) (now : Nat) (mds : List MD) :
    SdpTree :=
  { version := 0
    origin := { username := js "-", sessionId := now, sessionVersion := s.version,
                netType := js "IN", ipVer := 4, address := js "127.0.0.1" }
    name := js "semantic-sdp"
    connection := { version := 4, ip := js "0.0.0.0" }
    timing := { start := 0, stop := 0 }
    icelite := if ice.isLite then some (js "ice-lite") else none
    msidSemantic := { semantic := js "WMS", token := js "*" }
    groups := [{ type := js "BUNDLE", mids := jsJoin (js " ") (s.medias.map MediaInfo.id) }]
    media := mds }

/-- SDPInfo.toString (src/lib/SDPInfo.js lines 331-719) up to the handoff to
the `SDPTransform.write` collaborator: the attribute tree it constructs.
The wall-clock reading the source takes for the origin sessionId is the
explicit `now` argument; a null session ICE makes the `isLite` dereference
at line 360 throw before any media is emitted. -/
def toTree (s : SDPInfo) (now : Nat) : Except JsError SdpTree := do
  let ice ← deref "Cannot read properties of null (reading isLite)" s.ice
  let mds ← s.medias.mapM (buildMD s ice)
  let mds := attachTracks s.streams mds
  pure (assembleTree s ice now mds)

/-- The keep test of the main rtp pass: entries named RED, ULPFEC or RTX
(case-insensitively) never create a codec. -/
def rtpKeeps (f : RtpEntry) : Bool :=
  decide (¬(jsUpper f.codec = js "RED" ∨ jsUpper f.codec = js "ULPFEC" ∨
    jsUpper f.codec = js "RTX"))

/-- The concrete input for the C5 error case: a single media line carrying a
fingerprint and an ssrc-group FID 1111 2222, but no ssrc attribute at all,
so no scratch Source was ever recorded for ssrc 1111. -/
def c5tree : SdpTree :=
  { origin := { username := js "-", sessionId := 0, sessionVersion := 1,
                netType := js "IN", ipVer := 4, address := js "127.0.0.1" }
    name := js "x"
    connection := { version := 4, ip := js "0.0.0.0" }
    timing := { start := 0, stop := 0 }
    msidSemantic := { semantic := js "WMS", token := js "*" }
    media := [{ type := js "audio", mid := js "0",
                iceUfrag := js "u", icePwd := js "p",
                fingerprint := some { type := js "sha-256", hash := js "AA" },
                ssrcGroups := [{ semantics := js "FID", ssrcs := js "1111 2222" }] }] }

/-- Erase the wall-clock-derived origin sessionId of a tree (used to state
determinism of the serializer up to the clock reading). -/
def eraseSessionId (t : SdpTree) : SdpTree :=
  { t with origin := { t.origin with sessionId := 0 } }

/-- A concrete well-formed session for the C8 counterexample: ice and dtls
set, no media. -/
def c8sdp : SDPInfo :=
  { ice := some { ufrag := js "u", pwd := js "p" },
    dtls := some { setup := .ACTPASS, hash := js "sha-256", fingerprint := js "AA" } }

/-! ## Round trip (claim C1) -/

/-- `SDPInfo.process(G.toString())`: the serialize path composed with the
parse path, the wall-clock reading made explicit; the text layer in between
is the external collaborator, assumed to satisfy
`parse(write(tree)) = tree` (spec section 6 contract). -/
def roundTrip (s : SDPInfo) (now : Nat) : Except JsError SDPInfo :=
  toTree s now >>= processTree

/-- The media type/id projection compared by the round-trip property. -/
def mediaTypesIds (s : SDPInfo) : List (JStr × JStr) :=
  s.medias.map fun m => (m.type, m.id)

/-- The per-media codec payload-type projection compared by the round-trip
property (the ordered key list of each codec map; key-set equality
follows). -/
def codecKeyLists (s : SDPInfo) : List (List Nat) :=
  s.medias.map fun m => m.codecs.map Prod.fst

/-- The per-track projection compared by the round-trip property: for a
stream id and track id, the track's ssrc list and its source groups'
semantics and ssrc lists, when the track exists. -/
def trackView (s : SDPInfo) (sid tid : JStr) :
    Option (List Nat × List (JStr × List Nat)) :=
  ((aget sid s.streams).bind fun st => aget tid st.tracks).map
    fun t => (t.ssrcs, t.groups.map fun g => (g.semantics, g.ssrcs))

/-- The RTX payload of a codec as a zero-or-one-element list. -/
def rtxList (c : CodecInfo) : List Nat :=
  match c.rtx with
  | some r => [r]
  | none => []

/-- The payload types a codec list emits on the wire: each codec's payload
type followed by its RTX payload type when present, in order. -/
def payloadsOfCodecs (l : List CodecInfo) : List Nat :=
  l.foldl (fun acc c => acc ++ ([c.type] ++ rtxList c)) []

/-- The payload types a media emits on the wire, in codec-map order. -/
def codecPayloadsWithRtx (m : MediaInfo) : List Nat :=
  payloadsOfCodecs (m.codecs.map Prod.snd)

/-- The main rtp entry the codec loop emits for one codec, by media type
and codec name. -/
def mainRtpEntry (mt : JStr) (c : CodecInfo) : RtpEntry :=
  if js "video" = jsLower mt then
    { payload := c.type, codec := c.codec, rate := some 90000 }
  else if js "opus" = jsLower c.codec then
    { payload := c.type, codec := c.codec, rate := some 48000, encoding := some 2 }
  else
    { payload := c.type, codec := c.codec, rate := some 8000 }

/-- The rtx rtp entry the codec loop emits for a codec with an associated
RTX payload. -/
def rtxRtpEntries (c : CodecInfo) : List RtpEntry :=
  match c.rtx with
  | some r => [{ payload := r, codec := js "rtx", rate := some 90000 }]
  | none => []

/-- All rtp entries the codec loop emits for a codec list, in order. -/
def rtpEntriesOfCodecs (mt : JStr) (codecs : List CodecInfo) : List RtpEntry :=
  codecs.foldl (fun acc c => acc ++ ([mainRtpEntry mt c] ++ rtxRtpEntries c)) []

/-- The attachment a track performs on its matched media description: the
unified form under a truthy mediaId, the plan-B form otherwise. -/
def attachOne (p : StreamInfo × TrackInfo) (md : MD) : MD :=
  if jsTruthyStr p.2.mediaId then unifiedAttach p.1 p.2 md
  else planBAttach p.1 p.2 md

/-- The match test a track applies to a media description: mid equality
under a truthy mediaId, case-insensitive type equality otherwise. -/
def attachPred (p : StreamInfo × TrackInfo) (md : MD) : Bool :=
  if jsTruthyStr p.2.mediaId then p.2.mediaId.getD [] = md.mid
  else jsLower md.type = jsLower p.2.media

/-- Sequential attachment of a list of (stream, track) pairs. -/
def attachAll (pairs : List (StreamInfo × TrackInfo)) (mds : List MD) : List MD :=
  pairs.foldl (fun mds p => attachTrack p.1 p.2 mds) mds

/-- The composite attachment a media description receives from the pairs
assigned to it, in order. -/
def applyList (ps : List (StreamInfo × TrackInfo)) (md : MD) : MD :=
  ps.foldl (fun md p => attachOne p md) md

/-- The ssrc attribute block one pair contributes: per-ssrc cname for a
unified track, interleaved per-ssrc cname and msid for a plan-B track. -/
def pairSsrcBlock (p : StreamInfo × TrackInfo) : List SsrcEntry :=
  if jsTruthyStr p.2.mediaId then
    p.2.ssrcs.map fun ssrc => { id := ssrc, attr := js "cname", value := p.1.id }
  else
    p.2.ssrcs.foldl
      (fun acc ssrc => acc ++
        [{ id := ssrc, attr := js "cname", value := p.1.id },
         { id := ssrc, attr := js "msid", value := p.1.id ++ js " " ++ p.2.id }])
      []

/-- The ssrc-group records one pair contributes. -/
def pairGroupEntries (p : StreamInfo × TrackInfo) : List SsrcGroupEntry :=
  p.2.groups.map fun g =>
    { semantics := g.semantics, ssrcs := jsJoin (js " ") (g.ssrcs.map natToJStr) }

/-- The media msid after a pair list: the last unified pair's stream/track
msid value, if any. -/
def lastUnifiedMsid (ps : List (StreamInfo × TrackInfo)) : Option JStr :=
  ps.foldl
    (fun acc p =>
      if jsTruthyStr p.2.mediaId then some (p.1.id ++ js " " ++ p.2.id) else acc)
    none

/-- The media description SDPInfo.toString builds for one media before any
track is attached, given the session's ice, dtls and candidates. -/
def mdOf (s : SDPInfo) (ice : ICEInfo) (dtls : DTLSInfo) (media : MediaInfo) : MD :=
  let base : MD :=
    { type := media.type
      direction := some (Direction.toStr media.direction)
      rtcpMux := some (js "rtcp-mux")
      rtcpRsize := some (js "rtcp-rsize")
      mid := media.id
      bandwidth :=
        if media.bitrate > 0 then [{ type := js "AS", limit := media.bitrate }] else []
      candidates := s.candidates.map fun c =>
        { foundation := c.foundation, component := c.componentId,
          transport := c.transport, priority := c.priority, ip := c.address,
          port := c.port, type := c.type }
      iceUfrag := ice.ufrag
      icePwd := ice.pwd
      fingerprint := some { type := dtls.hash, hash := dtls.fingerprint }
      setup := some (Setup.toStr dtls.setup) }
  let withCodecs := codecLoop media.type (media.codecs.map Prod.snd) base
  { withCodecs with
    payloads := jsJoin (js " ")
      (withCodecs.rtp.map fun (r : RtpEntry) => natToJStr r.payload)
    ext := media.extensions.map fun p => { value := p.1, uri := p.2 }
    rids := (media.rids.map Prod.snd).map ridToEntry
    simulcast := match media.simulcast with
      | some sim => some (buildSimulcastAttr sim)
      | none => none }

/-- Well-formedness of one track of a stream within a session, as the
round-trip property requires: a space-free id, duplicate-free ssrcs,
non-empty groups whose first ssrc belongs to the track, and a resolvable
media line — a non-empty mediaId naming an existing mid for a unified
track, a type-matching media line plus at least one ssrc for a plan-B
track. -/
def TrackWF (s : SDPInfo) (track : TrackInfo) : Prop :=
  (' ' ∉ track.id) ∧ track.ssrcs.Nodup ∧
  (∀ g ∈ track.groups, g.ssrcs ≠ [] ∧ g.ssrcs.headI ∈ track.ssrcs) ∧
  (match track.mediaId with
   | some m => m ≠ [] ∧ ∃ md ∈ s.medias, md.id = m
   | none => track.ssrcs ≠ [] ∧ ∃ md ∈ s.medias, jsLower md.type = jsLower track.media)

/-- Well-formedness of one media line: codec map keyed by the codecs' own
payload types, no codec named RED, ULPFEC or RTX (those names are reserved
by the parse path), and pairwise-distinct emitted payload types. -/
def MediaWF (m : MediaInfo) : Prop :=
  (∀ p ∈ m.codecs, p.1 = p.2.type ∧
    jsUpper p.2.codec ≠ js "RED" ∧ jsUpper p.2.codec ≠ js "ULPFEC" ∧
    jsUpper p.2.codec ≠ js "RTX") ∧
  (codecPayloadsWithRtx m).Nodup

/-- All (stream, track) pairs of a session, in serialization order. -/
def streamTrackPairs (s : SDPInfo) : List (StreamInfo × TrackInfo) :=
  s.streams.foldr (fun p acc => (p.2.tracks.map fun q => (p.2, q.2)) ++ acc) []

/-- Well-formedness of a programmatically built session for the round-trip
property: distinct mids; well-formed medias; stream map keyed by the
streams' own non-empty space-free ids with duplicate-free keys; track maps
keyed by the tracks' own ids with duplicate-free keys and well-formed
tracks; pairwise-distinct unified mediaIds and pairwise-disjoint ssrc sets
across all tracks. -/
def SDPWF (s : SDPInfo) : Prop :=
  (s.medias.map MediaInfo.id).Nodup ∧
  (∀ m ∈ s.medias, MediaWF m) ∧
  (s.streams.map Prod.fst).Nodup ∧
  (∀ p ∈ s.streams, p.1 = p.2.id ∧ p.2.id ≠ [] ∧ (' ' ∉ p.2.id) ∧
    (p.2.tracks.map Prod.fst).Nodup ∧
    ∀ q ∈ p.2.tracks, q.1 = q.2.id ∧ TrackWF s q.2) ∧
  (streamTrackPairs s).Pairwise (fun p1 p2 =>
    (match p1.2.mediaId, p2.2.mediaId with
     | some m1, some m2 => m1 ≠ m2
     | _, _ => True) ∧
    ∀ x ∈ p1.2.ssrcs, x ∉ p2.2.ssrcs)

/-- The effect of one msid ssrc record on the session: get or create the
stream, get or create the track (a new track receives the encodings), and
append the ssrc. -/
def addSSRCToTrack (media : JStr) (enc : List (List TrackEncodingInfo))
    (sid tid : JStr) (x : Nat) (sdp : SDPInfo) : SDPInfo :=
  let stream := match aget sid sdp.streams with
    | some s => s
    | none => { id := sid : StreamInfo }
  let track := match stream.getTrack tid with
    | some t => t
    | none => { media := media, id := tid, encodings := enc : TrackInfo }
  sdp.addStream (stream.addTrack (track.addSSRC x))

/-- The composite effect of a run of msid ssrc records for one track. -/
def upsertTrackSSRCs (media : JStr) (enc : List (List TrackEncodingInfo))
    (sid tid : JStr) (ssrcs : List Nat) (sdp : SDPInfo) : SDPInfo :=
  let stream := match aget sid sdp.streams with
    | some s => s
    | none => { id := sid : StreamInfo }
  let track := match stream.getTrack tid with
    | some t => t
    | none => { media := media, id := tid, encodings := enc : TrackInfo }
  sdp.addStream (stream.addTrack { track with ssrcs := track.ssrcs ++ ssrcs })

/-- The scratch Source a plan-B pair records for one of its ssrcs. -/
def planBSource (sid tid : JStr) (x : Nat) : SourceInfo :=
  { ssrc := x, cname := some sid, streamId := some sid, trackId := some tid }

/-- The scratch Source a unified pair records for one of its ssrcs before
the global-msid pass. -/
def cnameSource (sid : JStr) (x : Nat) : SourceInfo :=
  { ssrc := x, cname := some sid }

/-- The scratch Sources one pair's ssrc block records. -/
def pairSources (p : StreamInfo × TrackInfo) : List (Nat × SourceInfo) :=
  if jsTruthyStr p.2.mediaId then
    p.2.ssrcs.map fun x => (x, cnameSource p.1.id x)
  else
    p.2.ssrcs.map fun x => (x, planBSource p.1.id p.2.id x)

/-- The per-ssrc view a round-trip comparison needs of a track. -/
def viewOf (t : TrackInfo) : List Nat × List (JStr × List Nat) :=
  (t.ssrcs, t.groups.map fun g => (g.semantics, g.ssrcs))

/-- Lookup of a (stream id, track id) pair in a pair list. -/
def pairLookup (pairs : List (StreamInfo × TrackInfo)) (sid tid : JStr) :
    Option (StreamInfo × TrackInfo) :=
  pairs.find? fun p => p.1.id == sid && p.2.id == tid

/-- Concatenation of a list of lists, by explicit recursion. -/
def catLists {α : Type} : List (List α) → List α
  | [] => []
  | l :: rest => l ++ catLists rest

/-- Index of the first element satisfying the predicate. -/
def firstIdx {α : Type} (p : α → Bool) : List α → Option Nat
  | [] => none
  | x :: rest => if p x then some 0 else (firstIdx p rest).map (fun i => i + 1)

/-- The fmtp entries the codec loop emits for one codec: the rtx apt record
when the codec has an associated RTX payload, nothing otherwise. -/
def fmtpOfCodec (c : CodecInfo) : List FmtpEntry :=
  match c.rtx with
  | some r => [{ payload := r, config := js "apt=" ++ natToJStr c.type }]
  | none => []

/-- All fmtp entries the codec loop emits for a codec list, in order. -/
def fmtpEntriesOfCodecs (codecs : List CodecInfo) : List FmtpEntry :=
  catLists (codecs.map fmtpOfCodec)

/-- The match test a track applies to a media line, expressed against the
source MediaInfo (the media description the serializer builds carries the
media's type and id). -/
def attachPredM (p : StreamInfo × TrackInfo) (m : MediaInfo) : Bool :=
  if jsTruthyStr p.2.mediaId then p.2.mediaId.getD [] = m.id
  else jsLower m.type = jsLower p.2.media

/-- The media index a (stream, track) pair is assigned to by the stream/track
pass: the first media whose description matches the track. -/
def assignIdx (medias : List MediaInfo) (p : StreamInfo × TrackInfo) :
    Option Nat :=
  firstIdx (attachPredM p) medias

/-- The pairs assigned to the media line at index k. -/
def psFor (s : SDPInfo) (k : Nat) : List (StreamInfo × TrackInfo) :=
  (streamTrackPairs s).filter fun p => assignIdx s.medias p = some k

/-- All scratch Sources the ssrc block of one media line records, in pair
order. -/
def allSources (ps : List (StreamInfo × TrackInfo)) : List (Nat × SourceInfo) :=
  catLists (ps.map pairSources)

/-- The scratch Source recorded for one ssrc of one pair. -/
def pairSourceOf (p : StreamInfo × TrackInfo) (x : Nat) : SourceInfo :=
  if jsTruthyStr p.2.mediaId then cnameSource p.1.id x
  else planBSource p.1.id p.2.id x

/-- The net stream/track effect of the msid records of one media line's ssrc
block: each plan-B pair's track is created (or fetched) and its ssrcs
appended, in pair order. -/
def applyPlanB (media : JStr) (enc : List (List TrackEncodingInfo))
    (ps : List (StreamInfo × TrackInfo)) (sdp : SDPInfo) : SDPInfo :=
  ps.foldl
    (fun sd p =>
      if jsTruthyStr p.2.mediaId then sd
      else upsertTrackSSRCs media enc p.1.id p.2.id p.2.ssrcs sd)
    sdp

/-- The update the global-msid fallback applies to a scratch Source without
a truthy stream id. -/
def gmUpd (usid utid : JStr) (src : SourceInfo) : SourceInfo :=
  { src with streamId := some usid, trackId := some utid }

/-- The sources component of the global-msid fold, one step. -/
def gmSrcStep (usid utid : JStr) (a : List (Nat × SourceInfo))
    (p : Nat × SourceInfo) : List (Nat × SourceInfo) :=
  if jsTruthyStr p.2.streamId then a else aset p.1 (gmUpd usid utid p.2) a

/-- The track component of the global-msid fold, one step. -/
def gmTrkStep (b : TrackInfo) (p : Nat × SourceInfo) : TrackInfo :=
  if jsTruthyStr p.2.streamId then b else b.addSSRC p.1

/-- Key/identity coherence of the stream and track maps: every stream is
stored under its own id and every track under its own id (the invariant
addStream and addTrack maintain, both keying by id). -/
def streamKeysWF (sdp : SDPInfo) : Prop :=
  ∀ e ∈ sdp.streams, e.2.id = e.1 ∧ ∀ q ∈ e.2.tracks, q.2.id = q.1

/-- The media direction SDPInfo.process derives from a media description. -/
def procDirection (md : MD) : Direction :=
  match md.direction with
  | none => Direction.SENDRECV
  | some v => Direction.byValue v

/-- The MediaInfo SDPInfo.process builds for one media description before
the simulcast step: identity, direction, codecs, extensions, rids. -/
def procMIcodecs (md : MD) : MediaInfo :=
  let m1 := buildCodecs md.rtp md.fmtp
    { id := md.mid, type := md.type, direction := procDirection md }
  let m2 := md.ext.foldl (fun m e => m.addExtension e.value e.uri) m1
  md.rids.foldl (fun m r => m.addRID (processRid r)) m2

/-- The simulcast step of SDPInfo.process for one media description: the
derived sending encodings and the final MediaInfo. -/
def procSim (md : MD) : List (List TrackEncodingInfo) × MediaInfo :=
  match md.simulcast with
  | none => ([], procMIcodecs md)
  | some sa =>
    let simulcast := addSimDir (addSimDir {} sa.dir1 sa.list1) sa.dir2 sa.list2
    (buildEncodings (procMIcodecs md) simulcast,
     { procMIcodecs md with simulcast := some simulcast })

/-- The session just before the source-correlation pass of one media line:
ICE and DTLS overwritten from the description. -/
def procSdp2 (acc : SDPInfo) (md : MD) (f : FingerprintAttr) : SDPInfo :=
  { acc with
    ice := some { ufrag := md.iceUfrag, pwd := md.icePwd },
    dtls := some
      { setup := match md.setup with
          | none => Setup.ACTPASS
          | some v => Setup.byValue v,
        hash := f.type, fingerprint := f.hash } }

/-- The scratch-sources/session state of one media line after the source
correlation and global-msid passes. -/
def procSt (acc : SDPInfo) (md : MD) (f : FingerprintAttr) :
    List (Nat × SourceInfo) × SDPInfo :=
  globalMsidPass md.type md.mid (procSim md).1 md.msid
    (md.ssrcs.foldl (sourcesStep md.type (procSim md).1) ([], procSdp2 acc md f))

/-- The round-trip invariant after processing the first k media lines: the
accumulated medias carry the original types/ids and codec payload-type key
lists of the first k medias; the stream and track maps are key-coherent; and
the per-(stream id, track id) view holds exactly the pairs assigned to an
already-processed media line, each with its original ssrc list and source
groups. -/
def invAt (s : SDPInfo) (k : Nat) (acc : SDPInfo) : Prop :=
  acc.medias.map (fun m => (m.type, m.id)) =
    (s.medias.take k).map (fun m => (m.type, m.id)) ∧
  acc.medias.map (fun m => m.codecs.map Prod.fst) =
    (s.medias.take k).map (fun m => m.codecs.map Prod.fst) ∧
  streamKeysWF acc ∧
  ∀ sid tid, trackView acc sid tid =
    (match pairLookup (streamTrackPairs s) sid tid with
     | some p =>
       if (assignIdx s.medias p).getD s.medias.length < k then some (viewOf p.2)
       else none
     | none => none)

/-- The concrete session refuting C1 as stated: a codec literally named
"red" is emitted by toString as a normal rtp entry but silently skipped by
process, so the codec payload-type sets of the round trip differ. -/
def c1sdp : SDPInfo :=
  { medias := [{ id := js "0", type := js "audio",
                 codecs := [(96, { codec := js "red", type := 96 })] }],
    ice := some { ufrag := js "u", pwd := js "p" },
    dtls := some { setup := .ACTPASS, hash := js "sha-256", fingerprint := js "AA" } }

/-- ICE credentials of the C1 witness session. -/
def c1ice : ICEInfo := { ufrag := js "u", pwd := js "p" }

/-- DTLS parameters of the C1 witness session. -/
def c1dtls : DTLSInfo :=
  { setup := .ACTPASS, hash := js "sha-256", fingerprint := js "AA" }

/-- The audio track of the C1 witness session: unified, attached to mid 0. -/
def c1t1 : TrackInfo :=
  { media := js "audio", id := js "t1", mediaId := some (js "0"),
    ssrcs := [1000] }

/-- The video track of the C1 witness session: plan-B, two ssrcs and an FID
source group. -/
def c1t2 : TrackInfo :=
  { media := js "video", id := js "t2", ssrcs := [2000, 2001],
    groups := [{ semantics := js "FID", ssrcs := [2000, 2001] }] }

/-- The stream of the C1 witness session. -/
def c1stream : StreamInfo :=
  { id := js "s1", tracks := [(js "t1", c1t1), (js "t2", c1t2)] }

/-- A well-formed two-media session exercising both attachment modes of the
round trip: unified audio (opus) and plan-B video (VP8 with RTX). -/
def c1good : SDPInfo :=
  { medias :=
      [{ id := js "0", type := js "audio",
         codecs := [(111, { codec := js "opus", type := 111 })] },
       { id := js "1", type := js "video",
         codecs := [(96, { codec := js "VP8", type := 96, rtx := some 97 })] }],
    streams := [(js "s1", c1stream)],
    ice := some c1ice,
    dtls := some c1dtls }

/-! ## Helper lemmas -/

section Lemmas

variable {α : Type} {β : Type} [DecidableEq α]

theorem aget_aset_self (k : α) (v : β) (l : List (α × β)) :
    aget k (aset k v l) = some v := by
  induction l with
  | nil => simp [aset, aget]
  | cons h t ih =>
    by_cases hk : h.1 = k
    · simp [aset, hk, aget]
    · simp [aset, hk, aget, ih]

theorem aget_aset_ne (k k2 : α) (v : β) (l : List (α × β)) (h : k2 ≠ k) :
    aget k2 (aset k v l) = aget k2 l := by
  have hne : ¬ k = k2 := fun hh => h hh.symm
  induction l with
  | nil => simp [aset, aget, hne]
  | cons hd t ih =>
    by_cases hk : hd.1 = k
    · subst hk
      simp [aset, aget, hne]
    · by_cases hk2 : hd.1 = k2
      · simp [aset, hk, aget, hk2, h]
      · simp [aset, hk, aget, hk2, ih]

theorem aget_amod_self (k : α) (f : β → β) (l : List (α × β)) :
    aget k (amod k f l) = (aget k l).map f := by
  induction l with
  | nil => simp [amod, aget]
  | cons h t ih =>
    by_cases hk : h.1 = k
    · simp [amod, hk, aget]
    · simp [amod, hk, aget, ih]

theorem aget_amod_ne (k k2 : α) (f : β → β) (l : List (α × β)) (h : k2 ≠ k) :
    aget k2 (amod k f l) = aget k2 l := by
  induction l with
  | nil => simp [amod, aget]
  | cons hd t ih =>
    by_cases hk : hd.1 = k
    · subst hk
      have hne : ¬ hd.1 = k2 := fun hh => h hh.symm
      simp [amod, aget, hne, ih]
    · by_cases hk2 : hd.1 = k2
      · simp [amod, hk, aget, hk2, h]
      · simp [amod, hk, aget, hk2, ih]

theorem keys_aset_of_mem (k : α) (v : β) (l : List (α × β))
    (h : k ∈ l.map Prod.fst) : (aset k v l).map Prod.fst = l.map Prod.fst := by
  induction l with
  | nil => simp at h
  | cons hd t ih =>
    by_cases hk : hd.1 = k
    · simp [aset, hk]
    · simp only [List.map_cons, List.mem_cons] at h
      rcases h with h | h
      · exact absurd h.symm hk
      · simp [aset, hk, ih h]

theorem keys_aset_of_not_mem (k : α) (v : β) (l : List (α × β))
    (h : k ∉ l.map Prod.fst) : (aset k v l).map Prod.fst = l.map Prod.fst ++ [k] := by
  induction l with
  | nil => simp [aset]
  | cons hd t ih =>
    simp only [List.map_cons, List.mem_cons] at h
    push_neg at h
    have h1 : ¬ hd.1 = k := fun hh => h.1 hh.symm
    simp [aset, h1, ih h.2]

theorem aget_isSome_iff_mem_keys (k : α) (l : List (α × β)) :
    (aget k l).isSome = true ↔ k ∈ l.map Prod.fst := by
  induction l with
  | nil => simp [aget]
  | cons hd t ih =>
    by_cases hk : hd.1 = k
    · simp [aget, hk]
    · have hk2 : ¬ k = hd.1 := fun hh => hk hh.symm
      simp [aget, hk, ih, hk2]

theorem nodup_keys_aset (k : α) (v : β) (l : List (α × β))
    (h : (l.map Prod.fst).Nodup) : ((aset k v l).map Prod.fst).Nodup := by
  by_cases hm : k ∈ l.map Prod.fst
  · rw [keys_aset_of_mem k v l hm]
    exact h
  · rw [keys_aset_of_not_mem k v l hm]
    refine List.Nodup.append h (by simp) ?hd
    intro a ha hb
    simp only [List.mem_singleton] at hb
    exact hm (hb ▸ ha)

theorem jsSplit_of_not_mem (c : Char) (s : JStr) (h : c ∉ s) :
    jsSplit c s = [s] := by
  induction s with
  | nil => rfl
  | cons a t ih =>
    simp only [List.mem_cons] at h
    push_neg at h
    have h1 : ¬ a = c := fun hh => h.1 hh.symm
    rw [jsSplit, ih h.2]
    simp [h1]

theorem jsSplit_append_sep (c : Char) (k v : JStr) (hk : c ∉ k) (hv : c ∉ v) :
    jsSplit c (k ++ c :: v) = [k, v] := by
  induction k with
  | nil =>
    rw [List.nil_append, jsSplit, jsSplit_of_not_mem c v hv]
    simp
  | cons a t ih =>
    simp only [List.mem_cons] at hk
    push_neg at hk
    have h1 : ¬ a = c := fun hh => hk.1 hh.symm
    rw [List.cons_append, jsSplit, ih hk.2]
    simp [h1]

end Lemmas

/-! ## Claim C7 -/

/-- C7: In SDPInfo.process, the fmtp config string for a payload type is
parsed as semicolon-separated key=value pairs with keys and values trimmed
of whitespace, and a pair with no `=` is kept as a key with empty-string
value, never rejected: "apt=100" yields apt mapped to "100"; "a;b=2" yields
a mapped to the empty string and b mapped to "2"; in general a single
"key=value" config parses to the trimmed pair, and a single config with no
`=` parses to the trimmed key with the empty value. -/
theorem C7_fmtp_config_lenient :
    applyFmtpConfig (js "apt=100") [] = [(js "apt", js "100")] ∧
    applyFmtpConfig (js "a;b=2") [] = [(js "a", []), (js "b", js "2")] ∧
    (∀ k v : JStr, '=' ∉ k → '=' ∉ v → ';' ∉ k → ';' ∉ v →
      applyFmtpConfig (k ++ '=' :: v) [] = [(jsTrim k, jsTrim v)]) ∧
    (∀ s : JStr, '=' ∉ s → ';' ∉ s →
      applyFmtpConfig s [] = [(jsTrim s, [])]) := by
  refine ⟨by decide, by decide, ?pair, ?nokey⟩
  case pair =>
    intro k v hk hv hk2 hv2
    have hsemi : ';' ∉ k ++ '=' :: v := by
      simp only [List.mem_append, List.mem_cons]
      push_neg
      exact ⟨hk2, by decide, hv2⟩
    unfold applyFmtpConfig
    rw [jsSplit_of_not_mem ';' _ hsemi]
    simp only [List.foldl]
    rw [jsSplit_append_sep '=' k v hk hv]
    simp [aset, List.headI, jsTrim]
  case nokey =>
    intro s h hs
    unfold applyFmtpConfig
    rw [jsSplit_of_not_mem ';' s hs]
    simp only [List.foldl]
    rw [jsSplit_of_not_mem '=' s h]
    simp [aset, List.headI, jsTrim]

/-- Witness for C7 at concrete inputs. -/
theorem C7_witness :
    applyFmtpConfig (js "x" ++ '=' :: js "y") [] = [(jsTrim (js "x"), jsTrim (js "y"))] ∧
    applyFmtpConfig (js "z") [] = [(jsTrim (js "z"), [])] :=
  ⟨C7_fmtp_config_lenient.2.2.1 (js "x") (js "y")
      (by decide) (by decide) (by decide) (by decide),
   C7_fmtp_config_lenient.2.2.2 (js "z") (by decide) (by decide)⟩

/-! ## Claim C10 -/

theorem getMediaById_go_eq (msid : JStr) (l : List MediaInfo) :
    SDPInfo.getMediaById.go msid l =
      (if l.any (fun m => jsLower m.id == jsLower msid) then JSRet.undef
       else JSRet.nullv) := by
  induction l with
  | nil => rfl
  | cons m t ih =>
    by_cases h : jsLower m.id = jsLower msid
    · simp [SDPInfo.getMediaById.go, h]
    · simp [SDPInfo.getMediaById.go, h, ih]

/-- C10: for every SDPInfo and every id string, getMediaById never returns
the matching MediaInfo: when some media's id equals the argument
case-insensitively it returns the undefined `this.media` field, otherwise
null; in particular its result is never a media of the session. -/
theorem C10_getMediaById_never_matching :
    ∀ (s : SDPInfo) (msid : JStr),
      s.getMediaById msid =
        (if s.medias.any (fun m => jsLower m.id == jsLower msid) then JSRet.undef
         else JSRet.nullv) ∧
      ∀ m : MediaInfo, s.getMediaById msid ≠ JSRet.mediaV m := by
  intro s msid
  have h : s.getMediaById msid = SDPInfo.getMediaById.go msid s.medias := rfl
  rw [h, getMediaById_go_eq msid s.medias]
  refine ⟨rfl, ?never⟩
  intro m
  by_cases hc : s.medias.any (fun m => jsLower m.id == jsLower msid)
  · simp [hc]
  · simp [hc]

/-! ## Claim C9 -/

/-- C9: SDPInfo.clone unconditionally dereferences the session ice and
dtls, so whenever either is null (as produced by the bare constructor)
clone throws instead of returning a cloned graph, whereas plain on the same
object succeeds, emitting null-ish ice/dtls fields. -/
theorem C9_clone_throws_plain_succeeds :
    ∀ s : SDPInfo, s.ice = none ∨ s.dtls = none →
      (∃ e, s.clone = .error e) ∧
      (s.ice = none → s.plain.ice = none) ∧
      (s.dtls = none → s.plain.dtls = none) := by
  intro s h
  refine ⟨?throws, fun hi => by simp [SDPInfo.plain, hi],
    fun hd => by simp [SDPInfo.plain, hd]⟩
  cases hice : s.ice with
  | none =>
    refine ⟨JsError.typeError (js "Cannot read properties of null (reading clone of ice)"), ?_⟩
    unfold SDPInfo.clone
    rw [hice]
    rfl
  | some i =>
    cases hdtls : s.dtls with
    | none =>
      refine ⟨JsError.typeError (js "Cannot read properties of null (reading clone of dtls)"), ?_⟩
      unfold SDPInfo.clone
      rw [hice, hdtls]
      rfl
    | some d =>
      rcases h with h | h
      · rw [hice] at h
        exact absurd h (by simp)
      · rw [hdtls] at h
        exact absurd h (by simp)

/-- Witness for C9: the bare constructor's session has null ice and dtls;
clone on it throws while plain succeeds with null-ish transport fields. -/
theorem C9_witness :
    (∃ e, (SDPInfo.mkNew none).clone = .error e) ∧
    ((SDPInfo.mkNew none).ice = none → (SDPInfo.mkNew none).plain.ice = none) ∧
    ((SDPInfo.mkNew none).dtls = none → (SDPInfo.mkNew none).plain.dtls = none) :=
  C9_clone_throws_plain_succeeds (SDPInfo.mkNew none) (Or.inl rfl)

/-! ## Claim C6 -/

theorem foldl_addMedia (l : List MediaInfo) (f : MediaInfo → MediaInfo)
    (acc : SDPInfo) :
    l.foldl (fun a m => a.addMedia (f m)) acc =
      { acc with medias := acc.medias ++ l.map f } := by
  induction l generalizing acc with
  | nil => simp
  | cons m t ih =>
    simp only [List.foldl_cons, List.map_cons]
    rw [ih]
    simp [SDPInfo.addMedia]

theorem foldlM_pure_except {γ δ : Type} (g : δ → γ → δ) (l : List γ) (acc : δ) :
    (l.foldlM (fun a b => (pure (g a b) : Except JsError δ)) acc) =
      .ok (l.foldl g acc) := by
  induction l generalizing acc with
  | nil => rfl
  | cons b t ih =>
    simp only [List.foldlM, List.foldl_cons]
    exact ih (g acc b)

theorem answer_foldlM_ok {α : Type} (mediaAnswer : MediaInfo → Option α → MediaInfo)
    (caps : JStr → Option α) (l : List MediaInfo) (acc : SDPInfo) :
    (l.foldlM
      (fun acc m => do
        let c ← deref "Cannot read properties of undefined (capabilities)"
          (some caps)
        pure (acc.addMedia (mediaAnswer m (c m.type))))
      acc : Except JsError SDPInfo) =
      .ok { acc with medias := acc.medias ++ l.map fun m => mediaAnswer m (caps m.type) } := by
  have hstep : (fun (a : SDPInfo) (m : MediaInfo) =>
      (do
        let c ← deref "Cannot read properties of undefined (capabilities)"
          (some caps)
        pure (a.addMedia (mediaAnswer m (c m.type))) : Except JsError SDPInfo)) =
      fun a m => pure (a.addMedia (mediaAnswer m (caps m.type))) := by
    funext a m
    rfl
  rw [hstep,
    foldlM_pure_except (fun a m => a.addMedia (mediaAnswer m (caps m.type))) l acc,
    foldl_addMedia]

/-- C6: for every offer and every params object carrying ice, dtls,
candidates and a capabilities map, answer returns a new SDPInfo whose ICE is
params.ice, whose DTLS is params.dtls, whose candidate list is
params.candidates, and whose media list has, in the offer's media order,
exactly one entry per offered media, each being that media's own
answer(capabilities[type]). -/
theorem C6_answer_spec {α : Type} (mediaAnswer : MediaInfo → Option α → MediaInfo)
    (s : SDPInfo) (params : AnswerParams α) (i : ICEInfo) (d : DTLSInfo)
    (cs : List CandidateInfo) (caps : JStr → Option α)
    (hi : params.ice = some i) (hd : params.dtls = some d)
    (hc : params.candidates = some cs) (hcap : params.capabilities = some caps) :
    SDPInfo.answer mediaAnswer s params =
      .ok { version := 1, streams := [],
            medias := s.medias.map fun m => mediaAnswer m (caps m.type),
            candidates := cs, ice := some i, dtls := some d } := by
  unfold SDPInfo.answer
  rw [hi, hd, hc, hcap]
  have h := answer_foldlM_ok mediaAnswer caps s.medias
    { version := 1, streams := [], medias := [], candidates := [] ++ cs,
      ice := some i, dtls := some d }
  simp only [SDPInfo.mkNew, Option.isSome_some, if_true]
  rw [show (List.nil ++ cs : List CandidateInfo) = cs from by simp] at h
  exact h

/-- Witness for C6 at a concrete offer and params object. -/
theorem C6_witness :
    SDPInfo.answer (fun m (_ : Option Unit) => m)
      { medias := [{ id := js "0", type := js "audio" }] }
      { ice := some { ufrag := js "u", pwd := js "p" },
        dtls := some { setup := .ACTPASS, hash := js "h", fingerprint := js "f" },
        candidates := some [],
        capabilities := some fun _ => none } =
      .ok { version := 1, streams := [],
            medias := [{ id := js "0", type := js "audio" }],
            candidates := [],
            ice := some { ufrag := js "u", pwd := js "p" },
            dtls := some { setup := .ACTPASS, hash := js "h", fingerprint := js "f" } } := by
  have h := C6_answer_spec (fun m (_ : Option Unit) => m)
    { medias := [{ id := js "0", type := js "audio" }] }
    { ice := some { ufrag := js "u", pwd := js "p" },
      dtls := some { setup := .ACTPASS, hash := js "h", fingerprint := js "f" },
      candidates := some [],
      capabilities := some fun _ => none }
    { ufrag := js "u", pwd := js "p" }
    { setup := .ACTPASS, hash := js "h", fingerprint := js "f" }
    [] (fun _ => none) rfl rfl rfl rfl
  simpa using h

/-! ## Claim C4 -/

theorem codecPassStep_codecs_keys (fmtps : List FmtpEntry)
    (st : MediaInfo × List (MKey × Nat)) (f : RtpEntry)
    (h : f.payload ∉ st.1.codecs.map Prod.fst) :
    ((codecPassStep fmtps st f).1.codecs.map Prod.fst) =
      st.1.codecs.map Prod.fst ++ (if rtpKeeps f then [f.payload] else []) := by
  by_cases hred : jsUpper f.codec = js "RED" ∨ jsUpper f.codec = js "ULPFEC"
  · have hk : rtpKeeps f = false := by
      simp [rtpKeeps]
      tauto
    simp [codecPassStep, hred, hk]
  · by_cases hrtx : jsUpper f.codec = js "RTX"
    · have hk : rtpKeeps f = false := by
        simp [rtpKeeps]
        tauto
      simp only [codecPassStep]
      rw [if_neg hred, if_pos hrtx]
      simp [hk]
    · have hk : rtpKeeps f = true := by
        simp [rtpKeeps]
        tauto
      simp only [codecPassStep]
      rw [if_neg hred, if_neg hrtx]
      simp only [hk, if_true, MediaInfo.addCodec]
      exact keys_aset_of_not_mem f.payload _ st.1.codecs h

theorem codecMainPass_keys_aux (fmtps : List FmtpEntry) :
    ∀ (rtps : List RtpEntry) (st : MediaInfo × List (MKey × Nat)),
      (∀ p ∈ rtps.map RtpEntry.payload, p ∉ st.1.codecs.map Prod.fst) →
      (rtps.map RtpEntry.payload).Nodup →
      ((rtps.foldl (codecPassStep fmtps) st).1.codecs.map Prod.fst) =
        st.1.codecs.map Prod.fst ++ (rtps.filter rtpKeeps).map RtpEntry.payload := by
  intro rtps
  induction rtps with
  | nil => intro st h hnd; simp
  | cons f t ih =>
    intro st h hnd
    rw [List.foldl_cons]
    have hf : f.payload ∉ st.1.codecs.map Prod.fst := h f.payload (by simp)
    have hstep := codecPassStep_codecs_keys fmtps st f hf
    have hnd2 : (t.map RtpEntry.payload).Nodup := (List.nodup_cons.mp (by simpa using hnd)).2
    have hfn : f.payload ∉ t.map RtpEntry.payload :=
      (List.nodup_cons.mp (by simpa using hnd)).1
    have hrest : ∀ p ∈ t.map RtpEntry.payload,
        p ∉ (codecPassStep fmtps st f).1.codecs.map Prod.fst := by
      intro p hp
      rw [hstep]
      simp only [List.mem_append]
      push_neg
      refine ⟨h p (by simp [hp]), ?_⟩
      by_cases hk : rtpKeeps f
      · simp only [if_pos hk, List.mem_singleton]
        exact fun he => hfn (he ▸ hp)
      · simp [hk]
    rw [ih (codecPassStep fmtps st f) hrest hnd2, hstep]
    by_cases hk : rtpKeeps f
    · simp [hk, List.filter_cons]
    · simp [hk, List.filter_cons]

theorem codecMainPass_apts_nodup (fmtps : List FmtpEntry) :
    ∀ (rtps : List RtpEntry) (st : MediaInfo × List (MKey × Nat)),
      (st.2.map Prod.fst).Nodup →
      (((rtps.foldl (codecPassStep fmtps) st).2).map Prod.fst).Nodup := by
  intro rtps
  induction rtps with
  | nil => intro st h; exact h
  | cons f t ih =>
    intro st h
    rw [List.foldl_cons]
    apply ih
    by_cases hred : jsUpper f.codec = js "RED" ∨ jsUpper f.codec = js "ULPFEC"
    · simpa [codecPassStep, hred] using h
    · by_cases hrtx : jsUpper f.codec = js "RTX"
      · simp only [codecPassStep, if_neg hred, if_pos hrtx]
        exact nodup_keys_aset _ _ _ h
      · simpa [codecPassStep, hred, hrtx] using h

theorem amod_keys {α β : Type} [DecidableEq α] (k : α) (f : β → β)
    (l : List (α × β)) : (amod k f l).map Prod.fst = l.map Prod.fst := by
  induction l with
  | nil => rfl
  | cons hd t ih =>
    by_cases hk : hd.1 = k
    · simp [amod, hk]
    · simp [amod, hk, ih]

theorem rtxStep_keys (m : MediaInfo) (ap : MKey × Nat) :
    (rtxStep m ap).codecs.map Prod.fst = m.codecs.map Prod.fst := by
  obtain ⟨k, r⟩ := ap
  cases k with
  | num n =>
    by_cases h0 : (0 : Int) ≤ n
    · cases hg : aget n.toNat m.codecs with
      | none => simp [rtxStep, h0, hg]
      | some c => simp [rtxStep, h0, hg, amod_keys]
    · simp [rtxStep, h0]
  | str s => rfl
  | nan => rfl

theorem rtxStep_aget_self (m : MediaInfo) (t : Nat) (r : Nat) :
    aget t (rtxStep m (.num (t : Int), r)).codecs =
      (aget t m.codecs).map fun c => { c with rtx := some r } := by
  have h0 : (0 : Int) ≤ (t : Int) := Int.natCast_nonneg t
  have ht : ((t : Int)).toNat = t := rfl
  cases hg : aget t m.codecs with
  | none => simp [rtxStep, h0, ht, hg]
  | some c => simp [rtxStep, h0, ht, hg, aget_amod_self]

theorem rtxStep_aget_ne (m : MediaInfo) (n : Int) (r : Nat) (t : Nat)
    (h : MKey.num n ≠ MKey.num (t : Int)) :
    aget t (rtxStep m (.num n, r)).codecs = aget t m.codecs := by
  have hne : n ≠ (t : Int) := fun hh => h (by rw [hh])
  by_cases h0 : (0 : Int) ≤ n
  · have hnt : t ≠ n.toNat := by
      intro hh
      exact hne (by omega)
    cases hg : aget n.toNat m.codecs with
    | none => simp [rtxStep, h0, hg]
    | some c =>
      simp only [rtxStep, if_pos h0, hg]
      exact aget_amod_ne n.toNat t _ m.codecs hnt
  · simp [rtxStep, h0]

theorem resolveRTX_keys (apts : List (MKey × Nat)) :
    ∀ m : MediaInfo,
      (resolveRTX (m, apts)).codecs.map Prod.fst = m.codecs.map Prod.fst := by
  induction apts with
  | nil => intro m; rfl
  | cons ap rest ih =>
    intro m
    have e : resolveRTX (m, ap :: rest) = resolveRTX (rtxStep m ap, rest) := rfl
    rw [e, ih (rtxStep m ap), rtxStep_keys]

theorem resolveRTX_aget (apts : List (MKey × Nat)) :
    ∀ (m : MediaInfo), ((apts.map Prod.fst).Nodup) → ∀ (t : Nat),
    aget t (resolveRTX (m, apts)).codecs =
      (match aget (MKey.num (t : Int)) apts with
       | some r => (aget t m.codecs).map fun c => { c with rtx := some r }
       | none => aget t m.codecs) := by
  induction apts with
  | nil => intro m hnd t; rfl
  | cons ap rest ih =>
    intro m hnd t
    obtain ⟨k, r⟩ := ap
    have hnd2 : (rest.map Prod.fst).Nodup := (List.nodup_cons.mp (by simpa using hnd)).2
    have hknotin : k ∉ rest.map Prod.fst :=
      (List.nodup_cons.mp (by simpa using hnd)).1
    have e : resolveRTX (m, (k, r) :: rest) = resolveRTX (rtxStep m (k, r), rest) := rfl
    rw [e, ih (rtxStep m (k, r)) hnd2 t]
    cases k with
    | str s => simp [rtxStep, aget]
    | nan => simp [rtxStep, aget]
    | num n =>
      by_cases hn : MKey.num n = MKey.num (t : Int)
      · have hrest : aget (MKey.num (t : Int)) rest = none := by
          cases hh : aget (MKey.num (t : Int)) rest with
          | none => rfl
          | some v =>
            have hmem : MKey.num (t : Int) ∈ rest.map Prod.fst :=
              (aget_isSome_iff_mem_keys _ _).mp (by rw [hh]; rfl)
            exact absurd hmem (hn ▸ hknotin)
        have hhead : aget (MKey.num (t : Int)) ((MKey.num n, r) :: rest) = some r := by
          simp only [aget]
          rw [if_pos hn]
        rw [hrest, hhead]
        have hnt : n = (t : Int) := by
          injection hn
        rw [hnt, rtxStep_aget_self]
      · have hhead : aget (MKey.num (t : Int)) ((MKey.num n, r) :: rest) =
            aget (MKey.num (t : Int)) rest := by
          simp only [aget]
          rw [if_neg hn]
        rw [hhead, rtxStep_aget_ne m n r t hn]

/-- C4: in SDPInfo.process an rtp entry named RTX (case-insensitively)
never creates a codec — with pairwise-distinct payload types, the codec map
keys are exactly the payloads of the non-RED, non-ULPFEC, non-RTX entries;
after the main pass, every recorded (apt, rtx-payload) pair attaches the
rtx payload onto the codec whose payload type equals apt, and a pair whose
apt matches no codec is dropped silently (no codec map entry appears or
changes at that key); concretely, VP9 at payload 100 with an RTX entry at
101 and fmtp apt=100 yields rtx 101 on the VP9 codec, and with fmtp apt=102
no codec gets an rtx. -/
theorem C4_rtx_association :
    (∀ (fmtps : List FmtpEntry) (rtps : List RtpEntry) (mid mt : JStr),
      (rtps.map RtpEntry.payload).Nodup →
      (buildCodecs rtps fmtps { id := mid, type := mt }).codecs.map Prod.fst =
        (rtps.filter rtpKeeps).map RtpEntry.payload) ∧
    (∀ (fmtps : List FmtpEntry) (rtps : List RtpEntry) (mid mt : JStr)
      (t r : Nat),
      aget (MKey.num (t : Int))
          (codecMainPass rtps fmtps { id := mid, type := mt }).2 = some r →
      (∀ c, aget t (codecMainPass rtps fmtps { id := mid, type := mt }).1.codecs = some c →
        aget t (buildCodecs rtps fmtps { id := mid, type := mt }).codecs =
          some { c with rtx := some r }) ∧
      (aget t (codecMainPass rtps fmtps { id := mid, type := mt }).1.codecs = none →
        aget t (buildCodecs rtps fmtps { id := mid, type := mt }).codecs = none)) ∧
    (aget 100 (buildCodecs
        [{ payload := 100, codec := js "VP9" }, { payload := 101, codec := js "RTX" }]
        [{ payload := 101, config := js "apt=100" }]
        { id := js "0", type := js "video" }).codecs =
      some { codec := js "VP9", type := 100, params := [], rtx := some 101 }) ∧
    ((buildCodecs
        [{ payload := 100, codec := js "VP9" }, { payload := 101, codec := js "RTX" }]
        [{ payload := 101, config := js "apt=102" }]
        { id := js "0", type := js "video" }).codecs =
      [(100, { codec := js "VP9", type := 100, params := [], rtx := none })]) := by
  refine ⟨?keys, ?assoc, by decide, by decide⟩
  case keys =>
    intro fmtps rtps mid mt hnd
    unfold buildCodecs
    rw [resolveRTX_keys]
    have h := codecMainPass_keys_aux fmtps rtps ({ id := mid, type := mt }, [])
      (by intro p hp; simp) hnd
    simpa [codecMainPass] using h
  case assoc =>
    intro fmtps rtps mid mt t r hget
    have hnd : (((codecMainPass rtps fmtps { id := mid, type := mt }).2).map Prod.fst).Nodup :=
      codecMainPass_apts_nodup fmtps rtps ({ id := mid, type := mt }, []) (by simp)
    have h := resolveRTX_aget (codecMainPass rtps fmtps { id := mid, type := mt }).2
      (codecMainPass rtps fmtps { id := mid, type := mt }).1 hnd t
    constructor
    · intro c hc
      rw [show buildCodecs rtps fmtps { id := mid, type := mt } =
        resolveRTX ((codecMainPass rtps fmtps { id := mid, type := mt }).1,
          (codecMainPass rtps fmtps { id := mid, type := mt }).2) from rfl]
      rw [h, hget, hc]
      rfl
    · intro hc
      rw [show buildCodecs rtps fmtps { id := mid, type := mt } =
        resolveRTX ((codecMainPass rtps fmtps { id := mid, type := mt }).1,
          (codecMainPass rtps fmtps { id := mid, type := mt }).2) from rfl]
      rw [h, hget, hc]
      rfl

/-- Witness for C4 at concrete inputs, discharging the distinct-payload and
recorded-pair hypotheses. -/
theorem C4_witness :
    ((buildCodecs [{ payload := 100, codec := js "VP9" }] []
        { id := js "m", type := js "video" }).codecs.map Prod.fst =
      ([{ payload := 100, codec := js "VP9" }].filter rtpKeeps).map RtpEntry.payload) ∧
    (aget 100 (buildCodecs
        [{ payload := 100, codec := js "VP9" }, { payload := 101, codec := js "RTX" }]
        [{ payload := 101, config := js "apt=100" }]
        { id := js "0", type := js "video" }).codecs =
      some { codec := js "VP9", type := 100, params := [], rtx := some 101 }) := by
  constructor
  · exact C4_rtx_association.1 [] [{ payload := 100, codec := js "VP9" }]
      (js "m") (js "video") (by decide)
  · exact (C4_rtx_association.2.1
      [{ payload := 101, config := js "apt=100" }]
      [{ payload := 100, codec := js "VP9" }, { payload := 101, codec := js "RTX" }]
      (js "0") (js "video") 100 101 (by decide)).1
      { codec := js "VP9", type := 100, params := [] } (by decide)

/-! ## Claim C2 -/

/-- C2 (divergence witness): the guard the source writes as
`!"flex-fec" === codec.getCodec().toLowerCase()` is false for every codec
name — the negation applies to the string literal, not to the equality — so
in SDPInfo.toString no video codec ever receives nack/pli or goog-remb
feedback entries, contrary to the claim that every non-flex-fec video codec
does; at the concrete failing input (a video media with the single codec
VP8 at payload 96) the emitted feedback list holds only the transport-cc
entry. -/
theorem C2_flexfec_guard_divergence :
    (∀ name : JStr, flexFecGuard name = false) ∧
    ((buildMD
        { medias :=
            [{ id := js "0", type := js "video",
               codecs := [(96, { codec := js "VP8", type := 96 })] }],
          ice := some { ufrag := js "u", pwd := js "p" },
          dtls := some { setup := .ACTPASS, hash := js "sha-256",
                         fingerprint := js "AA:BB" } }
        { ufrag := js "u", pwd := js "p" }
        { id := js "0", type := js "video",
          codecs := [(96, { codec := js "VP8", type := 96 })] }).map MD.rtcpFb =
      .ok [{ payload := 96, type := js "transport-cc" }]) :=
  ⟨fun _ => rfl, by decide⟩

/-! ## Claim C5 -/

theorem deref_some_bind {β γ : Type} (msg : String) (v : β)
    (f : β → Except JsError γ) : (deref msg (some v) >>= f) = f v := rfl

theorem deref_none_bind {β γ : Type} (msg : String)
    (f : β → Except JsError γ) :
    (deref msg (none : Option β) >>= f) = .error (.typeError (js msg)) := rfl

/-- C5: every ssrcGroups record resolves its owning track through the first
listed ssrc's previously recorded scratch Source — when that resolution
succeeds the group is appended to exactly that stream's track — and when
the first ssrc has no prior source/msid record (no Source at all, or a
Source never assigned a stream id) the pass, and hence SDPInfo.process,
fails with an error instead of skipping the group; concretely, processing a
media line with group FID 1111 2222 and no recorded source for 1111 is the
TypeError of reading getStreamId of undefined. -/
theorem C5_ssrc_group_resolution :
    (∀ (g : SsrcGroupEntry) (sources : List (Nat × SourceInfo)) (sdp : SDPInfo)
       (src : SourceInfo) (sid tid : JStr) (stream : StreamInfo) (track : TrackInfo),
      groupFirstSource sources g = some src →
      src.streamId = some sid → src.trackId = some tid →
      sdp.getStream (some sid) = some stream → stream.id = sid →
      stream.getTrack tid = some track → track.id = tid →
      ∃ sdp2, ssrcGroupsStep sources sdp g = .ok sdp2 ∧
        ((sdp2.getStream (some sid)).bind (fun st => st.getTrack tid)).map
            TrackInfo.groups =
          some (track.groups ++
            [SourceGroupInfo.ofStrings g.semantics (jsSplit ' ' g.ssrcs)])) ∧
    (∀ (groups : List SsrcGroupEntry) (sources : List (Nat × SourceInfo))
       (sdp : SDPInfo),
      (∃ g ∈ groups, groupFirstSource sources g = none ∨
        ∃ src, groupFirstSource sources g = some src ∧ src.streamId = none) →
      ∃ e, applySSRCGroups groups sources sdp = .error e) ∧
    (processTree c5tree =
      .error (.typeError (js "Cannot read properties of undefined (reading getStreamId)"))) := by
  refine ⟨?pos, ?neg, by decide⟩
  case pos =>
    intro g sources sdp src sid tid stream track hsrc hsid htid hstream hsidEq htrack htidEq
    set grp := SourceGroupInfo.ofStrings g.semantics (jsSplit ' ' g.ssrcs) with hgrp
    refine ⟨sdp.addStream (stream.addTrack (track.addSourceGroup grp)), ?run, ?lookup⟩
    case run =>
      unfold ssrcGroupsStep
      rw [hsrc, deref_some_bind, hsid]
      rw [show SDPInfo.getStream sdp (some sid) = some stream from hstream,
        deref_some_bind, htid]
      rw [show StreamInfo.getTrackOpt stream (some tid) = some track from htrack,
        deref_some_bind]
      rfl
    case lookup =>
      have hgets : (sdp.addStream (stream.addTrack (track.addSourceGroup grp))).getStream
          (some sid) = some (stream.addTrack (track.addSourceGroup grp)) := by
        show aget sid (aset (stream.addTrack (track.addSourceGroup grp)).id
          (stream.addTrack (track.addSourceGroup grp)) sdp.streams) = _
        rw [show (stream.addTrack (track.addSourceGroup grp)).id = sid from hsidEq]
        exact aget_aset_self sid _ sdp.streams
      rw [hgets]
      show (aget tid (aset (track.addSourceGroup grp).id (track.addSourceGroup grp)
        stream.tracks)).map TrackInfo.groups = _
      rw [show (track.addSourceGroup grp).id = tid from htidEq]
      rw [aget_aset_self tid _ stream.tracks]
      simp [TrackInfo.addSourceGroup]
  case neg =>
    intro groups
    induction groups with
    | nil =>
      intro sources sdp h
      obtain ⟨g, hg, _⟩ := h
      exact absurd hg (by simp)
    | cons g2 rest ih =>
      intro sources sdp h
      obtain ⟨g, hg, hcond⟩ := h
      rcases List.mem_cons.mp hg with hgh | hgt
      · subst hgh
        rcases hcond with hnone | ⟨src, hsrc, hnostream⟩
        · refine ⟨.typeError (js "Cannot read properties of undefined (reading getStreamId)"), ?_⟩
          show (ssrcGroupsStep sources sdp g >>= fun x =>
            rest.foldlM (ssrcGroupsStep sources) x) = _
          unfold ssrcGroupsStep
          rw [hnone]
          rfl
        · refine ⟨.typeError (js "Cannot read properties of undefined (reading getTrack)"), ?_⟩
          show (ssrcGroupsStep sources sdp g >>= fun x =>
            rest.foldlM (ssrcGroupsStep sources) x) = _
          unfold ssrcGroupsStep
          rw [hsrc, deref_some_bind, hnostream]
          rfl
      · cases hstep : ssrcGroupsStep sources sdp g2 with
        | error e =>
          refine ⟨e, ?_⟩
          show (ssrcGroupsStep sources sdp g2 >>= fun x =>
            rest.foldlM (ssrcGroupsStep sources) x) = _
          rw [hstep]
          rfl
        | ok sdp2 =>
          obtain ⟨e, he⟩ := ih sources sdp2 ⟨g, hgt, hcond⟩
          refine ⟨e, ?_⟩
          show (ssrcGroupsStep sources sdp g2 >>= fun x =>
            rest.foldlM (ssrcGroupsStep sources) x) = _
          rw [hstep]
          exact he

/-- Witness for C5 at concrete inputs, discharging both the successful
resolution's hypotheses and the missing-record hypothesis. -/
theorem C5_witness :
    (∃ sdp2,
      ssrcGroupsStep
        [(1111, { ssrc := 1111, streamId := some (js "s"), trackId := some (js "t") })]
        { streams :=
            [(js "s",
              { id := js "s",
                tracks := [(js "t", { media := js "audio", id := js "t" })] })] }
        { semantics := js "FID", ssrcs := js "1111 2222" } = .ok sdp2 ∧
      ((sdp2.getStream (some (js "s"))).bind (fun st => st.getTrack (js "t"))).map
          TrackInfo.groups =
        some ([] ++ [SourceGroupInfo.ofStrings (js "FID")
          (jsSplit ' ' (js "1111 2222"))])) ∧
    (∃ e, applySSRCGroups [{ semantics := js "FID", ssrcs := js "1111 2222" }]
        [] (SDPInfo.mkNew none) = .error e) := by
  constructor
  · exact C5_ssrc_group_resolution.1
      { semantics := js "FID", ssrcs := js "1111 2222" }
      [(1111, { ssrc := 1111, streamId := some (js "s"), trackId := some (js "t") })]
      { streams :=
          [(js "s",
            { id := js "s",
              tracks := [(js "t", { media := js "audio", id := js "t" })] })] }
      { ssrc := 1111, streamId := some (js "s"), trackId := some (js "t") }
      (js "s") (js "t")
      { id := js "s", tracks := [(js "t", { media := js "audio", id := js "t" })] }
      { media := js "audio", id := js "t" }
      (by decide) rfl rfl (by decide) rfl (by decide) rfl
  · exact C5_ssrc_group_resolution.2.1
      [{ semantics := js "FID", ssrcs := js "1111 2222" }] [] (SDPInfo.mkNew none)
      ⟨{ semantics := js "FID", ssrcs := js "1111 2222" }, by simp, Or.inl (by decide)⟩

/-! ## Claim C3 -/

theorem updateFirst_eq_of_no_match {α : Type} (p : α → Bool) (f : α → α)
    (l : List α) (h : ∀ x ∈ l, ¬ p x = true) : updateFirst p f l = l := by
  induction l with
  | nil => rfl
  | cons a t ih =>
    have hpa : ¬ p a = true := h a (by simp)
    simp only [updateFirst, if_neg hpa]
    rw [ih fun x hx => h x (List.mem_cons_of_mem a hx)]

theorem updateFirst_decomp {α : Type} (p : α → Bool) (f : α → α) (l : List α)
    (h : ∃ x ∈ l, p x = true) :
    ∃ pre y post, l = pre ++ y :: post ∧ p y = true ∧
      (∀ z ∈ pre, ¬ p z = true) ∧
      updateFirst p f l = pre ++ f y :: post := by
  induction l with
  | nil =>
    obtain ⟨x, hx, _⟩ := h
    exact absurd hx (by simp)
  | cons a t ih =>
    by_cases hpa : p a = true
    · exact ⟨[], a, t, rfl, hpa, by simp, by simp [updateFirst, hpa]⟩
    · have h2 : ∃ x ∈ t, p x = true := by
        obtain ⟨x, hx, hpx⟩ := h
        rcases List.mem_cons.mp hx with he | hxt
        · exact absurd (he ▸ hpx) hpa
        · exact ⟨x, hxt, hpx⟩
      obtain ⟨pre, y, post, he, hpy, hpre, hupd⟩ := ih h2
      refine ⟨a :: pre, y, post, by rw [he]; rfl, hpy, ?pre, ?upd⟩
      case pre =>
        intro z hz
        rcases List.mem_cons.mp hz with hza | hzp
        · exact hza ▸ hpa
        · exact hpre z hzp
      case upd =>
        simp only [updateFirst, if_neg hpa, hupd]
        rfl

/-- C3 counterexample: with two media lines of type video and one track of
media type video carrying no mediaId (ssrc 1000), the stream pass of
SDPInfo.toString attaches the cname and per-ssrc msid attributes only to the
first video media line and leaves the second — whose type equally matches —
entirely unchanged, refuting the claim that the attributes are attached to
every media line of the track's media type. -/
theorem C3_counterexample :
    ((attachTracks
        [(js "s1",
          { id := js "s1",
            tracks := [(js "t1",
              { media := js "video", id := js "t1", ssrcs := [1000] })] })]
        [{ type := js "video", mid := js "0" },
         { type := js "video", mid := js "1" }]).get? 1 =
      some { type := js "video", mid := js "1" }) ∧
    ((attachTracks
        [(js "s1",
          { id := js "s1",
            tracks := [(js "t1",
              { media := js "video", id := js "t1", ssrcs := [1000] })] })]
        [{ type := js "video", mid := js "0" },
         { type := js "video", mid := js "1" }]).get? 0).map MD.ssrcs =
      some [{ id := 1000, attr := js "cname", value := js "s1" },
            { id := 1000, attr := js "msid", value := js "s1 t1" }] := by
  constructor
  · decide
  · decide

/-- C3 (amended): in SDPInfo.toString's stream/track pass, a track with a
truthy mediaId is attached (ssrc-groups, cname ssrc attributes, media msid)
to exactly the one media line whose mid equals that mediaId when mids are
pairwise distinct and such a line exists; a track without a mediaId is
attached (cname and per-ssrc msid attributes) to only the first media line
whose type equals the track's media type case-insensitively — earlier lines
do not match and all later lines, of matching type or not, are unchanged —
and to none when no line's type matches. -/
theorem C3_attachment_amended :
    (∀ (stream : StreamInfo) (track : TrackInfo) (mds : List MD) (m : JStr),
      track.mediaId = some m → m ≠ [] →
      (∃ md0 ∈ mds, md0.mid = m) → (mds.map MD.mid).Nodup →
      ∃ pre md0 post, mds = pre ++ md0 :: post ∧ md0.mid = m ∧
        (∀ z ∈ pre, z.mid ≠ m) ∧ (∀ z ∈ post, z.mid ≠ m) ∧
        attachTrack stream track mds = pre ++ unifiedAttach stream track md0 :: post) ∧
    (∀ (stream : StreamInfo) (track : TrackInfo) (mds : List MD),
      track.mediaId = none →
      ((∀ md ∈ mds, jsLower md.type ≠ jsLower track.media) →
        attachTrack stream track mds = mds) ∧
      ((∃ md0 ∈ mds, jsLower md0.type = jsLower track.media) →
        ∃ pre md1 post, mds = pre ++ md1 :: post ∧
          jsLower md1.type = jsLower track.media ∧
          (∀ z ∈ pre, jsLower z.type ≠ jsLower track.media) ∧
          attachTrack stream track mds = pre ++ planBAttach stream track md1 :: post)) := by
  constructor
  · intro stream track mds m hmid hm hex hnd
    have htruthy : jsTruthyStr track.mediaId = true := by
      rw [hmid]
      simpa [jsTruthyStr] using hm
    have hgd : track.mediaId.getD [] = m := by rw [hmid]; rfl
    obtain ⟨md0, hmem, hmid0⟩ := hex
    obtain ⟨pre, y, post, he, hpy, hpre, hupd⟩ :=
      updateFirst_decomp (fun md => track.mediaId.getD [] = md.mid)
        (unifiedAttach stream track) mds
        ⟨md0, hmem, by
          show decide (track.mediaId.getD [] = md0.mid) = true
          rw [hgd, hmid0]
          simp⟩
    have hym : y.mid = m := by
      have hb : decide (track.mediaId.getD [] = y.mid) = true := hpy
      have hp := of_decide_eq_true hb
      rw [hgd] at hp
      exact hp.symm
    refine ⟨pre, y, post, he, hym, ?hpre2, ?hpost, ?hat⟩
    case hpre2 =>
      intro z hz hzm
      have hb := hpre z hz
      have hb2 : ¬ decide (track.mediaId.getD [] = z.mid) = true := hb
      rw [hgd, hzm] at hb2
      simp at hb2
    case hpost =>
      intro z hz hzm
      rw [he, List.map_append, List.map_cons] at hnd
      have h2 := (List.nodup_append.mp hnd).2.1
      have hnotin := (List.nodup_cons.mp h2).1
      apply hnotin
      rw [hym, ← hzm]
      exact List.mem_map_of_mem MD.mid hz
    case hat =>
      unfold attachTrack
      rw [if_pos htruthy]
      exact hupd
  · intro stream track mds hmid
    have hfalsy : jsTruthyStr track.mediaId = false := by rw [hmid]; rfl
    constructor
    · intro hno
      unfold attachTrack
      rw [if_neg (by rw [hfalsy]; simp)]
      apply updateFirst_eq_of_no_match
      intro x hx
      simp only [decide_eq_true_eq]
      exact hno x hx
    · intro hex
      obtain ⟨md0, hmem, hmatch⟩ := hex
      obtain ⟨pre, y, post, he, hpy, hpre, hupd⟩ :=
        updateFirst_decomp (fun md => jsLower md.type = jsLower track.media)
          (planBAttach stream track) mds
          ⟨md0, hmem, by
            show decide (jsLower md0.type = jsLower track.media) = true
            rw [hmatch]
            simp⟩
      refine ⟨pre, y, post, he, of_decide_eq_true hpy, ?hpre2, ?hat⟩
      case hpre2 =>
        intro z hz
        have := hpre z hz
        simpa using this
      case hat =>
        unfold attachTrack
        rw [if_neg (by rw [hfalsy]; simp)]
        exact hupd

/-- Witness for C3's amended theorem at concrete inputs, discharging both
the unified and the plan-B hypotheses. -/
theorem C3_witness :
    (∃ pre md0 post,
      ([{ type := js "video", mid := js "7" }] : List MD) = pre ++ md0 :: post ∧
      md0.mid = js "7" ∧
      (∀ z ∈ pre, z.mid ≠ js "7") ∧ (∀ z ∈ post, z.mid ≠ js "7") ∧
      attachTrack { id := js "s" }
        { media := js "video", id := js "t", mediaId := some (js "7"), ssrcs := [5] }
        [{ type := js "video", mid := js "7" }] =
        pre ++ unifiedAttach { id := js "s" }
          { media := js "video", id := js "t", mediaId := some (js "7"), ssrcs := [5] }
          md0 :: post) ∧
    (∃ pre md1 post,
      ([{ type := js "video", mid := js "0" },
        { type := js "video", mid := js "1" }] : List MD) = pre ++ md1 :: post ∧
      jsLower md1.type = jsLower (js "video") ∧
      (∀ z ∈ pre, jsLower z.type ≠ jsLower (js "video")) ∧
      attachTrack { id := js "s" }
        { media := js "video", id := js "t", ssrcs := [5] }
        [{ type := js "video", mid := js "0" },
         { type := js "video", mid := js "1" }] =
        pre ++ planBAttach { id := js "s" }
          { media := js "video", id := js "t", ssrcs := [5] }
          md1 :: post) := by
  constructor
  · exact C3_attachment_amended.1 { id := js "s" }
      { media := js "video", id := js "t", mediaId := some (js "7"), ssrcs := [5] }
      [{ type := js "video", mid := js "7" }] (js "7")
      rfl (by decide) ⟨{ type := js "video", mid := js "7" }, by simp, rfl⟩ (by decide)
  · exact (C3_attachment_amended.2 { id := js "s" }
      { media := js "video", id := js "t", ssrcs := [5] }
      [{ type := js "video", mid := js "0" },
       { type := js "video", mid := js "1" }] rfl).2
      ⟨{ type := js "video", mid := js "0" }, by simp, by decide⟩

/-! ## Claim C8 -/

/-- C8 counterexample: on a concrete well-formed session, the trees built by
SDPInfo.toString at wall-clock readings 0 and 1 differ (in the origin
sessionId, which the source fills from `(new Date()).getTime()`), so two
invocations of toString on the same unmodified graph at different clock
readings do not produce identical output. -/
theorem C8_counterexample : toTree c8sdp 0 ≠ toTree c8sdp 1 := by decide

/-- C8 (amended): toString is a deterministic pure function of the SDPInfo
graph and the wall-clock reading, and the clock reading influences only the
origin sessionId: for every session and any two invocation times the built
trees agree after erasing origin.sessionId (hence two invocations at the
same clock reading produce identical output). -/
theorem C8_deterministic_amended :
    ∀ (s : SDPInfo) (t1 t2 : Nat),
      (toTree s t1).map eraseSessionId = (toTree s t2).map eraseSessionId := by
  intro s t1 t2
  unfold toTree
  cases hice : s.ice with
  | none => rfl
  | some ice =>
    rw [deref_some_bind, deref_some_bind]
    cases hm : s.medias.mapM (buildMD s ice) with
    | error e => rfl
    | ok mds => rfl

/-! ## Claim C1 -/

/-- C1 counterexample: the session `c1sdp` is built programmatically with
ice, dtls and one media line set, yet the round trip loses its codec: the
entry named "red" survives serialization but is skipped by the parse path's
RED/ULPFEC filter, so the per-media codec payload-type sets (here the key
lists) of G and G2 differ. -/
theorem C1_counterexample :
    c1sdp.ice.isSome = true ∧ c1sdp.dtls.isSome = true ∧ c1sdp.medias ≠ [] ∧
    (roundTrip c1sdp 0).map codecKeyLists = .ok [[]] ∧
    codecKeyLists c1sdp = [[96]] := by
  refine ⟨rfl, rfl, by decide, by decide, by decide⟩

theorem dropWhile_all {p : Char → Bool} :
    ∀ (l : List Char), (∀ c ∈ l, ¬ p c = true) → l.dropWhile p = l
  | [], _ => rfl
  | c :: t, h => by
    rw [List.dropWhile_cons, if_neg (h c (by simp))]

theorem takeWhile_all {p : Char → Bool} :
    ∀ (l : List Char), (∀ c ∈ l, p c = true) → l.takeWhile p = l
  | [], _ => rfl
  | c :: t, h => by
    rw [List.takeWhile_cons, if_pos (h c (by simp)),
      takeWhile_all t (fun x hx => h x (by simp [hx]))]

theorem jsTrim_eq_self (l : JStr) (h : ∀ c ∈ l, ¬ c.isWhitespace = true) :
    jsTrim l = l := by
  unfold jsTrim
  rw [dropWhile_all l h,
    dropWhile_all l.reverse (fun c hc => h c (List.mem_reverse.mp hc)),
    List.reverse_reverse]

theorem natDigitsRev_eq_digits :
    ∀ n fuel, n ≤ fuel → natDigitsRev fuel n = Nat.digits 10 n := by
  intro n
  induction n using Nat.strong_induction_on with
  | _ n ih =>
    intro fuel hf
    cases fuel with
    | zero =>
      have hn : n = 0 := Nat.le_zero.mp hf
      subst hn
      simp [natDigitsRev]
    | succ f =>
      by_cases hn : n = 0
      · subst hn
        simp [natDigitsRev]
      · have hdiv : n / 10 < n := Nat.div_lt_self (Nat.pos_of_ne_zero hn) (by norm_num)
        have hle : n / 10 ≤ f := by omega
        rw [natDigitsRev, if_neg hn, ih (n / 10) hdiv f hle,
          Nat.digits_def' (by norm_num : (1 : Nat) < 10) (Nat.pos_of_ne_zero hn)]

theorem digit_char_facts (d : Nat) (hd : d < 10) :
    (Char.ofNat (48 + d)).isDigit = true ∧
    (Char.ofNat (48 + d)).isWhitespace = false ∧
    Char.ofNat (48 + d) ≠ ' ' ∧ Char.ofNat (48 + d) ≠ '-' ∧
    Char.ofNat (48 + d) ≠ '+' ∧
    (Char.ofNat (48 + d)).toNat - 48 = d := by
  interval_cases d <;> refine ⟨by decide, by decide, by decide, by decide, by decide, by decide⟩

theorem digitsVal_append (acc : Nat) (xs ys : List Char) :
    digitsVal acc (xs ++ ys) = digitsVal (digitsVal acc xs) ys := by
  induction xs generalizing acc with
  | nil => rfl
  | cons c t ih => exact ih (acc * 10 + (c.toNat - 48))

theorem digitsVal_rev_digits :
    ∀ (ds : List Nat), (∀ d ∈ ds, d < 10) →
    ∀ acc, digitsVal acc (ds.reverse.map fun d => Char.ofNat (48 + d)) =
      acc * 10 ^ ds.length + Nat.ofDigits 10 ds := by
  intro ds
  induction ds with
  | nil =>
    intro _ acc
    rw [List.reverse_nil, List.map_nil, Nat.ofDigits_nil, List.length_nil,
      pow_zero, mul_one, Nat.add_zero]
    rfl
  | cons d t ih =>
    intro hds acc
    have hd : d < 10 := hds d (by simp)
    have ht : ∀ x ∈ t, x < 10 := fun x hx => hds x (by simp [hx])
    rw [List.reverse_cons, List.map_append, digitsVal_append, ih ht acc]
    rw [List.map_cons, List.map_nil]
    rw [show ∀ a : Nat, digitsVal a [Char.ofNat (48 + d)] =
      a * 10 + ((Char.ofNat (48 + d)).toNat - 48) from fun a => rfl]
    rw [Nat.ofDigits_cons, (digit_char_facts d hd).2.2.2.2.2, List.length_cons,
      pow_succ]
    ring

theorem natToJStr_digits (n : Nat) :
    ∀ c ∈ natToJStr n, c.isDigit = true ∧ c.isWhitespace = false ∧
      c ≠ ' ' ∧ c ≠ '-' ∧ c ≠ '+' := by
  intro c hc
  by_cases hn : n = 0
  · subst hn
    rw [show natToJStr 0 = ['0'] from rfl, List.mem_singleton] at hc
    subst hc
    refine ⟨by decide, by decide, by decide, by decide, by decide⟩
  · rw [natToJStr, if_neg hn, natDigitsRev_eq_digits n n le_rfl] at hc
    simp only [List.mem_map, List.mem_reverse] at hc
    obtain ⟨d, hd, hcd⟩ := hc
    have hlt : d < 10 := Nat.digits_lt_base (by norm_num) hd
    have hf := digit_char_facts d hlt
    subst hcd
    exact ⟨hf.1, hf.2.1, hf.2.2.1, hf.2.2.2.1, hf.2.2.2.2.1⟩

theorem natToJStr_ne_nil (n : Nat) : natToJStr n ≠ [] := by
  by_cases hn : n = 0
  · subst hn
    decide
  · rw [natToJStr, if_neg hn, natDigitsRev_eq_digits n n le_rfl]
    have hne : Nat.digits 10 n ≠ [] :=
      (Nat.digits_ne_nil_iff_ne_zero (b := 10)).mpr hn
    simp [hne]

theorem digitsVal_natToJStr (n : Nat) : digitsVal 0 (natToJStr n) = n := by
  by_cases hn : n = 0
  · subst hn
    rfl
  · rw [natToJStr, if_neg hn, natDigitsRev_eq_digits n n le_rfl]
    rw [digitsVal_rev_digits (Nat.digits 10 n)
      (fun d hd => Nat.digits_lt_base (by norm_num) hd) 0]
    simp [Nat.ofDigits_digits]

theorem jsToUint32OfStr_natToJStr (n : Nat) :
    jsToUint32OfStr (natToJStr n) = n := by
  have hnw : ∀ c ∈ natToJStr n, ¬ c.isWhitespace = true := fun c hc => by
    rw [(natToJStr_digits n c hc).2.1]
    simp
  rw [jsToUint32OfStr, jsTrim_eq_self _ hnw, if_neg (natToJStr_ne_nil n)]
  rw [if_pos (by
    rw [List.all_eq_true]
    exact fun c hc => (natToJStr_digits n c hc).1)]
  exact digitsVal_natToJStr n

theorem jsParseInt_natToJStr (n : Nat) :
    jsParseInt (natToJStr n) = some (n : Int) := by
  obtain ⟨c, rest, hc⟩ : ∃ c rest, natToJStr n = c :: rest := by
    cases hcc : natToJStr n with
    | nil => exact absurd hcc (natToJStr_ne_nil n)
    | cons c rest => exact ⟨c, rest, rfl⟩
  have hcf := natToJStr_digits n c (by rw [hc]; simp)
  have hs : (c :: rest).dropWhile Char.isWhitespace = c :: rest := by
    rw [← hc]
    exact dropWhile_all _ (fun x hx => by rw [(natToJStr_digits n x hx).2.1]; simp)
  have hall : (c :: rest).takeWhile Char.isDigit = c :: rest := by
    rw [← hc]
    exact takeWhile_all _ (fun x hx => (natToJStr_digits n x hx).1)
  have hval : digitsVal 0 (c :: rest) = n := by
    rw [← hc]
    exact digitsVal_natToJStr n
  rw [hc]
  unfold jsParseInt
  rw [hs]
  simp only [if_neg hcf.2.2.2.1, if_neg hcf.2.2.2.2, parseDigitsCore, hall]
  simp [hval]

theorem jsSplit_ne_nil (c : Char) : ∀ s : JStr, jsSplit c s ≠ []
  | [] => by simp [jsSplit]
  | a :: t => by
    have h := jsSplit_ne_nil c t
    rw [jsSplit]
    cases hh : jsSplit c t with
    | nil => exact absurd hh h
    | cons x y =>
      by_cases ha : a = c
      · simp [ha]
      · simp [ha]

theorem jsSplit_append_cons (c : Char) :
    ∀ (x s : JStr), c ∉ x → jsSplit c (x ++ c :: s) = x :: jsSplit c s
  | [], s, _ => by
    rw [List.nil_append, jsSplit]
    cases hh : jsSplit c s with
    | nil => exact absurd hh (jsSplit_ne_nil c s)
    | cons a t => simp
  | a :: t, s, hx => by
    have ha : ¬ a = c := fun hh => hx (by simp [hh])
    have ht : c ∉ t := fun hh => hx (by simp [hh])
    rw [List.cons_append, jsSplit, jsSplit_append_cons c t s ht]
    simp [ha]

theorem jsJoin_split :
    ∀ (l : List JStr), l ≠ [] → (∀ x ∈ l, ' ' ∉ x) →
      jsSplit ' ' (jsJoin (js " ") l) = l
  | [], h, _ => absurd rfl h
  | [x], _, hx => by
    rw [jsJoin, jsSplit_of_not_mem ' ' x (hx x (by simp))]
  | x :: y :: rest, _, hx => by
    rw [jsJoin]
    rw [show (js " " : JStr) = [' '] from rfl]
    rw [show x ++ [' '] ++ jsJoin [' '] (y :: rest) =
      x ++ ' ' :: jsJoin [' '] (y :: rest) from by simp]
    rw [jsSplit_append_cons ' ' x _ (hx x (by simp))]
    rw [show ([' '] : JStr) = js " " from rfl]
    rw [jsJoin_split (y :: rest) (by simp) (fun z hz => hx z (by simp [hz]))]

theorem join_natToJStr_split (ssrcs : List Nat) (h : ssrcs ≠ []) :
    jsSplit ' ' (jsJoin (js " ") (ssrcs.map natToJStr)) = ssrcs.map natToJStr := by
  apply jsJoin_split
  · simp [h]
  · intro x hx
    obtain ⟨n, _, hn⟩ := List.mem_map.mp hx
    intro hsp
    exact absurd ((natToJStr_digits n ' ' (hn ▸ hsp)).2.2.1) (by simp)

theorem group_roundtrip (g : SourceGroupInfo) (hne : g.ssrcs ≠ []) :
    SourceGroupInfo.ofStrings g.semantics
      (jsSplit ' ' (jsJoin (js " ") (g.ssrcs.map natToJStr))) = g := by
  rw [join_natToJStr_split g.ssrcs hne]
  unfold SourceGroupInfo.ofStrings
  rw [List.map_map]
  rw [show (jsToUint32OfStr ∘ natToJStr) = id from by
    funext n
    exact jsToUint32OfStr_natToJStr n]
  simp

theorem groupFirstSource_of_join (sources : List (Nat × SourceInfo))
    (sem : JStr) (ssrcs : List Nat) (h : ssrcs ≠ []) :
    groupFirstSource sources
      { semantics := sem, ssrcs := jsJoin (js " ") (ssrcs.map natToJStr) } =
      aget ssrcs.headI sources := by
  unfold groupFirstSource
  rw [join_natToJStr_split ssrcs h]
  obtain ⟨n, rest, he⟩ : ∃ n rest, ssrcs = n :: rest := by
    cases ssrcs with
    | nil => exact absurd rfl h
    | cons n rest => exact ⟨n, rest, rfl⟩
  subst he
  rw [show ((n :: rest).map natToJStr).headI = natToJStr n from rfl]
  rw [jsParseInt_natToJStr n]
  simp

/-! ### Codec serialization lemmas -/

theorem codecEntryStep_rtp (mt : JStr) (md : MD) (c : CodecInfo) :
    (codecEntryStep mt md c).rtp = md.rtp ++ [mainRtpEntry mt c] ++ rtxRtpEntries c := by
  unfold codecEntryStep mainRtpEntry rtxRtpEntries
  by_cases hv : js "video" = jsLower mt
  · rw [show flexFecGuard c.codec = false from rfl]
    cases hrtx : c.rtx <;> simp [hv]
  · by_cases ho : js "opus" = jsLower c.codec
    · cases hrtx : c.rtx <;> simp [hv, ho]
    · cases hrtx : c.rtx <;> simp [hv, ho]

theorem codecEntryStep_others (mt : JStr) (md : MD) (c : CodecInfo) :
    (codecEntryStep mt md c).type = md.type ∧
    (codecEntryStep mt md c).mid = md.mid ∧
    (codecEntryStep mt md c).ssrcs = md.ssrcs ∧
    (codecEntryStep mt md c).ssrcGroups = md.ssrcGroups ∧
    (codecEntryStep mt md c).msid = md.msid ∧
    (codecEntryStep mt md c).iceUfrag = md.iceUfrag ∧
    (codecEntryStep mt md c).icePwd = md.icePwd ∧
    (codecEntryStep mt md c).fingerprint = md.fingerprint ∧
    (codecEntryStep mt md c).setup = md.setup ∧
    (codecEntryStep mt md c).direction = md.direction ∧
    (codecEntryStep mt md c).ext = md.ext ∧
    (codecEntryStep mt md c).rids = md.rids ∧
    (codecEntryStep mt md c).simulcast = md.simulcast := by
  unfold codecEntryStep
  by_cases hv : js "video" = jsLower mt
  · rw [show flexFecGuard c.codec = false from rfl]
    cases hrtx : c.rtx <;> simp [hv]
  · by_cases ho : js "opus" = jsLower c.codec
    · cases hrtx : c.rtx <;> simp [hv, ho]
    · cases hrtx : c.rtx <;> simp [hv, ho]

theorem foldl_append_generic {γ δ : Type} (f : γ → List δ) :
    ∀ (l : List γ) (acc : List δ),
      l.foldl (fun a c => a ++ f c) acc = acc ++ l.foldl (fun a c => a ++ f c) [] := by
  intro l
  induction l with
  | nil => intro acc; simp
  | cons c t ih =>
    intro acc
    rw [List.foldl_cons, List.foldl_cons, ih (acc ++ f c), ih ([] ++ f c)]
    simp

theorem rtpEntriesOfCodecs_cons (mt : JStr) (c : CodecInfo) (t : List CodecInfo) :
    rtpEntriesOfCodecs mt (c :: t) =
      ([mainRtpEntry mt c] ++ rtxRtpEntries c) ++ rtpEntriesOfCodecs mt t := by
  unfold rtpEntriesOfCodecs
  rw [List.foldl_cons,
    foldl_append_generic (fun c => [mainRtpEntry mt c] ++ rtxRtpEntries c) t]
  simp

theorem payloadsOfCodecs_cons (c : CodecInfo) (t : List CodecInfo) :
    payloadsOfCodecs (c :: t) = ([c.type] ++ rtxList c) ++ payloadsOfCodecs t := by
  unfold payloadsOfCodecs
  rw [List.foldl_cons, foldl_append_generic (fun c => [c.type] ++ rtxList c) t]
  simp

theorem codecLoop_rtp (mt : JStr) (codecs : List CodecInfo) :
    ∀ md : MD, (codecLoop mt codecs md).rtp = md.rtp ++ rtpEntriesOfCodecs mt codecs := by
  induction codecs with
  | nil => intro md; simp [codecLoop, rtpEntriesOfCodecs]
  | cons c t ih =>
    intro md
    rw [show codecLoop mt (c :: t) md = codecLoop mt t (codecEntryStep mt md c) from rfl]
    rw [ih (codecEntryStep mt md c), codecEntryStep_rtp, rtpEntriesOfCodecs_cons]
    simp

theorem rtpEntriesOfCodecs_payloads (mt : JStr) (codecs : List CodecInfo) :
    (rtpEntriesOfCodecs mt codecs).map RtpEntry.payload = payloadsOfCodecs codecs := by
  induction codecs with
  | nil => rfl
  | cons c t ih =>
    rw [rtpEntriesOfCodecs_cons, payloadsOfCodecs_cons, List.map_append, ih]
    congr 1
    rw [List.map_append]
    congr 1
    · rw [List.map_cons, List.map_nil,
        show (mainRtpEntry mt c).payload = c.type from by
          unfold mainRtpEntry
          by_cases hv : js "video" = jsLower mt
          · simp [hv]
          · by_cases ho : js "opus" = jsLower c.codec <;> simp [hv, ho]]
    · unfold rtxRtpEntries rtxList
      cases c.rtx <;> rfl

theorem rtpEntriesOfCodecs_filter (mt : JStr) (codecs : List CodecInfo)
    (h : ∀ c ∈ codecs, jsUpper c.codec ≠ js "RED" ∧ jsUpper c.codec ≠ js "ULPFEC" ∧
      jsUpper c.codec ≠ js "RTX") :
    ((rtpEntriesOfCodecs mt codecs).filter rtpKeeps).map RtpEntry.payload =
      codecs.map CodecInfo.type := by
  induction codecs with
  | nil => rfl
  | cons c t ih =>
    have hc := h c (by simp)
    have hmain : rtpKeeps (mainRtpEntry mt c) = true := by
      have hcodec : (mainRtpEntry mt c).codec = c.codec := by
        unfold mainRtpEntry
        by_cases hv : js "video" = jsLower mt
        · simp [hv]
        · by_cases ho : js "opus" = jsLower c.codec <;> simp [hv, ho]
      unfold rtpKeeps
      rw [hcodec]
      simp only [decide_eq_true_eq]
      push_neg
      exact hc
    have hrtx : (rtxRtpEntries c).filter rtpKeeps = [] := by
      unfold rtxRtpEntries
      cases c.rtx with
      | none => rfl
      | some r => simp [rtpKeeps, jsUpper, js]
    have hpayload : (mainRtpEntry mt c).payload = c.type := by
      unfold mainRtpEntry
      by_cases hv : js "video" = jsLower mt
      · simp [hv]
      · by_cases ho : js "opus" = jsLower c.codec <;> simp [hv, ho]
    rw [rtpEntriesOfCodecs_cons, List.filter_append, List.filter_append, hrtx,
      List.map_append, ih (fun x hx => h x (by simp [hx]))]
    rw [List.filter_cons, if_pos hmain]
    simp [hpayload]

/-! ### Association list and state helper lemmas -/

theorem aget_append {α β : Type} [DecidableEq α] (k : α) :
    ∀ (l1 l2 : List (α × β)),
      aget k (l1 ++ l2) =
        (match aget k l1 with
         | some v => some v
         | none => aget k l2) := by
  intro l1 l2
  induction l1 with
  | nil => simp [aget]
  | cons hd t ih =>
    by_cases hk : hd.1 = k
    · simp [aget, hk]
    · simp [aget, hk, ih]

theorem aset_fresh_append {α β : Type} [DecidableEq α] (k : α) (v : β) :
    ∀ (l : List (α × β)), aget k l = none → aset k v l = l ++ [(k, v)] := by
  intro l
  induction l with
  | nil => intro _; rfl
  | cons hd t ih =>
    intro h
    by_cases hk : hd.1 = k
    · rw [aget, if_pos hk] at h
      exact absurd h (by simp)
    · rw [aget, if_neg hk] at h
      rw [aset, if_neg hk, ih h]
      rfl

theorem aset_aset {α β : Type} [DecidableEq α] (k : α) (v1 v2 : β) :
    ∀ (l : List (α × β)), aset k v2 (aset k v1 l) = aset k v2 l := by
  intro l
  induction l with
  | nil => simp [aset]
  | cons hd t ih =>
    by_cases hk : hd.1 = k
    · simp [aset, hk]
    · simp [aset, hk, ih]

theorem aget_of_fresh_list {α β : Type} [DecidableEq α] (k : α) :
    ∀ (l : List (α × β)), (∀ p ∈ l, p.1 ≠ k) → aget k l = none := by
  intro l
  induction l with
  | nil => intro _; rfl
  | cons hd t ih =>
    intro h
    rw [aget, if_neg (h hd (by simp))]
    exact ih fun p hp => h p (by simp [hp])

/-! ### Source correlation lemmas -/

theorem sourcesStep_cname (media : JStr) (enc : List (List TrackEncodingInfo))
    (sources : List (Nat × SourceInfo)) (sdp : SDPInfo) (x : Nat) (v : JStr) :
    sourcesStep media enc (sources, sdp) { id := x, attr := js "cname", value := v } =
      (aset x { (match aget x sources with
                 | some s => s
                 | none => { ssrc := x : SourceInfo }) with cname := some v } sources,
       sdp) := by
  unfold sourcesStep
  simp only []
  rw [if_pos (by decide : jsLower (js "cname") = js "cname")]

theorem sourcesStep_msid (media : JStr) (enc : List (List TrackEncodingInfo))
    (sources : List (Nat × SourceInfo)) (sdp : SDPInfo) (x : Nat) (sid tid : JStr)
    (hsid : ' ' ∉ sid) (htid : ' ' ∉ tid) :
    sourcesStep media enc (sources, sdp)
        { id := x, attr := js "msid", value := sid ++ js " " ++ tid } =
      (aset x { (match aget x sources with
                 | some s => s
                 | none => { ssrc := x : SourceInfo }) with
          streamId := some sid, trackId := some tid } sources,
       addSSRCToTrack media enc sid tid x sdp) := by
  have hsplit : jsSplit ' ' (sid ++ js " " ++ tid) = [sid, tid] := by
    rw [show sid ++ js " " ++ tid = sid ++ ' ' :: tid from by simp [js]]
    exact jsSplit_append_sep ' ' sid tid hsid htid
  unfold sourcesStep
  simp only []
  rw [if_neg (by decide : ¬ jsLower (js "msid") = js "cname")]
  rw [if_pos (by decide : jsLower (js "msid") = js "msid")]
  rw [hsplit]
  rfl

/-! ### Attachment characterization -/

theorem catLists_append {α : Type} (l1 l2 : List (List α)) :
    catLists (l1 ++ l2) = catLists l1 ++ catLists l2 := by
  induction l1 with
  | nil => rfl
  | cons x t ih => simp [catLists, ih]

theorem updateFirst_get? {α : Type} (p : α → Bool) (f : α → α) :
    ∀ (l : List α) (i : Nat),
      (updateFirst p f l).get? i =
        (match firstIdx p l with
         | some j => if j = i then (l.get? i).map f else l.get? i
         | none => l.get? i) := by
  intro l
  induction l with
  | nil => intro i; simp [updateFirst, firstIdx]
  | cons x t ih =>
    intro i
    by_cases hp : p x = true
    · simp only [updateFirst, if_pos hp, firstIdx]
      cases i with
      | zero => simp
      | succ n => simp
    · simp only [updateFirst, if_neg hp, firstIdx]
      cases i with
      | zero =>
        cases h : firstIdx p t with
        | none => simp
        | some j => simp
      | succ n =>
        have hih := ih n
        cases h : firstIdx p t with
        | none =>
          rw [h] at hih
          simpa using hih
        | some j =>
          rw [h] at hih
          have hih2 : (updateFirst p f t).get? n =
              if j = n then Option.map f (t.get? n) else t.get? n := hih
          simp only [Option.map_some', List.get?_cons_succ]
          rw [hih2]
          by_cases hj : j = n
          · rw [if_pos hj, if_pos (by omega)]
          · rw [if_neg hj, if_neg (by omega)]

theorem updateFirst_get?_none {α : Type} (p : α → Bool) (f : α → α) (l : List α)
    (i : Nat) (h : firstIdx p l = none) :
    (updateFirst p f l).get? i = l.get? i := by
  rw [updateFirst_get? p f l i, h]

theorem updateFirst_get?_some {α : Type} (p : α → Bool) (f : α → α) (l : List α)
    (i j : Nat) (h : firstIdx p l = some j) :
    (updateFirst p f l).get? i = if j = i then (l.get? i).map f else l.get? i := by
  rw [updateFirst_get? p f l i, h]

theorem attachOne_fields (p : StreamInfo × TrackInfo) (md : MD) :
    (attachOne p md).type = md.type ∧ (attachOne p md).mid = md.mid ∧
    (attachOne p md).rtp = md.rtp ∧ (attachOne p md).fmtp = md.fmtp ∧
    (attachOne p md).ext = md.ext ∧ (attachOne p md).rids = md.rids ∧
    (attachOne p md).simulcast = md.simulcast ∧
    (attachOne p md).direction = md.direction ∧
    (attachOne p md).setup = md.setup ∧
    (attachOne p md).iceUfrag = md.iceUfrag ∧
    (attachOne p md).icePwd = md.icePwd ∧
    (attachOne p md).fingerprint = md.fingerprint ∧
    (attachOne p md).ssrcs = md.ssrcs ++ pairSsrcBlock p ∧
    (attachOne p md).ssrcGroups = md.ssrcGroups ++ pairGroupEntries p ∧
    (attachOne p md).msid =
      (if jsTruthyStr p.2.mediaId then some (p.1.id ++ js " " ++ p.2.id)
       else md.msid) := by
  unfold attachOne unifiedAttach planBAttach pairSsrcBlock pairGroupEntries
  by_cases h : jsTruthyStr p.2.mediaId = true <;> simp [h]

theorem attachPred_attachOne (q p : StreamInfo × TrackInfo) (md : MD) :
    attachPred q (attachOne p md) = attachPred q md := by
  have ht : (attachOne p md).type = md.type := (attachOne_fields p md).1
  have hm : (attachOne p md).mid = md.mid := (attachOne_fields p md).2.1
  unfold attachPred
  rw [ht, hm]

theorem attachTrack_eq (p : StreamInfo × TrackInfo) (mds : List MD) :
    attachTrack p.1 p.2 mds = updateFirst (attachPred p) (attachOne p) mds := by
  by_cases h : jsTruthyStr p.2.mediaId = true
  · have hp : attachPred p = fun md => decide (p.2.mediaId.getD [] = md.mid) :=
      funext fun md => by simp [attachPred, h]
    have ho : attachOne p = unifiedAttach p.1 p.2 :=
      funext fun md => by simp [attachOne, h]
    rw [attachTrack, if_pos h, hp, ho]
  · have hp : attachPred p = fun md => decide (jsLower md.type = jsLower p.2.media) :=
      funext fun md => by simp [attachPred, h]
    have ho : attachOne p = planBAttach p.1 p.2 :=
      funext fun md => by simp [attachOne, h]
    rw [attachTrack, if_neg h, hp, ho]

theorem firstIdx_updateFirst {α : Type} (p2 p1 : α → Bool) (f : α → α)
    (hstable : ∀ x, p2 (f x) = p2 x) :
    ∀ l : List α, firstIdx p2 (updateFirst p1 f l) = firstIdx p2 l := by
  intro l
  induction l with
  | nil => rfl
  | cons x t ih =>
    by_cases h1 : p1 x = true
    · simp [updateFirst, h1, firstIdx, hstable]
    · simp [updateFirst, h1, firstIdx, ih]

theorem attachAll_get? :
    ∀ (pairs : List (StreamInfo × TrackInfo)) (mds : List MD) (i : Nat),
      (attachAll pairs mds).get? i =
        (mds.get? i).map
          (applyList (pairs.filter fun p => firstIdx (attachPred p) mds = some i)) := by
  intro pairs
  induction pairs with
  | nil =>
    intro mds i
    show mds.get? i = _
    cases hmd : mds.get? i with
    | none => rfl
    | some md0 => rfl
  | cons p ps ih =>
    intro mds i
    rw [show attachAll (p :: ps) mds = attachAll ps (attachTrack p.1 p.2 mds) from rfl]
    rw [attachTrack_eq p mds]
    rw [ih (updateFirst (attachPred p) (attachOne p) mds) i]
    have hfilt :
        (ps.filter fun q =>
          firstIdx (attachPred q) (updateFirst (attachPred p) (attachOne p) mds) =
            some i) =
        ps.filter fun q => firstIdx (attachPred q) mds = some i := by
      apply List.filter_congr
      intro q _
      rw [firstIdx_updateFirst (attachPred q) (attachPred p) (attachOne p)
        (fun x => attachPred_attachOne q p x) mds]
    rw [hfilt]
    cases hf : firstIdx (attachPred p) mds with
    | none =>
      rw [updateFirst_get?_none (attachPred p) (attachOne p) mds i hf]
      rw [List.filter_cons, if_neg (by simp [hf])]
    | some j =>
      rw [updateFirst_get?_some (attachPred p) (attachOne p) mds i j hf]
      by_cases hj : j = i
      · subst hj
        rw [if_pos rfl, List.filter_cons, if_pos (by simp [hf])]
        cases hmd : mds.get? j with
        | none => rfl
        | some md0 =>
          simp only [Option.map_some']
          rw [show applyList (p :: (ps.filter fun q =>
            firstIdx (attachPred q) mds = some j)) md0 =
            applyList (ps.filter fun q => firstIdx (attachPred q) mds = some j)
              (attachOne p md0) from rfl]
      · rw [if_neg hj, List.filter_cons, if_neg (by simp [hf]; omega)]

theorem attachTracks_eq_attachAll :
    ∀ (streams : List (JStr × StreamInfo)) (mds : List MD),
      attachTracks streams mds =
        attachAll
          (streams.foldr
            (fun p acc => (p.2.tracks.map fun q => (p.2, q.2)) ++ acc) []) mds := by
  intro streams
  induction streams with
  | nil => intro mds; rfl
  | cons e rest ih =>
    intro mds
    rw [show attachTracks (e :: rest) mds =
      attachTracks rest (e.2.tracks.foldl (fun m q => attachTrack e.2 q.2 m) mds)
      from rfl]
    rw [ih, List.foldr_cons]
    rw [show attachAll ((e.2.tracks.map fun q => (e.2, q.2)) ++
        rest.foldr (fun p acc => (p.2.tracks.map fun q => (p.2, q.2)) ++ acc) []) mds =
      attachAll (rest.foldr (fun p acc => (p.2.tracks.map fun q => (p.2, q.2)) ++ acc) [])
        (attachAll (e.2.tracks.map fun q => (e.2, q.2)) mds)
      from by unfold attachAll; rw [List.foldl_append]]
    congr 1
    unfold attachAll
    rw [List.foldl_map]

theorem attachTracks_pairs (s : SDPInfo) (mds : List MD) :
    attachTracks s.streams mds = attachAll (streamTrackPairs s) mds := by
  rw [attachTracks_eq_attachAll]
  rfl

/-! ### Media description decomposition -/

theorem codecEntryStep_fmtp (mt : JStr) (md : MD) (c : CodecInfo) :
    (codecEntryStep mt md c).fmtp = md.fmtp ++ fmtpOfCodec c := by
  unfold codecEntryStep fmtpOfCodec
  by_cases hv : js "video" = jsLower mt
  · rw [show flexFecGuard c.codec = false from rfl]
    cases hrtx : c.rtx <;> simp [hv]
  · by_cases ho : js "opus" = jsLower c.codec
    · cases hrtx : c.rtx <;> simp [hv, ho]
    · cases hrtx : c.rtx <;> simp [hv, ho]

theorem codecLoop_fmtp (mt : JStr) (codecs : List CodecInfo) :
    ∀ md : MD,
      (codecLoop mt codecs md).fmtp = md.fmtp ++ fmtpEntriesOfCodecs codecs := by
  induction codecs with
  | nil => intro md; simp [codecLoop, fmtpEntriesOfCodecs, catLists]
  | cons c t ih =>
    intro md
    rw [show codecLoop mt (c :: t) md = codecLoop mt t (codecEntryStep mt md c) from rfl]
    rw [ih (codecEntryStep mt md c), codecEntryStep_fmtp]
    simp [fmtpEntriesOfCodecs, catLists]

theorem codecLoop_others (mt : JStr) (codecs : List CodecInfo) :
    ∀ md : MD,
      (codecLoop mt codecs md).type = md.type ∧
      (codecLoop mt codecs md).mid = md.mid ∧
      (codecLoop mt codecs md).ssrcs = md.ssrcs ∧
      (codecLoop mt codecs md).ssrcGroups = md.ssrcGroups ∧
      (codecLoop mt codecs md).msid = md.msid ∧
      (codecLoop mt codecs md).iceUfrag = md.iceUfrag ∧
      (codecLoop mt codecs md).icePwd = md.icePwd ∧
      (codecLoop mt codecs md).fingerprint = md.fingerprint ∧
      (codecLoop mt codecs md).setup = md.setup ∧
      (codecLoop mt codecs md).direction = md.direction ∧
      (codecLoop mt codecs md).ext = md.ext ∧
      (codecLoop mt codecs md).rids = md.rids ∧
      (codecLoop mt codecs md).simulcast = md.simulcast := by
  induction codecs with
  | nil =>
    intro md
    exact ⟨rfl, rfl, rfl, rfl, rfl, rfl, rfl, rfl, rfl, rfl, rfl, rfl, rfl⟩
  | cons c t ih =>
    intro md
    obtain ⟨a1, a2, a3, a4, a5, a6, a7, a8, a9, a10, a11, a12, a13⟩ :=
      codecEntryStep_others mt md c
    obtain ⟨b1, b2, b3, b4, b5, b6, b7, b8, b9, b10, b11, b12, b13⟩ :=
      ih (codecEntryStep mt md c)
    exact ⟨b1.trans a1, b2.trans a2, b3.trans a3, b4.trans a4, b5.trans a5,
      b6.trans a6, b7.trans a7, b8.trans a8, b9.trans a9, b10.trans a10,
      b11.trans a11, b12.trans a12, b13.trans a13⟩

theorem mdOf_fields (s : SDPInfo) (ice : ICEInfo) (dtls : DTLSInfo)
    (media : MediaInfo) :
    (mdOf s ice dtls media).type = media.type ∧
    (mdOf s ice dtls media).mid = media.id ∧
    (mdOf s ice dtls media).rtp =
      rtpEntriesOfCodecs media.type (media.codecs.map Prod.snd) ∧
    (mdOf s ice dtls media).fmtp =
      fmtpEntriesOfCodecs (media.codecs.map Prod.snd) ∧
    (mdOf s ice dtls media).ssrcs = [] ∧
    (mdOf s ice dtls media).ssrcGroups = [] ∧
    (mdOf s ice dtls media).msid = none ∧
    (mdOf s ice dtls media).fingerprint =
      some { type := dtls.hash, hash := dtls.fingerprint } ∧
    (mdOf s ice dtls media).iceUfrag = ice.ufrag ∧
    (mdOf s ice dtls media).icePwd = ice.pwd ∧
    (mdOf s ice dtls media).setup = some (Setup.toStr dtls.setup) := by
  have h := codecLoop_others media.type (media.codecs.map Prod.snd)
    { type := media.type
      direction := some (Direction.toStr media.direction)
      rtcpMux := some (js "rtcp-mux")
      rtcpRsize := some (js "rtcp-rsize")
      mid := media.id
      bandwidth :=
        if media.bitrate > 0 then [{ type := js "AS", limit := media.bitrate }]
        else []
      candidates := s.candidates.map fun c =>
        { foundation := c.foundation, component := c.componentId,
          transport := c.transport, priority := c.priority, ip := c.address,
          port := c.port, type := c.type }
      iceUfrag := ice.ufrag
      icePwd := ice.pwd
      fingerprint := some { type := dtls.hash, hash := dtls.fingerprint }
      setup := some (Setup.toStr dtls.setup) }
  obtain ⟨h1, h2, h3, h4, h5, h6, h7, h8, h9, h10, h11, h12, h13⟩ := h
  refine ⟨h1, h2, ?rtp, ?fmtp, h3, h4, h5, h8, h6, h7, h9⟩
  case rtp => exact codecLoop_rtp media.type (media.codecs.map Prod.snd) _
  case fmtp => exact codecLoop_fmtp media.type (media.codecs.map Prod.snd) _

theorem buildMD_ok (s : SDPInfo) (ice : ICEInfo) (dtls : DTLSInfo)
    (media : MediaInfo) (hdtls : s.dtls = some dtls) :
    buildMD s ice media = .ok (mdOf s ice dtls media) := by
  simp only [buildMD, hdtls, deref_some_bind, mdOf]
  by_cases hb : media.bitrate > 0
  · cases hsim : media.simulcast with
    | none =>
      simp only [hb, hsim, gt_iff_lt, if_true, if_pos hb]
      show Except.ok _ = Except.ok _
      congr 1
      congr 1
      exact (codecLoop_others media.type (List.map Prod.snd media.codecs)
        _).2.2.2.2.2.2.2.2.2.2.2.2
    | some sim => simp [hb, hsim]; rfl
  · cases hsim : media.simulcast with
    | none =>
      simp only [hb, hsim, gt_iff_lt, if_false, if_neg hb]
      show Except.ok _ = Except.ok _
      congr 1
      congr 1
      exact (codecLoop_others media.type (List.map Prod.snd media.codecs)
        _).2.2.2.2.2.2.2.2.2.2.2.2
    | some sim => simp [hb, hsim]; rfl

theorem mapM_ok_of_forall {γ δ : Type} (f : γ → Except JsError δ) (g : γ → δ) :
    ∀ l : List γ, (∀ x ∈ l, f x = .ok (g x)) → l.mapM f = .ok (l.map g) := by
  intro l
  induction l with
  | nil => intro _; rfl
  | cons x t ih =>
    intro h
    rw [List.mapM_cons, h x (by simp), ih (fun y hy => h y (by simp [hy]))]
    rfl

theorem except_bind_pure {β γ : Type} (m : Except JsError β) (g : β → γ) :
    (m >>= fun a => (pure (g a) : Except JsError γ)) = Except.map g m := by
  cases m <;> rfl

theorem processMedia_run (tree : SdpTree) (acc : SDPInfo) (md : MD)
    (f : FingerprintAttr) (hf : md.fingerprint = some f) :
    processMedia tree acc md =
      Except.map (fun sdp3 => sdp3.addMedia (procSim md).2)
        (applySSRCGroups md.ssrcGroups (procSt acc md f).1 (procSt acc md f).2) := by
  simp only [processMedia, hf, deref_some_bind]
  rw [except_bind_pure]
  rfl

/-! ### Composite attachment field lemmas -/

theorem applyList_inert :
    ∀ (ps : List (StreamInfo × TrackInfo)) (md : MD),
      (applyList ps md).type = md.type ∧ (applyList ps md).mid = md.mid ∧
      (applyList ps md).rtp = md.rtp ∧ (applyList ps md).fmtp = md.fmtp ∧
      (applyList ps md).ext = md.ext ∧ (applyList ps md).rids = md.rids ∧
      (applyList ps md).simulcast = md.simulcast ∧
      (applyList ps md).direction = md.direction ∧
      (applyList ps md).setup = md.setup ∧
      (applyList ps md).iceUfrag = md.iceUfrag ∧
      (applyList ps md).icePwd = md.icePwd ∧
      (applyList ps md).fingerprint = md.fingerprint := by
  intro ps
  induction ps with
  | nil =>
    intro md
    exact ⟨rfl, rfl, rfl, rfl, rfl, rfl, rfl, rfl, rfl, rfl, rfl, rfl⟩
  | cons p rest ih =>
    intro md
    obtain ⟨a1, a2, a3, a4, a5, a6, a7, a8, a9, a10, a11, a12, _, _, _⟩ :=
      attachOne_fields p md
    obtain ⟨b1, b2, b3, b4, b5, b6, b7, b8, b9, b10, b11, b12⟩ :=
      ih (attachOne p md)
    exact ⟨b1.trans a1, b2.trans a2, b3.trans a3, b4.trans a4, b5.trans a5,
      b6.trans a6, b7.trans a7, b8.trans a8, b9.trans a9, b10.trans a10,
      b11.trans a11, b12.trans a12⟩

theorem applyList_ssrcs :
    ∀ (ps : List (StreamInfo × TrackInfo)) (md : MD),
      (applyList ps md).ssrcs = md.ssrcs ++ catLists (ps.map pairSsrcBlock) := by
  intro ps
  induction ps with
  | nil => intro md; simp [applyList, catLists]
  | cons p rest ih =>
    intro md
    obtain ⟨_, _, _, _, _, _, _, _, _, _, _, _, ha, _, _⟩ := attachOne_fields p md
    rw [show applyList (p :: rest) md = applyList rest (attachOne p md) from rfl,
      ih (attachOne p md), ha]
    simp [catLists]

theorem applyList_ssrcGroups :
    ∀ (ps : List (StreamInfo × TrackInfo)) (md : MD),
      (applyList ps md).ssrcGroups =
        md.ssrcGroups ++ catLists (ps.map pairGroupEntries) := by
  intro ps
  induction ps with
  | nil => intro md; simp [applyList, catLists]
  | cons p rest ih =>
    intro md
    obtain ⟨_, _, _, _, _, _, _, _, _, _, _, _, _, ha, _⟩ := attachOne_fields p md
    rw [show applyList (p :: rest) md = applyList rest (attachOne p md) from rfl,
      ih (attachOne p md), ha]
    simp [catLists]

theorem applyList_msid :
    ∀ (ps : List (StreamInfo × TrackInfo)) (md : MD),
      (applyList ps md).msid =
        ps.foldl
          (fun acc p =>
            if jsTruthyStr p.2.mediaId then some (p.1.id ++ js " " ++ p.2.id)
            else acc)
          md.msid := by
  intro ps
  induction ps with
  | nil => intro md; rfl
  | cons p rest ih =>
    intro md
    obtain ⟨_, _, _, _, _, _, _, _, _, _, _, _, _, _, ha⟩ := attachOne_fields p md
    rw [show applyList (p :: rest) md = applyList rest (attachOne p md) from rfl,
      ih (attachOne p md), ha]
    rfl

/-! ### Codec keys through the parse path -/

theorem buildCodecs_keys (rtps : List RtpEntry) (fmtps : List FmtpEntry)
    (m0 : MediaInfo) (h0 : m0.codecs = [])
    (hnd : (rtps.map RtpEntry.payload).Nodup) :
    (buildCodecs rtps fmtps m0).codecs.map Prod.fst =
      (rtps.filter rtpKeeps).map RtpEntry.payload := by
  unfold buildCodecs
  have hmain := codecMainPass_keys_aux fmtps rtps (m0, [])
    (by intro p hp; rw [show (m0, ([] : List (MKey × Nat))).1.codecs = [] from h0]; simp)
    hnd
  have hres := resolveRTX_keys (codecMainPass rtps fmtps m0).2
    (codecMainPass rtps fmtps m0).1
  rw [show resolveRTX (codecMainPass rtps fmtps m0) =
    resolveRTX ((codecMainPass rtps fmtps m0).1, (codecMainPass rtps fmtps m0).2)
    from rfl] at *
  rw [hres]
  rw [show (codecMainPass rtps fmtps m0).1 = (rtps.foldl (codecPassStep fmtps) (m0, [])).1
    from rfl]
  rw [hmain, h0]
  simp

theorem extFold_proj (l : List ExtEntry) :
    ∀ m : MediaInfo,
      (l.foldl (fun m e => m.addExtension e.value e.uri) m).codecs = m.codecs ∧
      (l.foldl (fun m e => m.addExtension e.value e.uri) m).id = m.id ∧
      (l.foldl (fun m e => m.addExtension e.value e.uri) m).type = m.type ∧
      (l.foldl (fun m e => m.addExtension e.value e.uri) m).simulcast = m.simulcast := by
  induction l with
  | nil => intro m; exact ⟨rfl, rfl, rfl, rfl⟩
  | cons e t ih =>
    intro m
    obtain ⟨b1, b2, b3, b4⟩ := ih (m.addExtension e.value e.uri)
    exact ⟨b1, b2, b3, b4⟩

theorem ridFold_proj (l : List RidEntry) :
    ∀ m : MediaInfo,
      (l.foldl (fun m r => m.addRID (processRid r)) m).codecs = m.codecs ∧
      (l.foldl (fun m r => m.addRID (processRid r)) m).id = m.id ∧
      (l.foldl (fun m r => m.addRID (processRid r)) m).type = m.type ∧
      (l.foldl (fun m r => m.addRID (processRid r)) m).simulcast = m.simulcast := by
  induction l with
  | nil => intro m; exact ⟨rfl, rfl, rfl, rfl⟩
  | cons r t ih =>
    intro m
    obtain ⟨b1, b2, b3, b4⟩ := ih (m.addRID (processRid r))
    exact ⟨b1, b2, b3, b4⟩

theorem codecPassStep_proj (fmtps : List FmtpEntry)
    (st : MediaInfo × List (MKey × Nat)) (fmt : RtpEntry) :
    (codecPassStep fmtps st fmt).1.id = st.1.id ∧
    (codecPassStep fmtps st fmt).1.type = st.1.type := by
  unfold codecPassStep
  simp only []
  split_ifs <;> exact ⟨rfl, rfl⟩

theorem codecMainPass_proj (fmtps : List FmtpEntry) :
    ∀ (rtps : List RtpEntry) (st : MediaInfo × List (MKey × Nat)),
      (rtps.foldl (codecPassStep fmtps) st).1.id = st.1.id ∧
      (rtps.foldl (codecPassStep fmtps) st).1.type = st.1.type := by
  intro rtps
  induction rtps with
  | nil => intro st; exact ⟨rfl, rfl⟩
  | cons fmt t ih =>
    intro st
    obtain ⟨b1, b2⟩ := ih (codecPassStep fmtps st fmt)
    obtain ⟨a1, a2⟩ := codecPassStep_proj fmtps st fmt
    exact ⟨b1.trans a1, b2.trans a2⟩

theorem rtxStep_proj (m : MediaInfo) (ap : MKey × Nat) :
    (rtxStep m ap).id = m.id ∧ (rtxStep m ap).type = m.type := by
  obtain ⟨k, r⟩ := ap
  cases k with
  | num n =>
    by_cases h0 : (0 : Int) ≤ n
    · cases hg : aget n.toNat m.codecs with
      | none => simp [rtxStep, h0, hg]
      | some c => simp [rtxStep, h0, hg]
    · simp [rtxStep, h0]
  | str s => exact ⟨rfl, rfl⟩
  | nan => exact ⟨rfl, rfl⟩

theorem resolveRTX_proj (apts : List (MKey × Nat)) :
    ∀ m : MediaInfo,
      (resolveRTX (m, apts)).id = m.id ∧ (resolveRTX (m, apts)).type = m.type := by
  induction apts with
  | nil => intro m; exact ⟨rfl, rfl⟩
  | cons ap rest ih =>
    intro m
    obtain ⟨b1, b2⟩ := ih (rtxStep m ap)
    obtain ⟨a1, a2⟩ := rtxStep_proj m ap
    exact ⟨b1.trans a1, b2.trans a2⟩

theorem buildCodecs_proj (rtps : List RtpEntry) (fmtps : List FmtpEntry)
    (m0 : MediaInfo) :
    (buildCodecs rtps fmtps m0).id = m0.id ∧
    (buildCodecs rtps fmtps m0).type = m0.type := by
  unfold buildCodecs
  have h1 := resolveRTX_proj (codecMainPass rtps fmtps m0).2
    (codecMainPass rtps fmtps m0).1
  have h2 := codecMainPass_proj fmtps rtps (m0, [])
  rw [show resolveRTX (codecMainPass rtps fmtps m0) =
    resolveRTX ((codecMainPass rtps fmtps m0).1, (codecMainPass rtps fmtps m0).2)
    from rfl]
  exact ⟨h1.1.trans h2.1, h1.2.trans h2.2⟩

theorem procMI_proj (md : MD) :
    (procSim md).2.id = md.mid ∧ (procSim md).2.type = md.type ∧
    (procSim md).2.codecs =
      (buildCodecs md.rtp md.fmtp
        { id := md.mid, type := md.type, direction := procDirection md }).codecs := by
  have he := extFold_proj md.ext
    (buildCodecs md.rtp md.fmtp
      { id := md.mid, type := md.type, direction := procDirection md })
  obtain ⟨e1, e2, e3, _⟩ := he
  have hr := ridFold_proj md.rids
    (md.ext.foldl (fun m e => m.addExtension e.value e.uri)
      (buildCodecs md.rtp md.fmtp
        { id := md.mid, type := md.type, direction := procDirection md }))
  obtain ⟨r1, r2, r3, _⟩ := hr
  obtain ⟨c1, c2⟩ := buildCodecs_proj md.rtp md.fmtp
    { id := md.mid, type := md.type, direction := procDirection md }
  have hco : (procMIcodecs md).codecs =
      (buildCodecs md.rtp md.fmtp
        { id := md.mid, type := md.type, direction := procDirection md }).codecs :=
    r1.trans e1
  have hid : (procMIcodecs md).id = md.mid := r2.trans (e2.trans c1)
  have hty : (procMIcodecs md).type = md.type := r3.trans (e3.trans c2)
  unfold procSim
  cases hsim : md.simulcast with
  | none => exact ⟨hid, hty, hco⟩
  | some sa => exact ⟨hid, hty, hco⟩

theorem keys_eq_types (l : List (Nat × CodecInfo))
    (h : ∀ p ∈ l, p.1 = p.2.type) :
    l.map Prod.fst = (l.map Prod.snd).map CodecInfo.type := by
  induction l with
  | nil => rfl
  | cons p t ih =>
    rw [List.map_cons, List.map_cons, List.map_cons,
      ih (fun q hq => h q (by simp [hq])), h p (by simp)]

theorem processed_media_keys (s : SDPInfo) (ice : ICEInfo) (dtls : DTLSInfo)
    (media : MediaInfo) (ps : List (StreamInfo × TrackInfo))
    (hwfm : MediaWF media) :
    (procSim (applyList ps (mdOf s ice dtls media))).2.id = media.id ∧
    (procSim (applyList ps (mdOf s ice dtls media))).2.type = media.type ∧
    (procSim (applyList ps (mdOf s ice dtls media))).2.codecs.map Prod.fst =
      media.codecs.map Prod.fst := by
  set md := applyList ps (mdOf s ice dtls media) with hmd
  obtain ⟨i1, i2, i3, i4, _⟩ := applyList_inert ps (mdOf s ice dtls media)
  obtain ⟨m1, m2, m3, m4, _⟩ := mdOf_fields s ice dtls media
  have hmid : md.mid = media.id := i2.trans m2
  have htype : md.type = media.type := i1.trans m1
  have hrtp : md.rtp = rtpEntriesOfCodecs media.type (media.codecs.map Prod.snd) :=
    i3.trans m3
  obtain ⟨p1, p2, p3⟩ := procMI_proj md
  refine ⟨p1.trans hmid, p2.trans htype, ?keys⟩
  rw [p3]
  have hnd : (md.rtp.map RtpEntry.payload).Nodup := by
    rw [hrtp, rtpEntriesOfCodecs_payloads]
    exact hwfm.2
  rw [buildCodecs_keys md.rtp md.fmtp _ rfl hnd]
  rw [hrtp]
  rw [rtpEntriesOfCodecs_filter media.type (media.codecs.map Prod.snd)
    (by
      intro c hc
      obtain ⟨q, hq, hqc⟩ := List.mem_map.mp hc
      exact hqc ▸ (hwfm.1 q hq).2)]
  exact (keys_eq_types media.codecs (fun q hq => (hwfm.1 q hq).1)).symm

/-! ### Scratch-source block folds -/

theorem aget_mem {α β : Type} [DecidableEq α] (k : α) (v : β) :
    ∀ l : List (α × β), aget k l = some v → (k, v) ∈ l := by
  intro l
  induction l with
  | nil => intro h; exact absurd h (by simp [aget])
  | cons hd t ih =>
    intro h
    by_cases hk : hd.1 = k
    · rw [aget, if_pos hk] at h
      have h2 : hd = (k, v) := by
        obtain ⟨a, b⟩ := hd
        obtain rfl : a = k := hk
        obtain rfl : b = v := Option.some_inj.mp h
        rfl
      rw [h2]
      exact List.mem_cons_self _ _
    · rw [aget, if_neg hk] at h
      exact List.mem_cons_of_mem hd (ih h)

theorem mem_aset {α β : Type} [DecidableEq α] (k : α) (v : β) :
    ∀ (l : List (α × β)) (e : α × β), e ∈ aset k v l → e ∈ l ∨ e = (k, v) := by
  intro l
  induction l with
  | nil =>
    intro e he
    right
    simpa [aset] using he
  | cons hd t ih =>
    intro e he
    by_cases hk : hd.1 = k
    · rw [aset, if_pos hk] at he
      rcases List.mem_cons.mp he with h1 | h2
      · right; exact h1
      · left; exact List.mem_cons_of_mem hd h2
    · rw [aset, if_neg hk] at he
      rcases List.mem_cons.mp he with h1 | h2
      · left; exact h1 ▸ List.mem_cons_self hd t
      · rcases ih e h2 with h3 | h4
        · left; exact List.mem_cons_of_mem hd h3
        · right; exact h4

theorem aset_append_of_fresh {α β : Type} [DecidableEq α] (k : α) (v : β) :
    ∀ (l1 l2 : List (α × β)), aget k l1 = none →
      aset k v (l1 ++ l2) = l1 ++ aset k v l2 := by
  intro l1
  induction l1 with
  | nil => intro l2 _; rfl
  | cons hd t ih =>
    intro l2 h
    by_cases hk : hd.1 = k
    · rw [aget, if_pos hk] at h
      exact absurd h (by simp)
    · rw [aget, if_neg hk] at h
      rw [List.cons_append, aset, if_neg hk, ih l2 h]
      rfl

theorem catLists_cons {α : Type} (l : List α) (rest : List (List α)) :
    catLists (l :: rest) = l ++ catLists rest := rfl

theorem planB_entries_eq (sid tid : JStr) :
    ∀ (l : List Nat) (acc : List SsrcEntry),
      l.foldl (fun acc ssrc => acc ++
        [{ id := ssrc, attr := js "cname", value := sid },
         { id := ssrc, attr := js "msid", value := sid ++ js " " ++ tid }]) acc =
      acc ++ catLists (l.map fun x =>
        [{ id := x, attr := js "cname", value := sid },
         { id := x, attr := js "msid", value := sid ++ js " " ++ tid }]) := by
  intro l
  induction l with
  | nil => intro acc; simp [catLists]
  | cons x t ih =>
    intro acc
    rw [List.foldl_cons, ih, List.map_cons, catLists_cons]
    simp

theorem pairSsrcBlock_planB (p : StreamInfo × TrackInfo)
    (h : jsTruthyStr p.2.mediaId = false) :
    pairSsrcBlock p = catLists (p.2.ssrcs.map fun x =>
      [{ id := x, attr := js "cname", value := p.1.id },
       { id := x, attr := js "msid",
         value := p.1.id ++ js " " ++ p.2.id }]) := by
  unfold pairSsrcBlock
  rw [if_neg (by simp [h])]
  rw [planB_entries_eq p.1.id p.2.id p.2.ssrcs []]
  simp

theorem pairSsrcBlock_unified (p : StreamInfo × TrackInfo)
    (h : jsTruthyStr p.2.mediaId = true) :
    pairSsrcBlock p =
      p.2.ssrcs.map fun x => { id := x, attr := js "cname", value := p.1.id } := by
  unfold pairSsrcBlock
  rw [if_pos h]

theorem sourcesStep_cname_fresh (media : JStr) (enc : List (List TrackEncodingInfo))
    (sources : List (Nat × SourceInfo)) (sdp : SDPInfo) (x : Nat) (v : JStr)
    (h : aget x sources = none) :
    sourcesStep media enc (sources, sdp) { id := x, attr := js "cname", value := v } =
      (sources ++ [(x, { ssrc := x, cname := some v })], sdp) := by
  rw [sourcesStep_cname media enc sources sdp x v]
  simp only [h]
  rw [aset_fresh_append x _ sources h]

theorem sourcesStep_msid_found (media : JStr) (enc : List (List TrackEncodingInfo))
    (sources : List (Nat × SourceInfo)) (sdp : SDPInfo) (x y : Nat)
    (cn st0 tk0 : Option JStr) (sid tid : JStr)
    (hsid : ' ' ∉ sid) (htid : ' ' ∉ tid)
    (h : aget x sources =
      some { ssrc := y, cname := cn, streamId := st0, trackId := tk0 }) :
    sourcesStep media enc (sources, sdp)
        { id := x, attr := js "msid", value := sid ++ js " " ++ tid } =
      (aset x { ssrc := y, cname := cn, streamId := some sid, trackId := some tid }
        sources,
       addSSRCToTrack media enc sid tid x sdp) := by
  rw [sourcesStep_msid media enc sources sdp x sid tid hsid htid]
  simp only [h]

theorem unified_block_fold (media : JStr) (enc : List (List TrackEncodingInfo))
    (sid : JStr) :
    ∀ (l : List Nat) (sources : List (Nat × SourceInfo)) (sdp : SDPInfo),
      (∀ x ∈ l, aget x sources = none) → l.Nodup →
      (l.map fun x =>
        ({ id := x, attr := js "cname", value := sid } : SsrcEntry)).foldl
          (sourcesStep media enc) (sources, sdp) =
        (sources ++ l.map fun x => (x, cnameSource sid x), sdp) := by
  intro l
  induction l with
  | nil => intro sources sdp _ _; simp
  | cons x t ih =>
    intro sources sdp hfresh hnd
    have hfx : aget x sources = none := hfresh x (by simp)
    have hf2 : ∀ y ∈ t,
        aget y (sources ++ [(x, ({ ssrc := x, cname := some sid } : SourceInfo))]) =
          none := by
      intro y hy
      rw [aget_append]
      rw [hfresh y (by simp [hy])]
      have hxy : x ≠ y := fun he => (List.nodup_cons.mp hnd).1 (he ▸ hy)
      simp [aget, hxy]
    have h2 := ih (sources ++ [(x, { ssrc := x, cname := some sid })]) sdp hf2
      (List.nodup_cons.mp hnd).2
    rw [List.map_cons, List.foldl_cons]
    rw [sourcesStep_cname_fresh media enc sources sdp x sid hfx]
    rw [h2]
    rw [List.map_cons]
    simp [cnameSource]

theorem planB_block_fold (media : JStr) (enc : List (List TrackEncodingInfo))
    (sid tid : JStr) (hsid : ' ' ∉ sid) (htid : ' ' ∉ tid) :
    ∀ (l : List Nat) (sources : List (Nat × SourceInfo)) (sdp : SDPInfo),
      (∀ x ∈ l, aget x sources = none) → l.Nodup →
      (catLists (l.map fun x =>
        [{ id := x, attr := js "cname", value := sid },
         { id := x, attr := js "msid", value := sid ++ js " " ++ tid }])).foldl
          (sourcesStep media enc) (sources, sdp) =
        (sources ++ l.map fun x => (x, planBSource sid tid x),
         l.foldl (fun sd x => addSSRCToTrack media enc sid tid x sd) sdp) := by
  intro l
  induction l with
  | nil => intro sources sdp _ _; simp [catLists]
  | cons x t ih =>
    intro sources sdp hfresh hnd
    have hfx : aget x sources = none := hfresh x (by simp)
    have hgx : aget x (sources ++ [(x, { ssrc := x, cname := some sid })]) =
        some { ssrc := x, cname := some sid, streamId := none, trackId := none } := by
      rw [aget_append, hfx]
      simp [aget]
    have hmsid := sourcesStep_msid_found media enc
      (sources ++ [(x, { ssrc := x, cname := some sid })]) sdp x x
      (some sid) none none sid tid hsid htid hgx
    have haset : aset x
        ({ ssrc := x, cname := some sid, streamId := some sid,
           trackId := some tid } : SourceInfo)
        (sources ++ [(x, { ssrc := x, cname := some sid })]) =
        sources ++ [(x, planBSource sid tid x)] := by
      rw [aset_append_of_fresh x _ sources [(x, { ssrc := x, cname := some sid })] hfx]
      simp [aset, planBSource]
    rw [haset] at hmsid
    have hf2 : ∀ y ∈ t, aget y (sources ++ [(x, planBSource sid tid x)]) = none := by
      intro y hy
      rw [aget_append]
      rw [hfresh y (by simp [hy])]
      have hxy : x ≠ y := fun he => (List.nodup_cons.mp hnd).1 (he ▸ hy)
      simp [aget, hxy]
    have h2 := ih (sources ++ [(x, planBSource sid tid x)])
      (addSSRCToTrack media enc sid tid x sdp) hf2 (List.nodup_cons.mp hnd).2
    rw [List.map_cons, catLists_cons, List.foldl_append]
    rw [show ([({ id := x, attr := js "cname", value := sid } : SsrcEntry),
      { id := x, attr := js "msid", value := sid ++ js " " ++ tid }]).foldl
        (sourcesStep media enc) (sources, sdp) =
      sourcesStep media enc
        (sourcesStep media enc (sources, sdp)
          { id := x, attr := js "cname", value := sid })
        { id := x, attr := js "msid", value := sid ++ js " " ++ tid } from rfl]
    rw [sourcesStep_cname_fresh media enc sources sdp x sid hfx]
    rw [hmsid, h2]
    rw [List.map_cons]
    simp

/-! ### Stream/track upsert effects -/

theorem keysWF_stream_id (sdp : SDPInfo) (h : streamKeysWF sdp) (sid : JStr)
    (s0 : StreamInfo) (hg : aget sid sdp.streams = some s0) : s0.id = sid :=
  (h (sid, s0) (aget_mem sid s0 sdp.streams hg)).1

theorem keysWF_track_id (sdp : SDPInfo) (h : streamKeysWF sdp) (sid tid : JStr)
    (s0 : StreamInfo) (t0 : TrackInfo) (hg : aget sid sdp.streams = some s0)
    (hgt : aget tid s0.tracks = some t0) : t0.id = tid :=
  (h (sid, s0) (aget_mem sid s0 sdp.streams hg)).2 (tid, t0)
    (aget_mem tid t0 s0.tracks hgt)

theorem addSSRC_upsert (media : JStr) (enc : List (List TrackEncodingInfo))
    (sid tid : JStr) (x : Nat) (l : List Nat) (sdp : SDPInfo)
    (hwf : streamKeysWF sdp) :
    addSSRCToTrack media enc sid tid x (upsertTrackSSRCs media enc sid tid l sdp) =
      upsertTrackSSRCs media enc sid tid (l ++ [x]) sdp := by
  unfold upsertTrackSSRCs addSSRCToTrack SDPInfo.addStream StreamInfo.addTrack
    StreamInfo.getTrack TrackInfo.addSSRC
  simp only []
  cases hg : aget sid sdp.streams with
  | none =>
    simp only []
    cases hgt : aget tid ({ id := sid : StreamInfo }).tracks with
    | none =>
      simp only [aget_aset_self, aget_aset_ne, aset_aset]
      simp [aget_aset_self, aset_aset, List.append_assoc]
    | some t0 =>
      exact absurd hgt (by simp [aget])
  | some s0 =>
    have hs0 : s0.id = sid := keysWF_stream_id sdp hwf sid s0 hg
    simp only []
    cases hgt : aget tid s0.tracks with
    | none =>
      simp only [hs0, aget_aset_self, aset_aset]
      simp [hs0, aget_aset_self, aset_aset, List.append_assoc]
    | some t0 =>
      have ht0 : t0.id = tid := keysWF_track_id sdp hwf sid tid s0 t0 hg hgt
      simp only [hs0, ht0, aget_aset_self, aset_aset]
      simp [hs0, ht0, aget_aset_self, aset_aset, List.append_assoc]

theorem upsert_foldl_extend (media : JStr) (enc : List (List TrackEncodingInfo))
    (sid tid : JStr) :
    ∀ (rest : List Nat) (l : List Nat) (sdp : SDPInfo), streamKeysWF sdp →
      rest.foldl (fun sd x => addSSRCToTrack media enc sid tid x sd)
        (upsertTrackSSRCs media enc sid tid l sdp) =
      upsertTrackSSRCs media enc sid tid (l ++ rest) sdp := by
  intro rest
  induction rest with
  | nil => intro l sdp _; simp
  | cons y t ih =>
    intro l sdp hwf
    rw [List.foldl_cons, addSSRC_upsert media enc sid tid y l sdp hwf,
      ih (l ++ [y]) sdp hwf]
    simp

theorem add_eq_upsert_single (media : JStr) (enc : List (List TrackEncodingInfo))
    (sid tid : JStr) (x : Nat) (sdp : SDPInfo) :
    addSSRCToTrack media enc sid tid x sdp =
      upsertTrackSSRCs media enc sid tid [x] sdp := rfl

theorem foldl_add_eq_upsert (media : JStr) (enc : List (List TrackEncodingInfo))
    (sid tid : JStr) (l : List Nat) (sdp : SDPInfo) (hne : l ≠ [])
    (hwf : streamKeysWF sdp) :
    l.foldl (fun sd x => addSSRCToTrack media enc sid tid x sd) sdp =
      upsertTrackSSRCs media enc sid tid l sdp := by
  cases l with
  | nil => exact absurd rfl hne
  | cons x t =>
    rw [List.foldl_cons, add_eq_upsert_single media enc sid tid x sdp,
      upsert_foldl_extend media enc sid tid t [x] sdp hwf]
    rfl

theorem keysWF_addStream (sdp : SDPInfo) (hwf : streamKeysWF sdp)
    (stream0 : StreamInfo) (T : TrackInfo)
    (htr : ∀ q ∈ stream0.tracks, q.2.id = q.1) :
    streamKeysWF (sdp.addStream (stream0.addTrack T)) := by
  intro e he
  rcases mem_aset _ _ sdp.streams e he with hold | hnew
  · exact hwf e hold
  · subst hnew
    refine ⟨rfl, ?_⟩
    intro q hq
    rcases mem_aset _ _ stream0.tracks q hq with hqold | hqnew
    · exact htr q hqold
    · subst hqnew
      rfl

theorem trackView_viewOf (sdp : SDPInfo) (sid tid : JStr) :
    trackView sdp sid tid =
      ((aget sid sdp.streams).bind fun st => aget tid st.tracks).map viewOf := rfl

theorem trackView_addStream (sdp : SDPInfo) (hwf : streamKeysWF sdp)
    (sid tid : JStr) (stream0 : StreamInfo) (T : TrackInfo)
    (hs0 : stream0 = (match aget sid sdp.streams with
      | some s => s
      | none => ({ id := sid } : StreamInfo)))
    (hT : T.id = tid) (sid2 tid2 : JStr) :
    trackView (sdp.addStream (stream0.addTrack T)) sid2 tid2 =
      (if sid2 = sid ∧ tid2 = tid then some (viewOf T)
       else trackView sdp sid2 tid2) := by
  have hsid0 : stream0.id = sid := by
    rw [hs0]
    cases hg : aget sid sdp.streams with
    | none => rfl
    | some s => exact keysWF_stream_id sdp hwf sid s hg
  have hS : (stream0.addTrack T).id = sid := hsid0
  by_cases hsid2 : sid2 = sid
  · subst hsid2
    have hget : aget sid2 ((sdp.addStream (stream0.addTrack T)).streams) =
        some (stream0.addTrack T) := by
      show aget sid2
        (aset (stream0.addTrack T).id (stream0.addTrack T) sdp.streams) = _
      rw [hS]
      exact aget_aset_self _ _ _
    rw [trackView_viewOf, hget]
    show (aget tid2 (aset T.id T stream0.tracks)).map viewOf = _
    rw [hT]
    by_cases htid2 : tid2 = tid
    · subst htid2
      rw [aget_aset_self]
      rw [if_pos ⟨rfl, rfl⟩]
      rfl
    · rw [aget_aset_ne tid tid2 T stream0.tracks htid2]
      rw [if_neg (fun hc => htid2 hc.2)]
      rw [trackView_viewOf]
      rw [hs0]
      cases hg : aget sid2 sdp.streams with
      | none => rfl
      | some s => rfl
  · rw [trackView_viewOf]
    show (((aget sid2
      (aset (stream0.addTrack T).id (stream0.addTrack T) sdp.streams)).bind
        fun st => aget tid2 st.tracks).map viewOf) = _
    rw [hS, aget_aset_ne sid sid2 _ sdp.streams hsid2]
    rw [if_neg (fun hc => hsid2 hc.1)]
    rfl

theorem trackView_upsert (media : JStr) (enc : List (List TrackEncodingInfo))
    (sid tid : JStr) (l : List Nat) (sdp : SDPInfo) (hwf : streamKeysWF sdp)
    (hnone : trackView sdp sid tid = none) (sid2 tid2 : JStr) :
    trackView (upsertTrackSSRCs media enc sid tid l sdp) sid2 tid2 =
      (if sid2 = sid ∧ tid2 = tid then some (l, ([] : List (JStr × List Nat)))
       else trackView sdp sid2 tid2) := by
  have hgt : (match aget sid sdp.streams with
      | some s => s
      | none => ({ id := sid } : StreamInfo)).getTrack tid = none := by
    cases hg : aget sid sdp.streams with
    | none => rfl
    | some s =>
      rw [trackView_viewOf, hg] at hnone
      simp only [Option.some_bind] at hnone
      show aget tid s.tracks = none
      cases hgt2 : aget tid s.tracks with
      | none => rfl
      | some t0 =>
        rw [hgt2] at hnone
        exact absurd hnone (by simp)
  unfold upsertTrackSSRCs
  simp only []
  rw [hgt]
  rw [trackView_addStream sdp hwf sid tid _ _ rfl rfl sid2 tid2]
  by_cases hc : sid2 = sid ∧ tid2 = tid
  · rw [if_pos hc, if_pos hc]
    simp [viewOf]
  · rw [if_neg hc, if_neg hc]

theorem keysWF_upsert (media : JStr) (enc : List (List TrackEncodingInfo))
    (sid tid : JStr) (l : List Nat) (sdp : SDPInfo) (hwf : streamKeysWF sdp) :
    streamKeysWF (upsertTrackSSRCs media enc sid tid l sdp) := by
  unfold upsertTrackSSRCs
  simp only []
  apply keysWF_addStream sdp hwf
  cases hg : aget sid sdp.streams with
  | none =>
    intro q hq
    exact absurd hq (by simp)
  | some s =>
    intro q hq
    exact (hwf (sid, s) (aget_mem _ _ _ hg)).2 q hq

/-! ### The whole ssrc block of a media line -/

theorem aget_map_fresh {β : Type} (x : Nat) (l : List Nat) (f : Nat → β)
    (h : x ∉ l) : aget x (l.map fun y => (y, f y)) = none := by
  apply aget_of_fresh_list
  intro p hp
  obtain ⟨y, hy, hyp⟩ := List.mem_map.mp hp
  intro he
  exact h (by rw [← he, ← hyp]; exact hy)

theorem pairSources_unified (p : StreamInfo × TrackInfo)
    (h : jsTruthyStr p.2.mediaId = true) :
    pairSources p = p.2.ssrcs.map fun x => (x, cnameSource p.1.id x) := by
  unfold pairSources
  rw [if_pos h]

theorem pairSources_planB (p : StreamInfo × TrackInfo)
    (h : jsTruthyStr p.2.mediaId = false) :
    pairSources p = p.2.ssrcs.map fun x => (x, planBSource p.1.id p.2.id x) := by
  unfold pairSources
  rw [if_neg (by simp [h])]

theorem allSources_cons (p : StreamInfo × TrackInfo)
    (rest : List (StreamInfo × TrackInfo)) :
    allSources (p :: rest) = pairSources p ++ allSources rest := rfl

theorem ssrcs_fold_blocks (media : JStr) (enc : List (List TrackEncodingInfo)) :
    ∀ (ps : List (StreamInfo × TrackInfo)) (sources : List (Nat × SourceInfo))
      (sdp : SDPInfo),
      streamKeysWF sdp →
      (∀ p ∈ ps, ' ' ∉ p.1.id ∧ ' ' ∉ p.2.id ∧ p.2.ssrcs.Nodup ∧
        (jsTruthyStr p.2.mediaId = false → p.2.ssrcs ≠ [])) →
      (∀ p ∈ ps, ∀ x ∈ p.2.ssrcs, aget x sources = none) →
      (ps.Pairwise fun p q => ∀ x ∈ p.2.ssrcs, x ∉ q.2.ssrcs) →
      (catLists (ps.map pairSsrcBlock)).foldl (sourcesStep media enc)
          (sources, sdp) =
        (sources ++ allSources ps, applyPlanB media enc ps sdp) := by
  intro ps
  induction ps with
  | nil =>
    intro sources sdp _ _ _ _
    simp [allSources, catLists, applyPlanB]
  | cons p rest ih =>
    intro sources sdp hwf hprops hfresh hpw
    obtain ⟨hsid, htid, hnd, hneB⟩ := hprops p (by simp)
    have hpwh : ∀ q ∈ rest, ∀ x ∈ p.2.ssrcs, x ∉ q.2.ssrcs :=
      fun q hq => (List.pairwise_cons.mp hpw).1 q hq
    have hfreshp : ∀ x ∈ p.2.ssrcs, aget x sources = none :=
      hfresh p (by simp)
    rw [List.map_cons, catLists_cons, List.foldl_append]
    by_cases hU : jsTruthyStr p.2.mediaId = true
    · rw [pairSsrcBlock_unified p hU]
      rw [unified_block_fold media enc p.1.id p.2.ssrcs sources sdp hfreshp hnd]
      have hfresh2 : ∀ q ∈ rest, ∀ x ∈ q.2.ssrcs,
          aget x (sources ++ p.2.ssrcs.map fun x => (x, cnameSource p.1.id x)) =
            none := by
        intro q hq x hx
        rw [aget_append, hfresh q (by simp [hq]) x hx]
        exact aget_map_fresh x p.2.ssrcs _
          (fun hxp => hpwh q hq x hxp hx)
      rw [ih (sources ++ p.2.ssrcs.map fun x => (x, cnameSource p.1.id x)) sdp hwf
        (fun q hq => hprops q (by simp [hq])) hfresh2
        (List.pairwise_cons.mp hpw).2]
      rw [allSources_cons, pairSources_unified p hU]
      rw [show applyPlanB media enc (p :: rest) sdp = applyPlanB media enc rest sdp
        from by unfold applyPlanB; rw [List.foldl_cons, if_pos hU]]
      simp
    · have hUf : jsTruthyStr p.2.mediaId = false := by
        cases hb : jsTruthyStr p.2.mediaId with
        | false => rfl
        | true => exact absurd hb hU
      rw [pairSsrcBlock_planB p hUf]
      rw [planB_block_fold media enc p.1.id p.2.id hsid htid p.2.ssrcs sources sdp
        hfreshp hnd]
      rw [foldl_add_eq_upsert media enc p.1.id p.2.id p.2.ssrcs sdp (hneB hUf) hwf]
      have hwf2 : streamKeysWF (upsertTrackSSRCs media enc p.1.id p.2.id
          p.2.ssrcs sdp) :=
        keysWF_upsert media enc p.1.id p.2.id p.2.ssrcs sdp hwf
      have hfresh2 : ∀ q ∈ rest, ∀ x ∈ q.2.ssrcs,
          aget x (sources ++ p.2.ssrcs.map fun x =>
            (x, planBSource p.1.id p.2.id x)) = none := by
        intro q hq x hx
        rw [aget_append, hfresh q (by simp [hq]) x hx]
        exact aget_map_fresh x p.2.ssrcs _
          (fun hxp => hpwh q hq x hxp hx)
      rw [ih (sources ++ p.2.ssrcs.map fun x => (x, planBSource p.1.id p.2.id x))
        (upsertTrackSSRCs media enc p.1.id p.2.id p.2.ssrcs sdp) hwf2
        (fun q hq => hprops q (by simp [hq])) hfresh2
        (List.pairwise_cons.mp hpw).2]
      rw [allSources_cons, pairSources_planB p hUf]
      rw [show applyPlanB media enc (p :: rest) sdp =
        applyPlanB media enc rest
          (upsertTrackSSRCs media enc p.1.id p.2.id p.2.ssrcs sdp)
        from by unfold applyPlanB; rw [List.foldl_cons, if_neg (by simp [hUf])]]
      simp

/-! ### The global-msid fallback -/

theorem lastUnifiedFrom_all_falsy :
    ∀ (ps : List (StreamInfo × TrackInfo)) (acc : Option JStr),
      (∀ p ∈ ps, jsTruthyStr p.2.mediaId = false) →
      ps.foldl
        (fun acc p =>
          if jsTruthyStr p.2.mediaId then some (p.1.id ++ js " " ++ p.2.id)
          else acc) acc = acc := by
  intro ps
  induction ps with
  | nil => intro acc _; rfl
  | cons q rest ih =>
    intro acc h
    rw [List.foldl_cons, if_neg (by simp [h q (by simp)])]
    exact ih acc fun p hp => h p (by simp [hp])

theorem lastUnifiedMsid_of_none (ps : List (StreamInfo × TrackInfo))
    (h : ∀ p ∈ ps, jsTruthyStr p.2.mediaId = false) :
    lastUnifiedMsid ps = none :=
  lastUnifiedFrom_all_falsy ps none h

theorem lastUnifiedMsid_of_single :
    ∀ (ps : List (StreamInfo × TrackInfo)) (pu : StreamInfo × TrackInfo),
      ps.filter (fun p => jsTruthyStr p.2.mediaId) = [pu] →
      lastUnifiedMsid ps = some (pu.1.id ++ js " " ++ pu.2.id) := by
  intro ps
  induction ps with
  | nil =>
    intro pu h
    exact absurd h (by simp)
  | cons q rest ih =>
    intro pu h
    by_cases hq : jsTruthyStr q.2.mediaId = true
    · rw [List.filter_cons, if_pos (by simp [hq])] at h
      have hqu : q = pu := by
        have := List.cons.injEq q (rest.filter fun p => jsTruthyStr p.2.mediaId)
          pu []
        rw [this] at h
        exact h.1
      have hrest : ∀ p ∈ rest, jsTruthyStr p.2.mediaId = false := by
        have h2 : rest.filter (fun p => jsTruthyStr p.2.mediaId) = [] := by
          have := List.cons.injEq q (rest.filter fun p => jsTruthyStr p.2.mediaId)
            pu []
          rw [this] at h
          exact h.2
        intro p hp
        cases hb : jsTruthyStr p.2.mediaId with
        | false => rfl
        | true =>
          have : p ∈ rest.filter (fun p => jsTruthyStr p.2.mediaId) :=
            List.mem_filter.mpr ⟨hp, by simp [hb]⟩
          rw [h2] at this
          exact absurd this (by simp)
      unfold lastUnifiedMsid
      rw [List.foldl_cons, if_pos hq, lastUnifiedFrom_all_falsy rest _ hrest, hqu]
    · rw [List.filter_cons, if_neg (by simp [hq])] at h
      unfold lastUnifiedMsid
      rw [List.foldl_cons, if_neg hq]
      exact ih pu h

theorem gmSrcStep_truthy (usid utid : JStr) (a : List (Nat × SourceInfo))
    (p : Nat × SourceInfo) (hp : jsTruthyStr p.2.streamId = true) :
    gmSrcStep usid utid a p = a := by
  unfold gmSrcStep
  rw [if_pos hp]

theorem gmSrcStep_falsy (usid utid : JStr) (a : List (Nat × SourceInfo))
    (p : Nat × SourceInfo) (hp : ¬ jsTruthyStr p.2.streamId = true) :
    gmSrcStep usid utid a p =
      aset p.1 { p.2 with streamId := some usid, trackId := some utid } a := by
  unfold gmSrcStep gmUpd
  rw [if_neg hp]

theorem gmTrkStep_truthy (b : TrackInfo) (p : Nat × SourceInfo)
    (hp : jsTruthyStr p.2.streamId = true) : gmTrkStep b p = b := by
  unfold gmTrkStep
  rw [if_pos hp]

theorem gmTrkStep_falsy (b : TrackInfo) (p : Nat × SourceInfo)
    (hp : ¬ jsTruthyStr p.2.streamId = true) : gmTrkStep b p = b.addSSRC p.1 := by
  unfold gmTrkStep
  rw [if_neg hp]

theorem gmFold_split (usid utid : JStr) :
    ∀ (l : List (Nat × SourceInfo)) (a : List (Nat × SourceInfo)) (b : TrackInfo),
      l.foldl
        (fun (acc : List (Nat × SourceInfo) × TrackInfo) p =>
          if jsTruthyStr p.2.streamId then acc
          else
            (aset p.1 { p.2 with streamId := some usid, trackId := some utid }
              acc.1,
             acc.2.addSSRC p.1)) (a, b) =
      (l.foldl (gmSrcStep usid utid) a, l.foldl gmTrkStep b) := by
  intro l
  induction l with
  | nil => intro a b; rfl
  | cons p t ih =>
    intro a b
    rw [List.foldl_cons, List.foldl_cons, List.foldl_cons]
    by_cases hp : jsTruthyStr p.2.streamId = true
    · rw [if_pos hp, gmSrcStep_truthy usid utid a p hp, gmTrkStep_truthy b p hp]
      exact ih a b
    · rw [if_neg hp, gmSrcStep_falsy usid utid a p hp, gmTrkStep_falsy b p hp]
      exact ih _ _

theorem gmTrkFold_eq :
    ∀ (l : List (Nat × SourceInfo)) (b : TrackInfo),
      l.foldl gmTrkStep b =
        { b with ssrcs := b.ssrcs ++
            ((l.filter fun p => !jsTruthyStr p.2.streamId).map Prod.fst) } := by
  intro l
  induction l with
  | nil => intro b; simp
  | cons p t ih =>
    intro b
    rw [List.foldl_cons]
    by_cases hp : jsTruthyStr p.2.streamId = true
    · rw [gmTrkStep_truthy b p hp]
      rw [ih b, List.filter_cons, if_neg (by simp [hp])]
    · rw [gmTrkStep_falsy b p hp]
      rw [ih (b.addSSRC p.1), List.filter_cons, if_pos (by simp [hp])]
      unfold TrackInfo.addSSRC
      simp

theorem globalMsidPass_none (media mid : JStr)
    (enc : List (List TrackEncodingInfo))
    (st : List (Nat × SourceInfo) × SDPInfo) :
    globalMsidPass media mid enc none st = st := rfl

theorem getTrack_match_none (sdp : SDPInfo) (sid tid : JStr)
    (hnone : trackView sdp sid tid = none) :
    (match aget sid sdp.streams with
      | some s => s
      | none => ({ id := sid } : StreamInfo)).getTrack tid = none := by
  cases hg : aget sid sdp.streams with
  | none => rfl
  | some s =>
    rw [trackView_viewOf, hg] at hnone
    simp only [Option.some_bind] at hnone
    show aget tid s.tracks = none
    cases hgt2 : aget tid s.tracks with
    | none => rfl
    | some t0 =>
      rw [hgt2] at hnone
      exact absurd hnone (by simp)

theorem globalMsidPass_single (media mid : JStr)
    (enc : List (List TrackEncodingInfo)) (usid utid : JStr)
    (h1 : ' ' ∉ usid) (h2 : ' ' ∉ utid)
    (srcs : List (Nat × SourceInfo)) (sdp : SDPInfo) :
    globalMsidPass media mid enc (some (usid ++ js " " ++ utid)) (srcs, sdp) =
      (srcs.foldl (gmSrcStep usid utid) srcs,
       sdp.addStream
         ((match aget usid sdp.streams with
            | some s => s
            | none => ({ id := usid } : StreamInfo)).addTrack
           (srcs.foldl gmTrkStep
             (match (match aget usid sdp.streams with
                 | some s => s
                 | none => ({ id := usid } : StreamInfo)).getTrack utid with
              | some t => t
              | none =>
                { media := media, id := utid, mediaId := some mid,
                  encodings := enc })))) := by
  have hne : usid ++ js " " ++ utid ≠ [] := by simp [js]
  have hsplit : jsSplit ' ' (usid ++ js " " ++ utid) = [usid, utid] := by
    rw [show usid ++ js " " ++ utid = usid ++ ' ' :: utid from by simp [js]]
    exact jsSplit_append_sep ' ' usid utid h1 h2
  unfold globalMsidPass
  rw [if_pos (by simp [jsTruthyStr, js])]
  simp only [Option.getD_some]
  rw [hsplit]
  simp only [List.headI, List.get?_cons_succ, List.get?_cons_zero,
    Option.getD_some]
  rw [gmFold_split usid utid srcs srcs _]

theorem globalMsid_effect (media mid : JStr) (enc : List (List TrackEncodingInfo))
    (usid utid : JStr) (h1 : ' ' ∉ usid) (h2 : ' ' ∉ utid)
    (srcs : List (Nat × SourceInfo)) (sdp : SDPInfo)
    (hwf : streamKeysWF sdp) (hnone : trackView sdp usid utid = none) :
    (globalMsidPass media mid enc (some (usid ++ js " " ++ utid)) (srcs, sdp)).1 =
      srcs.foldl (gmSrcStep usid utid) srcs ∧
    streamKeysWF
      (globalMsidPass media mid enc (some (usid ++ js " " ++ utid))
        (srcs, sdp)).2 ∧
    ∀ sid2 tid2,
      trackView
        (globalMsidPass media mid enc (some (usid ++ js " " ++ utid))
          (srcs, sdp)).2 sid2 tid2 =
      (if sid2 = usid ∧ tid2 = utid then
        some (((srcs.filter fun p => !jsTruthyStr p.2.streamId).map Prod.fst),
          ([] : List (JStr × List Nat)))
       else trackView sdp sid2 tid2) := by
  rw [globalMsidPass_single media mid enc usid utid h1 h2 srcs sdp]
  rw [getTrack_match_none sdp usid utid hnone]
  rw [gmTrkFold_eq srcs _]
  refine ⟨rfl, ?wf, ?tv⟩
  case wf =>
    apply keysWF_addStream sdp hwf
    cases hg : aget usid sdp.streams with
    | none =>
      intro q hq
      exact absurd hq (by simp)
    | some s =>
      intro q hq
      exact (hwf (usid, s) (aget_mem _ _ _ hg)).2 q hq
  case tv =>
    intro sid2 tid2
    rw [trackView_addStream sdp hwf usid utid _ _ rfl rfl sid2 tid2]
    by_cases hc : sid2 = usid ∧ tid2 = utid
    · rw [if_pos hc, if_pos hc]
      simp [viewOf]
    · rw [if_neg hc, if_neg hc]

theorem gmSrcFold_aget_skip (usid utid : JStr) :
    ∀ (l : List (Nat × SourceInfo)) (a : List (Nat × SourceInfo)) (x : Nat),
      (∀ p ∈ l, p.1 ≠ x) →
      aget x (l.foldl (gmSrcStep usid utid) a) = aget x a := by
  intro l
  induction l with
  | nil => intro a x _; rfl
  | cons p t ih =>
    intro a x h
    rw [List.foldl_cons]
    by_cases hp : jsTruthyStr p.2.streamId = true
    · rw [gmSrcStep_truthy usid utid a p hp]
      exact ih a x fun q hq => h q (by simp [hq])
    · rw [gmSrcStep_falsy usid utid a p hp]
      rw [ih _ x fun q hq => h q (by simp [hq])]
      exact aget_aset_ne p.1 x _ a fun he => h p (by simp) he.symm

theorem aget_of_mem_nodup {α β : Type} [DecidableEq α] (k : α) (v : β) :
    ∀ l : List (α × β), (k, v) ∈ l → (l.map Prod.fst).Nodup →
      aget k l = some v := by
  intro l
  induction l with
  | nil => intro h _; exact absurd h (by simp)
  | cons hd t ih =>
    intro hmem hnd
    rcases List.mem_cons.mp hmem with hh | ht
    · rw [← hh]
      rw [aget, if_pos rfl]
    · have hnd2 : (hd.1 :: t.map Prod.fst).Nodup := by simpa using hnd
      by_cases hk : hd.1 = k
      · exfalso
        have : k ∈ t.map Prod.fst := List.mem_map.mpr ⟨(k, v), ht, rfl⟩
        have h2 := (List.nodup_cons.mp hnd2).1
        exact h2 (hk ▸ this)
      · rw [aget, if_neg hk]
        exact ih ht (List.nodup_cons.mp hnd2).2

theorem find_key_of_mem (x : Nat) (v : SourceInfo) :
    ∀ l : List (Nat × SourceInfo), (x, v) ∈ l → (l.map Prod.fst).Nodup →
      l.find? (fun p => p.1 == x) = some (x, v) := by
  intro l
  induction l with
  | nil => intro h _; exact absurd h (by simp)
  | cons hd t ih =>
    intro hmem hnd
    rcases List.mem_cons.mp hmem with hh | ht
    · rw [← hh]
      rw [List.find?_cons_of_pos _ (by simp)]
    · have hnd2 : (hd.1 :: t.map Prod.fst).Nodup := by simpa using hnd
      by_cases hk : hd.1 = x
      · exfalso
        have : x ∈ t.map Prod.fst := List.mem_map.mpr ⟨(x, v), ht, rfl⟩
        have h2 := (List.nodup_cons.mp hnd2).1
        exact h2 (hk ▸ this)
      · rw [List.find?_cons_of_neg _ (by simp [hk])]
        exact ih ht (List.nodup_cons.mp hnd2).2

theorem gmSrcFold_aget (usid utid : JStr) :
    ∀ (l : List (Nat × SourceInfo)) (a : List (Nat × SourceInfo)) (x : Nat),
      (l.map Prod.fst).Nodup →
      aget x (l.foldl (gmSrcStep usid utid) a) =
        (match l.find? (fun p => p.1 == x) with
         | some p =>
           if jsTruthyStr p.2.streamId then aget x a
           else some { p.2 with streamId := some usid, trackId := some utid }
         | none => aget x a) := by
  intro l
  induction l with
  | nil => intro a x _; rfl
  | cons p t ih =>
    intro a x hnd
    have hndc : (p.1 :: t.map Prod.fst).Nodup := by simpa using hnd
    have hnd2 : (t.map Prod.fst).Nodup := (List.nodup_cons.mp hndc).2
    have hkey : p.1 ∉ t.map Prod.fst := (List.nodup_cons.mp hndc).1
    rw [List.foldl_cons]
    by_cases hpx : p.1 = x
    · rw [List.find?_cons_of_pos _ (by simp [hpx])]
      have hskip : ∀ q ∈ t, q.1 ≠ x := by
        intro q hq he
        exact hkey (by rw [hpx, ← he]; exact List.mem_map.mpr ⟨q, hq, rfl⟩)
      by_cases hp : jsTruthyStr p.2.streamId = true
      · rw [gmSrcStep_truthy usid utid a p hp]
        rw [gmSrcFold_aget_skip usid utid t a x hskip]
        simp [hp]
      · rw [gmSrcStep_falsy usid utid a p hp]
        rw [gmSrcFold_aget_skip usid utid t _ x hskip]
        have hself : aget x (aset p.1
            { p.2 with streamId := some usid, trackId := some utid } a) =
            some { p.2 with streamId := some usid, trackId := some utid } := by
          rw [← hpx]
          exact aget_aset_self _ _ _
        rw [hself]
        simp [hp]
    · rw [List.find?_cons_of_neg _ (by simp [hpx])]
      have ha2 : aget x (gmSrcStep usid utid a p) = aget x a := by
        by_cases hp : jsTruthyStr p.2.streamId = true
        · rw [gmSrcStep_truthy usid utid a p hp]
        · rw [gmSrcStep_falsy usid utid a p hp]
          exact aget_aset_ne p.1 x _ a fun he => hpx he.symm
      rw [ih (gmSrcStep usid utid a p) x hnd2]
      cases hf : t.find? (fun q => q.1 == x) with
      | none => simpa using ha2
      | some q => simp [ha2]

/-! ### The ssrc-group pass of one media line -/

theorem foldlM_append_except {γ δ : Type} (f : δ → γ → Except JsError δ) :
    ∀ (l1 l2 : List γ) (a : δ),
      (l1 ++ l2).foldlM f a = (l1.foldlM f a >>= fun b => l2.foldlM f b) := by
  intro l1
  induction l1 with
  | nil => intro l2 a; rfl
  | cons x t ih =>
    intro l2 a
    show (f a x >>= fun b => (t ++ l2).foldlM f b) =
      ((f a x >>= fun b => t.foldlM f b) >>= fun b => l2.foldlM f b)
    cases hfa : f a x with
    | error e => rfl
    | ok b => exact ih l2 b

theorem trackView_some_elim (sdp : SDPInfo) (sid tid : JStr)
    (v : List Nat × List (JStr × List Nat))
    (h : trackView sdp sid tid = some v) :
    ∃ stream track, aget sid sdp.streams = some stream ∧
      aget tid stream.tracks = some track ∧ viewOf track = v := by
  rw [trackView_viewOf] at h
  cases hg : aget sid sdp.streams with
  | none =>
    rw [hg] at h
    exact absurd h (by simp)
  | some stream =>
    rw [hg] at h
    simp only [Option.some_bind] at h
    cases hgt : aget tid stream.tracks with
    | none =>
      rw [hgt] at h
      exact absurd h (by simp)
    | some track =>
      rw [hgt] at h
      exact ⟨stream, track, rfl, hgt, by simpa using h⟩

theorem ssrcGroupsStep_run (sources : List (Nat × SourceInfo)) (sdp : SDPInfo)
    (sem : JStr) (gs : List Nat) (hne : gs ≠ [])
    (sid tid : JStr) (src : SourceInfo)
    (hsrc : aget gs.headI sources = some src)
    (hsid : src.streamId = some sid) (htid : src.trackId = some tid)
    (stream : StreamInfo) (hstream : aget sid sdp.streams = some stream)
    (track : TrackInfo) (htrack : aget tid stream.tracks = some track) :
    ssrcGroupsStep sources sdp
        { semantics := sem, ssrcs := jsJoin (js " ") (gs.map natToJStr) } =
      .ok (sdp.addStream (stream.addTrack
        (track.addSourceGroup { semantics := sem, ssrcs := gs }))) := by
  unfold ssrcGroupsStep
  simp only []
  rw [groupFirstSource_of_join sources sem gs hne]
  rw [hsrc, deref_some_bind, hsid]
  rw [show SDPInfo.getStream sdp (some sid) = some stream from hstream,
    deref_some_bind, htid]
  rw [show StreamInfo.getTrackOpt stream (some tid) = some track from htrack,
    deref_some_bind]
  rw [show SourceGroupInfo.ofStrings sem
      (jsSplit ' ' (jsJoin (js " ") (gs.map natToJStr))) =
      { semantics := sem, ssrcs := gs }
    from group_roundtrip { semantics := sem, ssrcs := gs } hne]
  rfl

theorem pair_groups_fold (sources : List (Nat × SourceInfo)) (sid tid : JStr) :
    ∀ (groups : List SourceGroupInfo) (sdp : SDPInfo),
      streamKeysWF sdp →
      (∀ g ∈ groups, g.ssrcs ≠ [] ∧ ∃ src,
        aget g.ssrcs.headI sources = some src ∧
        src.streamId = some sid ∧ src.trackId = some tid) →
      ∀ (v : List Nat × List (JStr × List Nat)),
      trackView sdp sid tid = some v →
      ∃ sdp2, (groups.map fun g =>
          ({ semantics := g.semantics,
             ssrcs := jsJoin (js " ") (g.ssrcs.map natToJStr) } :
            SsrcGroupEntry)).foldlM (ssrcGroupsStep sources) sdp = .ok sdp2 ∧
        streamKeysWF sdp2 ∧
        ∀ sid2 tid2, trackView sdp2 sid2 tid2 =
          (if sid2 = sid ∧ tid2 = tid then
            some (v.1, v.2 ++ groups.map fun g => (g.semantics, g.ssrcs))
           else trackView sdp sid2 tid2) := by
  intro groups
  induction groups with
  | nil =>
    intro sdp hwf _ v hv
    refine ⟨sdp, rfl, hwf, ?_⟩
    intro sid2 tid2
    by_cases hc : sid2 = sid ∧ tid2 = tid
    · rw [if_pos hc, hc.1, hc.2, hv]
      simp
    · rw [if_neg hc]
  | cons g rest ih =>
    intro sdp hwf hg v hv
    obtain ⟨hne, src, hsrc, hsidg, htidg⟩ := hg g (by simp)
    obtain ⟨stream, track, hstream, htrack, hview⟩ :=
      trackView_some_elim sdp sid tid v hv
    have htrackid : track.id = tid := keysWF_track_id sdp hwf sid tid stream track
      hstream htrack
    have hstep := ssrcGroupsStep_run sources sdp g.semantics g.ssrcs hne sid tid
      src hsrc hsidg htidg stream hstream track htrack
    set sdpA := sdp.addStream (stream.addTrack
      (track.addSourceGroup { semantics := g.semantics, ssrcs := g.ssrcs }))
      with hsdpA
    have hwfA : streamKeysWF sdpA := by
      apply keysWF_addStream sdp hwf
      exact (hwf (sid, stream) (aget_mem _ _ _ hstream)).2
    have htvA : ∀ sid2 tid2, trackView sdpA sid2 tid2 =
        (if sid2 = sid ∧ tid2 = tid then
          some (viewOf (track.addSourceGroup
            { semantics := g.semantics, ssrcs := g.ssrcs }))
         else trackView sdp sid2 tid2) := by
      intro sid2 tid2
      exact trackView_addStream sdp hwf sid tid stream _
        (by rw [hstream]) (by rw [show (track.addSourceGroup
          { semantics := g.semantics, ssrcs := g.ssrcs }).id = track.id from rfl,
          htrackid]) sid2 tid2
    have hviewA : viewOf (track.addSourceGroup
        { semantics := g.semantics, ssrcs := g.ssrcs }) =
        (v.1, v.2 ++ [(g.semantics, g.ssrcs)]) := by
      unfold viewOf TrackInfo.addSourceGroup at *
      rw [← hview]
      simp
    obtain ⟨sdp2, hrun2, hwf2, htv2⟩ := ih sdpA hwfA
      (fun g2 hg2 => hg g2 (by simp [hg2]))
      (v.1, v.2 ++ [(g.semantics, g.ssrcs)])
      (by rw [htvA sid tid, if_pos ⟨rfl, rfl⟩, hviewA])
    refine ⟨sdp2, ?run, hwf2, ?tv⟩
    case run =>
      rw [List.map_cons]
      show (ssrcGroupsStep sources sdp _ >>= fun b =>
        (rest.map fun g =>
          ({ semantics := g.semantics,
             ssrcs := jsJoin (js " ") (g.ssrcs.map natToJStr) } :
            SsrcGroupEntry)).foldlM (ssrcGroupsStep sources) b) = _
      rw [hstep]
      show (rest.map fun g =>
        ({ semantics := g.semantics,
           ssrcs := jsJoin (js " ") (g.ssrcs.map natToJStr) } :
          SsrcGroupEntry)).foldlM (ssrcGroupsStep sources) sdpA = _
      exact hrun2
    case tv =>
      intro sid2 tid2
      rw [htv2 sid2 tid2]
      by_cases hc : sid2 = sid ∧ tid2 = tid
      · rw [if_pos hc, if_pos hc]
        simp
      · rw [if_neg hc, if_neg hc, htvA sid2 tid2, if_neg hc]

theorem mem_catLists {α : Type} (x : α) :
    ∀ L : List (List α), x ∈ catLists L ↔ ∃ l ∈ L, x ∈ l := by
  intro L
  induction L with
  | nil => simp [catLists]
  | cons l rest ih => simp [catLists, ih]

theorem nodup_catLists_ssrcs :
    ∀ ps : List (StreamInfo × TrackInfo),
      (∀ p ∈ ps, p.2.ssrcs.Nodup) →
      (ps.Pairwise fun p q => ∀ x ∈ p.2.ssrcs, x ∉ q.2.ssrcs) →
      (catLists (ps.map fun p => p.2.ssrcs)).Nodup := by
  intro ps
  induction ps with
  | nil => intro _ _; simp [catLists]
  | cons p rest ih =>
    intro h1 h2
    rw [List.map_cons, catLists_cons]
    rw [List.nodup_append]
    refine ⟨h1 p (by simp),
      ih (fun q hq => h1 q (by simp [hq])) (List.pairwise_cons.mp h2).2, ?_⟩
    intro x hx hmem
    obtain ⟨l, hl, hxl⟩ := (mem_catLists x _).mp hmem
    obtain ⟨q, hq, hql⟩ := List.mem_map.mp hl
    rw [← hql] at hxl
    exact (List.pairwise_cons.mp h2).1 q hq x hx hxl

theorem pairSources_keys (p : StreamInfo × TrackInfo) :
    (pairSources p).map Prod.fst = p.2.ssrcs := by
  unfold pairSources
  by_cases h : jsTruthyStr p.2.mediaId = true
  · rw [if_pos h, List.map_map]
    exact List.map_id p.2.ssrcs
  · rw [if_neg h, List.map_map]
    exact List.map_id p.2.ssrcs

theorem allSources_keys :
    ∀ ps : List (StreamInfo × TrackInfo),
      (allSources ps).map Prod.fst = catLists (ps.map fun p => p.2.ssrcs) := by
  intro ps
  induction ps with
  | nil => rfl
  | cons p rest ih =>
    rw [allSources_cons, List.map_append, ih, pairSources_keys, List.map_cons,
      catLists_cons]

theorem mem_pairSources (p : StreamInfo × TrackInfo) (x : Nat)
    (hx : x ∈ p.2.ssrcs) : (x, pairSourceOf p x) ∈ pairSources p := by
  unfold pairSources pairSourceOf
  by_cases h : jsTruthyStr p.2.mediaId = true
  · rw [if_pos h, if_pos h]
    exact List.mem_map.mpr ⟨x, hx, rfl⟩
  · rw [if_neg h, if_neg h]
    exact List.mem_map.mpr ⟨x, hx, rfl⟩

theorem aget_allSources (ps : List (StreamInfo × TrackInfo))
    (p : StreamInfo × TrackInfo) (x : Nat) (hp : p ∈ ps) (hx : x ∈ p.2.ssrcs)
    (hnd : ((allSources ps).map Prod.fst).Nodup) :
    aget x (allSources ps) = some (pairSourceOf p x) := by
  apply aget_of_mem_nodup
  · apply (mem_catLists _ _).mpr
    exact ⟨pairSources p, List.mem_map.mpr ⟨p, hp, rfl⟩, mem_pairSources p x hx⟩
  · exact hnd

theorem pairGroupEntries_map (p : StreamInfo × TrackInfo) :
    pairGroupEntries p = p.2.groups.map fun g =>
      ({ semantics := g.semantics,
         ssrcs := jsJoin (js " ") (g.ssrcs.map natToJStr) } : SsrcGroupEntry) := rfl

theorem groups_fold_pairs (sources : List (Nat × SourceInfo)) :
    ∀ (ps : List (StreamInfo × TrackInfo)) (sdp : SDPInfo),
      streamKeysWF sdp →
      (∀ p ∈ ps, ∀ g ∈ p.2.groups, g.ssrcs ≠ [] ∧ ∃ src,
        aget g.ssrcs.headI sources = some src ∧
        src.streamId = some p.1.id ∧ src.trackId = some p.2.id) →
      (∀ p ∈ ps, trackView sdp p.1.id p.2.id =
        some (p.2.ssrcs, ([] : List (JStr × List Nat)))) →
      (ps.Pairwise fun p q => ¬(p.1.id = q.1.id ∧ p.2.id = q.2.id)) →
      ∃ sdp2,
        applySSRCGroups (catLists (ps.map pairGroupEntries)) sources sdp =
          .ok sdp2 ∧
        streamKeysWF sdp2 ∧
        (∀ sid2 tid2, trackView sdp2 sid2 tid2 =
          (match pairLookup ps sid2 tid2 with
           | some q => some (viewOf q.2)
           | none => trackView sdp sid2 tid2)) := by
  intro ps
  induction ps with
  | nil =>
    intro sdp hwf _ _ _
    exact ⟨sdp, rfl, hwf, fun sid2 tid2 => rfl⟩
  | cons p rest ih =>
    intro sdp hwf hlook hviews hpw
    obtain ⟨sdpA, hrunA, hwfA, htvA⟩ := pair_groups_fold sources p.1.id p.2.id
      p.2.groups sdp hwf (hlook p (by simp)) (p.2.ssrcs, [])
      (hviews p (by simp))
    have hviewsA : ∀ q ∈ rest, trackView sdpA q.1.id q.2.id =
        some (q.2.ssrcs, ([] : List (JStr × List Nat))) := by
      intro q hq
      rw [htvA q.1.id q.2.id,
        if_neg (fun hc =>
          (List.pairwise_cons.mp hpw).1 q hq ⟨hc.1.symm, hc.2.symm⟩)]
      exact hviews q (by simp [hq])
    obtain ⟨sdp2, hrun2, hwf2, htv2⟩ := ih sdpA hwfA
      (fun q hq => hlook q (by simp [hq])) hviewsA (List.pairwise_cons.mp hpw).2
    refine ⟨sdp2, ?run, hwf2, ?tv⟩
    case run =>
      show applySSRCGroups (catLists ((p :: rest).map pairGroupEntries)) sources
        sdp = _
      rw [List.map_cons, catLists_cons]
      unfold applySSRCGroups
      rw [foldlM_append_except]
      rw [pairGroupEntries_map p]
      rw [hrunA]
      show (catLists (rest.map pairGroupEntries)).foldlM
        (ssrcGroupsStep sources) sdpA = _
      exact hrun2
    case tv =>
      intro sid2 tid2
      rw [htv2 sid2 tid2]
      by_cases hc : sid2 = p.1.id ∧ tid2 = p.2.id
      · have hl : pairLookup (p :: rest) sid2 tid2 = some p := by
          unfold pairLookup
          rw [List.find?_cons_of_pos _ (by simp [hc.1, hc.2])]
        have hlr : pairLookup rest sid2 tid2 = none := by
          unfold pairLookup
          apply List.find?_eq_none.mpr
          intro q hq
          simp only [Bool.and_eq_true, beq_iff_eq, not_and]
          intro h1 h2
          exact (List.pairwise_cons.mp hpw).1 q hq
            ⟨(h1.trans hc.1).symm, (h2.trans hc.2).symm⟩
        simp only [hl, hlr]
        rw [htvA sid2 tid2, if_pos hc]
        simp [viewOf]
      · have hl : pairLookup (p :: rest) sid2 tid2 =
            pairLookup rest sid2 tid2 := by
          unfold pairLookup
          rw [List.find?_cons_of_neg _ (by
            simp only [Bool.and_eq_true, beq_iff_eq, not_and]
            intro h1 h2
            exact absurd ⟨h1.symm, h2.symm⟩ hc)]
        rw [hl]
        cases hfr : pairLookup rest sid2 tid2 with
        | some q => rfl
        | none =>
          rw [htvA sid2 tid2, if_neg hc]

/-! ### Medias are untouched by the stream passes -/

theorem upsert_medias (media : JStr) (enc : List (List TrackEncodingInfo))
    (sid tid : JStr) (l : List Nat) (sdp : SDPInfo) :
    (upsertTrackSSRCs media enc sid tid l sdp).medias = sdp.medias := rfl

theorem applyPlanB_medias (media : JStr) (enc : List (List TrackEncodingInfo)) :
    ∀ (ps : List (StreamInfo × TrackInfo)) (sdp : SDPInfo),
      (applyPlanB media enc ps sdp).medias = sdp.medias := by
  intro ps
  induction ps with
  | nil => intro sdp; rfl
  | cons p rest ih =>
    intro sdp
    show (applyPlanB media enc rest _).medias = _
    rw [ih]
    simp only []
    by_cases h : jsTruthyStr p.2.mediaId = true
    · rw [if_pos h]
    · rw [if_neg h]
      exact upsert_medias media enc p.1.id p.2.id p.2.ssrcs sdp

theorem globalMsidPass_medias (media mid : JStr)
    (enc : List (List TrackEncodingInfo)) (m : Option JStr)
    (srcs : List (Nat × SourceInfo)) (sdp : SDPInfo) :
    (globalMsidPass media mid enc m (srcs, sdp)).2.medias = sdp.medias := by
  unfold globalMsidPass
  split_ifs with h
  · simp only []
    rfl
  · rfl

theorem ssrcGroupsStep_medias (sources : List (Nat × SourceInfo)) (sdp : SDPInfo)
    (g : SsrcGroupEntry) (sdp2 : SDPInfo)
    (h : ssrcGroupsStep sources sdp g = .ok sdp2) : sdp2.medias = sdp.medias := by
  unfold ssrcGroupsStep at h
  cases hs : groupFirstSource sources g with
  | none =>
    rw [hs, deref_none_bind] at h
    exact absurd h (by simp)
  | some src =>
    rw [hs, deref_some_bind] at h
    cases hst : sdp.getStream src.streamId with
    | none =>
      rw [hst, deref_none_bind] at h
      exact absurd h (by simp)
    | some stream =>
      rw [hst, deref_some_bind] at h
      cases htr : stream.getTrackOpt src.trackId with
      | none =>
        rw [htr, deref_none_bind] at h
        exact absurd h (by simp)
      | some track =>
        rw [htr, deref_some_bind] at h
        have h2 : sdp.addStream (stream.addTrack (track.addSourceGroup
            (SourceGroupInfo.ofStrings g.semantics (jsSplit ' ' g.ssrcs)))) =
            sdp2 := by
          exact Except.ok.inj h
        rw [← h2]
        rfl

theorem applySSRCGroups_medias (sources : List (Nat × SourceInfo)) :
    ∀ (groups : List SsrcGroupEntry) (sdp sdp2 : SDPInfo),
      applySSRCGroups groups sources sdp = .ok sdp2 → sdp2.medias = sdp.medias := by
  intro groups
  induction groups with
  | nil =>
    intro sdp sdp2 h
    rw [show sdp2 = sdp from (Except.ok.inj h).symm]
  | cons g rest ih =>
    intro sdp sdp2 h
    unfold applySSRCGroups at h
    rw [show (g :: rest).foldlM (ssrcGroupsStep sources) sdp =
      (ssrcGroupsStep sources sdp g >>= fun b =>
        rest.foldlM (ssrcGroupsStep sources) b) from rfl] at h
    cases hstep : ssrcGroupsStep sources sdp g with
    | error e =>
      rw [hstep] at h
      exact absurd h (by simp [Bind.bind, Except.bind])
    | ok sdpA =>
      rw [hstep] at h
      have := ih sdpA sdp2 h
      rw [this, ssrcGroupsStep_medias sources sdp g sdpA hstep]

/-! ### The plan-B upsert pass -/

theorem applyPlanB_effect (media : JStr) (enc : List (List TrackEncodingInfo)) :
    ∀ (ps : List (StreamInfo × TrackInfo)) (sdp : SDPInfo),
      streamKeysWF sdp →
      (∀ p ∈ ps, jsTruthyStr p.2.mediaId = false →
        trackView sdp p.1.id p.2.id = none) →
      (ps.Pairwise fun p q => ¬(p.1.id = q.1.id ∧ p.2.id = q.2.id)) →
      streamKeysWF (applyPlanB media enc ps sdp) ∧
      ∀ sid2 tid2, trackView (applyPlanB media enc ps sdp) sid2 tid2 =
        (match pairLookup (ps.filter fun p => !jsTruthyStr p.2.mediaId)
            sid2 tid2 with
         | some q => some (q.2.ssrcs, ([] : List (JStr × List Nat)))
         | none => trackView sdp sid2 tid2) := by
  intro ps
  induction ps with
  | nil =>
    intro sdp hwf _ _
    exact ⟨hwf, fun sid2 tid2 => rfl⟩
  | cons p rest ih =>
    intro sdp hwf hfresh hpw
    by_cases hU : jsTruthyStr p.2.mediaId = true
    · have hstep : applyPlanB media enc (p :: rest) sdp =
          applyPlanB media enc rest sdp := by
        unfold applyPlanB
        rw [List.foldl_cons, if_pos hU]
      rw [hstep]
      obtain ⟨hwf2, htv2⟩ := ih sdp hwf
        (fun q hq => hfresh q (by simp [hq])) (List.pairwise_cons.mp hpw).2
      refine ⟨hwf2, ?_⟩
      intro sid2 tid2
      rw [htv2 sid2 tid2]
      rw [List.filter_cons, if_neg (by simp [hU])]
    · have hUf : jsTruthyStr p.2.mediaId = false := by
        cases hb : jsTruthyStr p.2.mediaId with
        | false => rfl
        | true => exact absurd hb hU
      have hstep : applyPlanB media enc (p :: rest) sdp =
          applyPlanB media enc rest
            (upsertTrackSSRCs media enc p.1.id p.2.id p.2.ssrcs sdp) := by
        unfold applyPlanB
        rw [List.foldl_cons, if_neg hU]
      rw [hstep]
      have hnone := hfresh p (by simp) hUf
      have htvU := trackView_upsert media enc p.1.id p.2.id p.2.ssrcs sdp hwf
        hnone
      have hwfU := keysWF_upsert media enc p.1.id p.2.id p.2.ssrcs sdp hwf
      have hfresh2 : ∀ q ∈ rest, jsTruthyStr q.2.mediaId = false →
          trackView (upsertTrackSSRCs media enc p.1.id p.2.id p.2.ssrcs sdp)
            q.1.id q.2.id = none := by
        intro q hq hqf
        rw [htvU q.1.id q.2.id,
          if_neg (fun hc =>
            (List.pairwise_cons.mp hpw).1 q hq ⟨hc.1.symm, hc.2.symm⟩)]
        exact hfresh q (by simp [hq]) hqf
      obtain ⟨hwf2, htv2⟩ := ih _ hwfU hfresh2 (List.pairwise_cons.mp hpw).2
      refine ⟨hwf2, ?_⟩
      intro sid2 tid2
      rw [htv2 sid2 tid2]
      rw [List.filter_cons, if_pos (by simp [hUf])]
      by_cases hc : sid2 = p.1.id ∧ tid2 = p.2.id
      · have hl : pairLookup (p :: rest.filter fun q => !jsTruthyStr q.2.mediaId)
            sid2 tid2 = some p := by
          unfold pairLookup
          rw [List.find?_cons_of_pos _ (by simp [hc.1, hc.2])]
        have hlr : pairLookup (rest.filter fun q => !jsTruthyStr q.2.mediaId)
            sid2 tid2 = none := by
          unfold pairLookup
          apply List.find?_eq_none.mpr
          intro q hq
          simp only [Bool.and_eq_true, beq_iff_eq, not_and]
          intro h1 h2
          exact (List.pairwise_cons.mp hpw).1 q (List.mem_of_mem_filter hq)
            ⟨(h1.trans hc.1).symm, (h2.trans hc.2).symm⟩
        simp only [hl, hlr]
        rw [htvU sid2 tid2, if_pos hc]
      · have hl : pairLookup (p :: rest.filter fun q => !jsTruthyStr q.2.mediaId)
            sid2 tid2 =
            pairLookup (rest.filter fun q => !jsTruthyStr q.2.mediaId)
              sid2 tid2 := by
          unfold pairLookup
          rw [List.find?_cons_of_neg _ (by
            simp only [Bool.and_eq_true, beq_iff_eq, not_and]
            intro h1 h2
            exact absurd ⟨h1.symm, h2.symm⟩ hc)]
        rw [hl]
        cases hfr : pairLookup (rest.filter fun q => !jsTruthyStr q.2.mediaId)
            sid2 tid2 with
        | some q => rfl
        | none =>
          rw [htvU sid2 tid2, if_neg hc]

/-! ### Assignment and pair-identity support -/

theorem firstIdx_found {α : Type} (pr : α → Bool) :
    ∀ (l : List α) (k : Nat), firstIdx pr l = some k →
      ∃ x, l.get? k = some x ∧ pr x = true := by
  intro l
  induction l with
  | nil => intro k h; exact absurd h (by simp [firstIdx])
  | cons x t ih =>
    intro k h
    by_cases hx : pr x = true
    · rw [firstIdx, if_pos hx] at h
      obtain rfl : (0 : Nat) = k := Option.some_inj.mp h
      exact ⟨x, rfl, hx⟩
    · rw [firstIdx, if_neg hx] at h
      cases hf : firstIdx pr t with
      | none =>
        rw [hf] at h
        exact absurd h (by simp)
      | some j =>
        rw [hf] at h
        obtain rfl : j + 1 = k := by simpa using h
        obtain ⟨y, hy, hpy⟩ := ih j hf
        exact ⟨y, by simpa using hy, hpy⟩

theorem firstIdx_isSome {α : Type} (pr : α → Bool) :
    ∀ l : List α, (∃ x ∈ l, pr x = true) → ∃ k, firstIdx pr l = some k := by
  intro l
  induction l with
  | nil =>
    intro h
    obtain ⟨x, hx, _⟩ := h
    exact absurd hx (by simp)
  | cons x t ih =>
    intro h
    by_cases hx : pr x = true
    · exact ⟨0, by rw [firstIdx, if_pos hx]⟩
    · obtain ⟨y, hy, hpy⟩ := h
      have hyt : y ∈ t := by
        rcases List.mem_cons.mp hy with h1 | h2
        · exact absurd (h1 ▸ hpy) hx
        · exact h2
      obtain ⟨j, hj⟩ := ih ⟨y, hyt, hpy⟩
      exact ⟨j + 1, by rw [firstIdx, if_neg hx, hj]; rfl⟩

theorem firstIdx_lt_length {α : Type} (pr : α → Bool) (l : List α) (k : Nat)
    (h : firstIdx pr l = some k) : k < l.length := by
  obtain ⟨x, hx, _⟩ := firstIdx_found pr l k h
  exact List.get?_eq_some.mp hx |>.1

theorem psFor_mem (s : SDPInfo) (k : Nat) (p : StreamInfo × TrackInfo) :
    p ∈ psFor s k ↔
      p ∈ streamTrackPairs s ∧ assignIdx s.medias p = some k := by
  unfold psFor
  rw [List.mem_filter]
  simp

theorem pair_mem_elim (p : StreamInfo × TrackInfo) :
    ∀ streams : List (JStr × StreamInfo),
      p ∈ streams.foldr
        (fun e acc => (e.2.tracks.map fun q => (e.2, q.2)) ++ acc) [] →
      ∃ e ∈ streams, ∃ q ∈ e.2.tracks, p = (e.2, q.2) := by
  intro streams
  induction streams with
  | nil => intro hp; exact absurd hp (by simp)
  | cons e rest ih =>
    intro hp
    rw [List.foldr_cons] at hp
    rcases List.mem_append.mp hp with h1 | h2
    · obtain ⟨q, hq, hqe⟩ := List.mem_map.mp h1
      exact ⟨e, by simp, q, hq, hqe.symm⟩
    · obtain ⟨e2, he2, q, hq, hpe⟩ := ih h2
      exact ⟨e2, by simp [he2], q, hq, hpe⟩

theorem pair_props (s : SDPInfo) (hwf : SDPWF s) (p : StreamInfo × TrackInfo)
    (hp : p ∈ streamTrackPairs s) :
    p.1.id ≠ [] ∧ (' ' ∉ p.1.id) ∧ TrackWF s p.2 := by
  obtain ⟨e, he, q, hq, hpe⟩ := pair_mem_elim p s.streams hp
  obtain ⟨hkey, hne, hsp, hnd, htr⟩ := hwf.2.2.2.1 e he
  obtain ⟨hqid, hqwf⟩ := htr q hq
  subst hpe
  exact ⟨hne, hsp, hqwf⟩

theorem pairLookup_some_elim (l : List (StreamInfo × TrackInfo))
    (sid tid : JStr) (q : StreamInfo × TrackInfo)
    (h : pairLookup l sid tid = some q) :
    q ∈ l ∧ q.1.id = sid ∧ q.2.id = tid := by
  unfold pairLookup at h
  have hmem := List.mem_of_find?_eq_some h
  have hpred := List.find?_some h
  simp only [Bool.and_eq_true, beq_iff_eq] at hpred
  exact ⟨hmem, hpred.1, hpred.2⟩

theorem pairLookup_none_elim (l : List (StreamInfo × TrackInfo))
    (sid tid : JStr) (h : pairLookup l sid tid = none) :
    ∀ q ∈ l, ¬(q.1.id = sid ∧ q.2.id = tid) := by
  unfold pairLookup at h
  intro q hq hc
  have := List.find?_eq_none.mp h q hq
  simp only [Bool.and_eq_true, beq_iff_eq] at this
  exact this ⟨hc.1, hc.2⟩

theorem pairLookup_of_mem :
    ∀ (l : List (StreamInfo × TrackInfo)) (q : StreamInfo × TrackInfo),
      q ∈ l → (l.Pairwise fun a b => ¬(a.1.id = b.1.id ∧ a.2.id = b.2.id)) →
      pairLookup l q.1.id q.2.id = some q := by
  intro l
  induction l with
  | nil => intro q hq _; exact absurd hq (by simp)
  | cons hd t ih =>
    intro q hq hpw
    rcases List.mem_cons.mp hq with h1 | h2
    · subst h1
      unfold pairLookup
      rw [List.find?_cons_of_pos _ (by simp)]
    · have hne : ¬(hd.1.id = q.1.id ∧ hd.2.id = q.2.id) :=
        (List.pairwise_cons.mp hpw).1 q h2
      unfold pairLookup
      rw [List.find?_cons_of_neg _ (by
        simp only [Bool.and_eq_true, beq_iff_eq, not_and]
        intro ha hb
        exact absurd ⟨ha, hb⟩ hne)]
      exact ih q h2 (List.pairwise_cons.mp hpw).2

theorem pairs_ids_pairwise_aux :
    ∀ streams : List (JStr × StreamInfo),
      (streams.map Prod.fst).Nodup →
      (∀ e ∈ streams, e.1 = e.2.id ∧ (e.2.tracks.map Prod.fst).Nodup ∧
        ∀ q ∈ e.2.tracks, q.1 = q.2.id) →
      (streams.foldr
        (fun e acc => (e.2.tracks.map fun q => (e.2, q.2)) ++ acc) []).Pairwise
        (fun p q => ¬(p.1.id = q.1.id ∧ p.2.id = q.2.id)) := by
  intro streams
  induction streams with
  | nil => intro _ _; simp
  | cons e rest ih =>
    intro hnd hprops
    have hndc : (e.1 :: rest.map Prod.fst).Nodup := by
      rw [List.map_cons] at hnd
      exact hnd
    obtain ⟨hkey, hndtr, htrids⟩ := hprops e (List.mem_cons_self e rest)
    rw [List.foldr_cons, List.pairwise_append]
    refine ⟨?within, ih (List.nodup_cons.mp hndc).2
      (fun e2 he2 => hprops e2 (by simp [he2])), ?cross⟩
    case within =>
      rw [List.pairwise_map]
      have hids : e.2.tracks.Pairwise fun q1 q2 => q1.1 ≠ q2.1 := by
        rw [← List.pairwise_map (f := Prod.fst)]
        exact hndtr
      refine hids.imp_of_mem ?_
      intro q1 q2 hq1 hq2 hne hc
      apply hne
      rw [htrids q1 hq1, htrids q2 hq2]
      exact hc.2
    case cross =>
      intro a ha b hb hc
      obtain ⟨q1, hq1, hae⟩ := List.mem_map.mp ha
      obtain ⟨e2, he2, q2, hq2, hbe⟩ := pair_mem_elim b rest hb
      obtain ⟨hkey2, _, _⟩ := hprops e2 (by simp [he2])
      have hne : e.1 ≠ e2.1 := by
        intro heq
        exact (List.nodup_cons.mp hndc).1
          (heq ▸ List.mem_map.mpr ⟨e2, he2, rfl⟩)
      apply hne
      rw [hkey, hkey2]
      rw [← hae] at hc
      rw [hbe] at hc
      exact hc.1

theorem pairs_ids_pairwise (s : SDPInfo) (hwf : SDPWF s) :
    (streamTrackPairs s).Pairwise
      (fun p q => ¬(p.1.id = q.1.id ∧ p.2.id = q.2.id)) := by
  apply pairs_ids_pairwise_aux s.streams hwf.2.2.1
  intro e he
  obtain ⟨h1, _, _, h4, h5⟩ := hwf.2.2.2.1 e he
  exact ⟨h1, h4, fun q hq => (h5 q hq).1⟩

theorem truthy_elim (o : Option JStr) (h : jsTruthyStr o = true) :
    ∃ v, o = some v ∧ v ≠ [] := by
  cases o with
  | none => exact absurd h (by simp [jsTruthyStr])
  | some v =>
    refine ⟨v, rfl, ?_⟩
    simpa [jsTruthyStr] using h

/-! ### Falsy sources of a block -/

theorem filter_catLists {α : Type} (f : α → Bool) :
    ∀ L : List (List α),
      (catLists L).filter f = catLists (L.map fun l => l.filter f) := by
  intro L
  induction L with
  | nil => rfl
  | cons l rest ih =>
    rw [catLists_cons, List.filter_append, ih, List.map_cons, catLists_cons]

theorem pairSources_falsy_unified (q : StreamInfo × TrackInfo)
    (h : jsTruthyStr q.2.mediaId = true) :
    (pairSources q).filter (fun p => !jsTruthyStr p.2.streamId) =
      pairSources q := by
  rw [pairSources_unified q h]
  apply List.filter_eq_self.mpr
  intro p hp
  obtain ⟨x, _, hxp⟩ := List.mem_map.mp hp
  rw [← hxp]
  rfl

theorem pairSources_falsy_planB (q : StreamInfo × TrackInfo)
    (h : jsTruthyStr q.2.mediaId = false) (hqid : q.1.id ≠ []) :
    (pairSources q).filter (fun p => !jsTruthyStr p.2.streamId) = [] := by
  rw [pairSources_planB q h]
  rw [List.filter_eq_nil_iff]
  intro p hp
  obtain ⟨x, _, hxp⟩ := List.mem_map.mp hp
  rw [← hxp]
  simp [planBSource, jsTruthyStr, hqid]

theorem allSources_falsy :
    ∀ ps : List (StreamInfo × TrackInfo),
      (∀ p ∈ ps, p.1.id ≠ []) →
      ((allSources ps).filter fun p => !jsTruthyStr p.2.streamId) =
        allSources (ps.filter fun p => jsTruthyStr p.2.mediaId) := by
  intro ps
  induction ps with
  | nil => intro _; rfl
  | cons p rest ih =>
    intro hids
    rw [allSources_cons, List.filter_append, ih fun q hq => hids q (by simp [hq])]
    by_cases hU : jsTruthyStr p.2.mediaId = true
    · rw [pairSources_falsy_unified p hU, List.filter_cons, if_pos (by simp [hU]),
        allSources_cons]
    · have hUf : jsTruthyStr p.2.mediaId = false := by
        cases hb : jsTruthyStr p.2.mediaId with
        | false => rfl
        | true => exact absurd hb hU
      rw [pairSources_falsy_planB p hUf (hids p (by simp)), List.filter_cons,
        if_neg (by simp [hUf])]
      rfl

/-! ### Assembling one media line -/

theorem take_succ_of_get? {α : Type} :
    ∀ (l : List α) (k : Nat) (x : α), l.get? k = some x →
      l.take (k + 1) = l.take k ++ [x] := by
  intro l
  induction l with
  | nil => intro k x h; exact absurd h (by simp)
  | cons a t ih =>
    intro k x h
    cases k with
    | zero =>
      obtain rfl : a = x := Option.some_inj.mp h
      simp
    | succ n =>
      rw [List.get?_cons_succ] at h
      rw [List.take_succ_cons, List.take_succ_cons, ih n x h]
      rfl

theorem pairLookup_filter_none (ps : List (StreamInfo × TrackInfo))
    (f : StreamInfo × TrackInfo → Bool) (sid tid : JStr)
    (h : pairLookup ps sid tid = none) :
    pairLookup (ps.filter f) sid tid = none := by
  unfold pairLookup
  apply List.find?_eq_none.mpr
  intro q hq
  simp only [Bool.and_eq_true, beq_iff_eq, not_and]
  intro h1 h2
  exact pairLookup_none_elim ps sid tid h q (List.mem_of_mem_filter hq) ⟨h1, h2⟩

theorem psFor_unified_cases (s : SDPInfo) (hwf : SDPWF s) (k : Nat)
    (media : MediaInfo) (hk : s.medias.get? k = some media) :
    ((psFor s k).filter fun p => jsTruthyStr p.2.mediaId) = [] ∨
    ∃ pu, ((psFor s k).filter fun p => jsTruthyStr p.2.mediaId) = [pu] := by
  have hmid : ∀ r ∈ (psFor s k).filter (fun p => jsTruthyStr p.2.mediaId),
      ∃ v, r.2.mediaId = some v ∧ v = media.id := by
    intro r hrF
    have hrT : jsTruthyStr r.2.mediaId = true := (List.mem_filter.mp hrF).2
    have hrPs : r ∈ psFor s k := List.mem_of_mem_filter hrF
    obtain ⟨_, hidx⟩ := (psFor_mem s k r).mp hrPs
    obtain ⟨m, hm, hpred⟩ := firstIdx_found _ s.medias k hidx
    rw [hk] at hm
    obtain rfl : media = m := Option.some_inj.mp hm
    obtain ⟨v, hv, hvne⟩ := truthy_elim r.2.mediaId hrT
    refine ⟨v, hv, ?_⟩
    unfold attachPredM at hpred
    rw [if_pos hrT, hv] at hpred
    simpa using hpred
  cases hF : (psFor s k).filter (fun p => jsTruthyStr p.2.mediaId) with
  | nil => exact Or.inl rfl
  | cons pu rest2 =>
    right
    refine ⟨pu, ?_⟩
    cases hr : rest2 with
    | nil => rfl
    | cons q rest3 =>
      exfalso
      have hpuF : pu ∈ (psFor s k).filter (fun p => jsTruthyStr p.2.mediaId) := by
        rw [hF]
        simp
      have hqF : q ∈ (psFor s k).filter (fun p => jsTruthyStr p.2.mediaId) := by
        rw [hF, hr]
        simp
      have hpw : ((psFor s k).filter fun p => jsTruthyStr p.2.mediaId).Pairwise
          (fun p1 p2 =>
            (match p1.2.mediaId, p2.2.mediaId with
             | some m1, some m2 => m1 ≠ m2
             | _, _ => True)) := by
        have hsub : List.Sublist
            ((psFor s k).filter fun p => jsTruthyStr p.2.mediaId)
            (streamTrackPairs s) :=
          (List.filter_sublist _).trans (List.filter_sublist _)
        exact (hwf.2.2.2.2.sublist hsub).imp (fun h => h.1)
      rw [hF, hr] at hpw
      have hrel := (List.pairwise_cons.mp hpw).1 q (by simp)
      obtain ⟨v1, hv1, he1⟩ := hmid pu hpuF
      obtain ⟨v2, hv2, he2⟩ := hmid q hqF
      rw [hv1, hv2] at hrel
      exact hrel (he1.trans he2.symm)

theorem stageHplus (s : SDPInfo) (hwf : SDPWF s) (k : Nat) (acc : SDPInfo)
    (hinv : invAt s k acc) (media : MediaInfo)
    (hk : s.medias.get? k = some media)
    (srcsF : List (Nat × SourceInfo)) (sdpB : SDPInfo)
    (hwfB : streamKeysWF sdpB)
    (hmediasB : sdpB.medias = acc.medias)
    (hlook : ∀ p ∈ psFor s k, ∀ g ∈ p.2.groups, g.ssrcs ≠ [] ∧ ∃ src,
      aget g.ssrcs.headI srcsF = some src ∧
      src.streamId = some p.1.id ∧ src.trackId = some p.2.id)
    (hviewsB : ∀ p ∈ psFor s k, trackView sdpB p.1.id p.2.id =
      some (p.2.ssrcs, ([] : List (JStr × List Nat))))
    (hotherB : ∀ sid tid, pairLookup (psFor s k) sid tid = none →
      trackView sdpB sid tid = trackView acc sid tid) :
    ∃ sdp2, applySSRCGroups (catLists ((psFor s k).map pairGroupEntries)) srcsF
        sdpB = .ok sdp2 ∧
      streamKeysWF sdp2 ∧ sdp2.medias = acc.medias ∧
      ∀ sid tid, trackView sdp2 sid tid =
        (match pairLookup (streamTrackPairs s) sid tid with
         | some p =>
           if (assignIdx s.medias p).getD s.medias.length < k + 1 then
             some (viewOf p.2)
           else none
         | none => none) := by
  have hidsAll := pairs_ids_pairwise s hwf
  have hids : (psFor s k).Pairwise
      (fun p q => ¬(p.1.id = q.1.id ∧ p.2.id = q.2.id)) :=
    hidsAll.sublist (List.filter_sublist _)
  obtain ⟨sdp2, hok, hwf2, hchar⟩ := groups_fold_pairs srcsF (psFor s k) sdpB
    hwfB hlook hviewsB hids
  refine ⟨sdp2, hok, hwf2,
    (applySSRCGroups_medias srcsF _ sdpB sdp2 hok).trans hmediasB, ?_⟩
  intro sid tid
  rw [hchar sid tid]
  cases hpl : pairLookup (psFor s k) sid tid with
  | some q =>
    obtain ⟨hqmem, hq1, hq2⟩ := pairLookup_some_elim (psFor s k) sid tid q hpl
    obtain ⟨hqPairs, hqIdx⟩ := (psFor_mem s k q).mp hqmem
    have hcan : pairLookup (streamTrackPairs s) sid tid = some q := by
      rw [← hq1, ← hq2]
      exact pairLookup_of_mem _ q hqPairs hidsAll
    simp only [hcan, hqIdx, Option.getD_some]
    rw [if_pos (by omega)]
  | none =>
    rw [hotherB sid tid hpl, hinv.2.2.2 sid tid]
    cases hcan : pairLookup (streamTrackPairs s) sid tid with
    | none => rfl
    | some p0 =>
      obtain ⟨hp0mem, hp01, hp02⟩ :=
        pairLookup_some_elim (streamTrackPairs s) sid tid p0 hcan
      have hne_k : (assignIdx s.medias p0).getD s.medias.length ≠ k := by
        intro heq
        cases hIdx : assignIdx s.medias p0 with
        | none =>
          rw [hIdx] at heq
          have hkL : k < s.medias.length :=
            List.get?_eq_some.mp hk |>.1
          simp only [Option.getD_none] at heq
          omega
        | some j =>
          rw [hIdx] at heq
          simp only [Option.getD_some] at heq
          rw [heq] at hIdx
          have hp0ps : p0 ∈ psFor s k := (psFor_mem s k p0).mpr ⟨hp0mem, hIdx⟩
          have := pairLookup_of_mem (psFor s k) p0 hp0ps hids
          rw [hp01, hp02] at this
          rw [this] at hpl
          exact absurd hpl (by simp)
      show (if (assignIdx s.medias p0).getD s.medias.length < k then
          some (viewOf p0.2) else none) =
        (if (assignIdx s.medias p0).getD s.medias.length < k + 1 then
          some (viewOf p0.2) else none)
      by_cases hlt : (assignIdx s.medias p0).getD s.medias.length < k
      · rw [if_pos hlt, if_pos (by omega)]
      · rw [if_neg hlt, if_neg (by omega)]

theorem pairwise_ids_ne :
    ∀ (l : List (StreamInfo × TrackInfo)),
      (l.Pairwise fun p q => ¬(p.1.id = q.1.id ∧ p.2.id = q.2.id)) →
      ∀ p ∈ l, ∀ q ∈ l, p ≠ q → ¬(p.1.id = q.1.id ∧ p.2.id = q.2.id) := by
  intro l
  induction l with
  | nil =>
    intro _ p hp
    exact absurd hp (by simp)
  | cons a t ih =>
    intro h p hp q hq hne
    rcases List.mem_cons.mp hp with he1 | hp2
    · rcases List.mem_cons.mp hq with he2 | hq2
      · exact absurd (he1.trans he2.symm) hne
      · subst he1
        exact (List.pairwise_cons.mp h).1 q hq2
    · rcases List.mem_cons.mp hq with he2 | hq2
      · subst he2
        intro hc
        exact (List.pairwise_cons.mp h).1 p hp2 ⟨hc.1.symm, hc.2.symm⟩
      · exact ih (List.pairwise_cons.mp h).2 p hp2 q hq2 hne

theorem invAt_pack (s : SDPInfo) (k : Nat) (acc : SDPInfo) (hinv : invAt s k acc)
    (media : MediaInfo) (hk : s.medias.get? k = some media)
    (sdp2 : SDPInfo) (mi : MediaInfo)
    (hid : mi.id = media.id) (htype : mi.type = media.type)
    (hck : mi.codecs.map Prod.fst = media.codecs.map Prod.fst)
    (hwfH : streamKeysWF sdp2) (hmediasH : sdp2.medias = acc.medias)
    (hcharH : ∀ sid tid, trackView sdp2 sid tid =
      (match pairLookup (streamTrackPairs s) sid tid with
       | some p =>
         if (assignIdx s.medias p).getD s.medias.length < k + 1 then
           some (viewOf p.2)
         else none
       | none => none)) :
    invAt s (k + 1) (sdp2.addMedia mi) := by
  refine ⟨?_, ?_, ?_, ?_⟩
  · have hadd : (sdp2.addMedia mi).medias = sdp2.medias ++ [mi] := rfl
    rw [hadd, hmediasH, take_succ_of_get? s.medias k media hk]
    rw [List.map_append, List.map_append, hinv.1]
    simp [hid, htype]
  · have hadd : (sdp2.addMedia mi).medias = sdp2.medias ++ [mi] := rfl
    rw [hadd, hmediasH, take_succ_of_get? s.medias k media hk]
    rw [List.map_append, List.map_append, hinv.2.1]
    simp [hck]
  · exact fun e he => hwfH e he
  · intro sid tid
    exact hcharH sid tid

theorem media_step (tree : SdpTree) (s : SDPInfo) (hwf : SDPWF s)
    (ice : ICEInfo) (dtls : DTLSInfo) (k : Nat) (acc : SDPInfo)
    (hinv : invAt s k acc) (media : MediaInfo)
    (hk : s.medias.get? k = some media) :
    ∃ acc2,
      processMedia tree acc (applyList (psFor s k) (mdOf s ice dtls media)) =
        .ok acc2 ∧ invAt s (k + 1) acc2 := by
  generalize hmd : applyList (psFor s k) (mdOf s ice dtls media) = md
  obtain ⟨i1, i2, i3, i4, i5, i6, i7, i8, i9, i10, i11, i12⟩ :=
    applyList_inert (psFor s k) (mdOf s ice dtls media)
  obtain ⟨m1, m2, m3, m4, m5, m6, m7, m8, m9, m10, m11⟩ :=
    mdOf_fields s ice dtls media
  have hfp : md.fingerprint =
      some { type := dtls.hash, hash := dtls.fingerprint } := by
    rw [← hmd]
    exact i12.trans m8
  obtain ⟨f, hfpf⟩ : ∃ f, md.fingerprint = some f := ⟨_, hfp⟩
  have hssrcs : md.ssrcs = catLists ((psFor s k).map pairSsrcBlock) := by
    rw [← hmd, applyList_ssrcs, m5, List.nil_append]
  have hgroups : md.ssrcGroups = catLists ((psFor s k).map pairGroupEntries) := by
    rw [← hmd, applyList_ssrcGroups, m6, List.nil_append]
  have hmsid : md.msid = lastUnifiedMsid (psFor s k) := by
    rw [← hmd, applyList_msid, m7]
    rfl
  have hwfm : MediaWF media := hwf.2.1 media (List.get?_mem hk)
  have hkeys := processed_media_keys s ice dtls media (psFor s k) hwfm
  rw [hmd] at hkeys
  have hpairsWF : ∀ p ∈ psFor s k, p.1.id ≠ [] ∧ (' ' ∉ p.1.id) ∧ TrackWF s p.2 :=
    fun p hp => pair_props s hwf p ((psFor_mem s k p).mp hp).1
  have hidsAll := pairs_ids_pairwise s hwf
  have hids : (psFor s k).Pairwise
      (fun p q => ¬(p.1.id = q.1.id ∧ p.2.id = q.2.id)) :=
    hidsAll.sublist (List.filter_sublist _)
  have hdisj : (psFor s k).Pairwise fun p q => ∀ x ∈ p.2.ssrcs, x ∉ q.2.ssrcs :=
    (hwf.2.2.2.2.sublist (List.filter_sublist _)).imp (fun h => h.2)
  have hprops : ∀ p ∈ psFor s k, ' ' ∉ p.1.id ∧ ' ' ∉ p.2.id ∧ p.2.ssrcs.Nodup ∧
      (jsTruthyStr p.2.mediaId = false → p.2.ssrcs ≠ []) := by
    intro p hp
    obtain ⟨hid1, hsp1, htw⟩ := hpairsWF p hp
    obtain ⟨hsp2, hnd, hgr, hmatch⟩ := htw
    refine ⟨hsp1, hsp2, hnd, ?_⟩
    intro hfalsy
    cases hmi : p.2.mediaId with
    | none =>
      rw [hmi] at hmatch
      exact hmatch.1
    | some v =>
      rw [hmi] at hmatch hfalsy
      simp [jsTruthyStr] at hfalsy
      exact absurd hfalsy hmatch.1
  have hwfacc : streamKeysWF acc := hinv.2.2.1
  have hwf2 : streamKeysWF (procSdp2 acc md f) := fun e he => hwfacc e he
  have hviewacc : ∀ p ∈ psFor s k, trackView acc p.1.id p.2.id = none := by
    intro p hp
    obtain ⟨hmem, hidx⟩ := (psFor_mem s k p).mp hp
    rw [hinv.2.2.2 p.1.id p.2.id, pairLookup_of_mem _ p hmem hidsAll]
    show (if (assignIdx s.medias p).getD s.medias.length < k then
        some (viewOf p.2) else none) = none
    rw [hidx]
    simp
  have hfreshB : ∀ p ∈ psFor s k, jsTruthyStr p.2.mediaId = false →
      trackView (procSdp2 acc md f) p.1.id p.2.id = none := by
    intro p hp _
    show trackView acc p.1.id p.2.id = none
    exact hviewacc p hp
  have hfreshsrc : ∀ p ∈ psFor s k, ∀ x ∈ p.2.ssrcs,
      aget x ([] : List (Nat × SourceInfo)) = none := fun p hp x hx => rfl
  have hF := ssrcs_fold_blocks md.type (procSim md).1 (psFor s k) []
    (procSdp2 acc md f) hwf2 hprops hfreshsrc hdisj
  rw [List.nil_append] at hF
  have hSt : procSt acc md f =
      globalMsidPass md.type md.mid (procSim md).1 (lastUnifiedMsid (psFor s k))
        (allSources (psFor s k),
         applyPlanB md.type (procSim md).1 (psFor s k) (procSdp2 acc md f)) := by
    unfold procSt
    rw [hssrcs, hmsid, hF]
  have hplanB := applyPlanB_effect md.type (procSim md).1 (psFor s k)
    (procSdp2 acc md f) hwf2 hfreshB hids
  have hplanBmedias : (applyPlanB md.type (procSim md).1 (psFor s k)
      (procSdp2 acc md f)).medias = acc.medias := by
    rw [applyPlanB_medias]
    rfl
  have hndkeys : ((allSources (psFor s k)).map Prod.fst).Nodup := by
    rw [allSources_keys]
    exact nodup_catLists_ssrcs (psFor s k) (fun p hp => (hprops p hp).2.2.1) hdisj
  set B := applyPlanB md.type (procSim md).1 (psFor s k) (procSdp2 acc md f)
  rcases psFor_unified_cases s hwf k media hk with hFnil | ⟨pu, hFone⟩
  · have hallF : ∀ p ∈ psFor s k, jsTruthyStr p.2.mediaId = false := by
      intro p hp
      have hnp := List.filter_eq_nil_iff.mp hFnil p hp
      cases hb : jsTruthyStr p.2.mediaId with
      | false => rfl
      | true => exact absurd hb hnp
    have hmsidN : lastUnifiedMsid (psFor s k) = none :=
      lastUnifiedMsid_of_none (psFor s k) hallF
    have hStA : procSt acc md f = (allSources (psFor s k), B) := by
      rw [hSt, hmsidN]
      exact globalMsidPass_none md.type md.mid (procSim md).1 _
    have hfiltereq : ((psFor s k).filter fun p => !jsTruthyStr p.2.mediaId) =
        psFor s k :=
      List.filter_eq_self.mpr fun p hp => by simp [hallF p hp]
    have hviewsB : ∀ p ∈ psFor s k, trackView B p.1.id p.2.id =
        some (p.2.ssrcs, ([] : List (JStr × List Nat))) := by
      intro p hp
      rw [hplanB.2 p.1.id p.2.id]
      have hpl : pairLookup ((psFor s k).filter fun q => !jsTruthyStr q.2.mediaId)
          p.1.id p.2.id = some p := by
        rw [hfiltereq]
        exact pairLookup_of_mem _ p hp hids
      rw [hpl]
    have hotherB : ∀ sid tid, pairLookup (psFor s k) sid tid = none →
        trackView B sid tid = trackView acc sid tid := by
      intro sid tid hpl
      rw [hplanB.2 sid tid]
      have hplf : pairLookup ((psFor s k).filter fun q => !jsTruthyStr q.2.mediaId)
          sid tid = none := by
        rw [hfiltereq]
        exact hpl
      rw [hplf]
      rfl
    have hlook : ∀ p ∈ psFor s k, ∀ g ∈ p.2.groups, g.ssrcs ≠ [] ∧ ∃ src,
        aget g.ssrcs.headI (allSources (psFor s k)) = some src ∧
        src.streamId = some p.1.id ∧ src.trackId = some p.2.id := by
      intro p hp g hg
      obtain ⟨hid1, hsp1, htw⟩ := hpairsWF p hp
      obtain ⟨hsp2, hnd2, hgr, hmatch⟩ := htw
      obtain ⟨hne, hhead⟩ := hgr g hg
      refine ⟨hne, pairSourceOf p g.ssrcs.headI,
        aget_allSources (psFor s k) p g.ssrcs.headI hp hhead hndkeys, ?_, ?_⟩
      · unfold pairSourceOf
        rw [if_neg (by simp [hallF p hp])]
        rfl
      · unfold pairSourceOf
        rw [if_neg (by simp [hallF p hp])]
        rfl
    obtain ⟨sdp2, hok, hwfH, hmediasH, hcharH⟩ := stageHplus s hwf k acc hinv
      media hk (allSources (psFor s k)) B hplanB.1 hplanBmedias hlook hviewsB
      hotherB
    refine ⟨sdp2.addMedia (procSim md).2, ?_, ?_⟩
    · rw [processMedia_run tree acc md f hfpf]
      have hSt1 : (procSt acc md f).1 = allSources (psFor s k) := by rw [hStA]
      have hSt2 : (procSt acc md f).2 = B := by rw [hStA]
      rw [hgroups, hSt1, hSt2, hok]
      rfl
    · exact invAt_pack s k acc hinv media hk sdp2 (procSim md).2 hkeys.1
        hkeys.2.1 hkeys.2.2 hwfH hmediasH hcharH
  · have hpuMem : pu ∈ (psFor s k).filter (fun p => jsTruthyStr p.2.mediaId) := by
      rw [hFone]
      simp
    have hpuT : jsTruthyStr pu.2.mediaId = true := (List.mem_filter.mp hpuMem).2
    have hpuPs : pu ∈ psFor s k := List.mem_of_mem_filter hpuMem
    have hmsidB : lastUnifiedMsid (psFor s k) =
        some (pu.1.id ++ js " " ++ pu.2.id) :=
      lastUnifiedMsid_of_single (psFor s k) pu hFone
    have hpu1 : ' ' ∉ pu.1.id := (hpairsWF pu hpuPs).2.1
    have hpu2 : ' ' ∉ pu.2.id := by
      obtain ⟨hx1, hx2, htw⟩ := hpairsWF pu hpuPs
      obtain ⟨hsp2, _, _, _⟩ := htw
      exact hsp2
    have hidsF : ((psFor s k).filter fun q => !jsTruthyStr q.2.mediaId).Pairwise
        (fun p q => ¬(p.1.id = q.1.id ∧ p.2.id = q.2.id)) :=
      hids.sublist (List.filter_sublist _)
    have hplfpu : pairLookup
        ((psFor s k).filter fun q => !jsTruthyStr q.2.mediaId)
        pu.1.id pu.2.id = none := by
      unfold pairLookup
      apply List.find?_eq_none.mpr
      intro q hq
      simp only [Bool.and_eq_true, beq_iff_eq, not_and]
      intro h1 h2
      have hqPs : q ∈ psFor s k := List.mem_of_mem_filter hq
      have hqFb : (!jsTruthyStr q.2.mediaId) = true := (List.mem_filter.mp hq).2
      have hqF : jsTruthyStr q.2.mediaId = false := by
        simpa using hqFb
      have hqne : q ≠ pu := by
        intro he
        rw [he, hpuT] at hqF
        exact absurd hqF (by decide)
      exact pairwise_ids_ne (psFor s k) hids q hqPs pu hpuPs hqne ⟨h1, h2⟩
    have hBpu : trackView B pu.1.id pu.2.id = none := by
      rw [hplanB.2 pu.1.id pu.2.id, hplfpu]
      show trackView acc pu.1.id pu.2.id = none
      exact hviewacc pu hpuPs
    obtain ⟨hG1, hGwf, hGtv⟩ := globalMsid_effect md.type md.mid (procSim md).1
      pu.1.id pu.2.id hpu1 hpu2 (allSources (psFor s k)) B hplanB.1 hBpu
    have hStB : procSt acc md f =
        globalMsidPass md.type md.mid (procSim md).1
          (some (pu.1.id ++ js " " ++ pu.2.id)) (allSources (psFor s k), B) := by
      rw [hSt, hmsidB]
    have hGmedias : (globalMsidPass md.type md.mid (procSim md).1
        (some (pu.1.id ++ js " " ++ pu.2.id))
        (allSources (psFor s k), B)).2.medias = acc.medias := by
      rw [globalMsidPass_medias]
      exact hplanBmedias
    have hfmap : (((allSources (psFor s k)).filter
        fun p => !jsTruthyStr p.2.streamId).map Prod.fst) = pu.2.ssrcs := by
      rw [allSources_falsy (psFor s k) (fun p hp => (hpairsWF p hp).1), hFone]
      rw [show allSources [pu] = pairSources pu ++ [] from rfl, List.append_nil,
        pairSources_keys]
    set G := globalMsidPass md.type md.mid (procSim md).1
      (some (pu.1.id ++ js " " ++ pu.2.id)) (allSources (psFor s k), B)
    have hlookG : ∀ p ∈ psFor s k, ∀ g ∈ p.2.groups, g.ssrcs ≠ [] ∧ ∃ src,
        aget g.ssrcs.headI
          ((allSources (psFor s k)).foldl (gmSrcStep pu.1.id pu.2.id)
            (allSources (psFor s k))) = some src ∧
        src.streamId = some p.1.id ∧ src.trackId = some p.2.id := by
      intro p hp g hg
      obtain ⟨hid1, hsp1, htw⟩ := hpairsWF p hp
      obtain ⟨hsp2, hnd2, hgr, hmatch⟩ := htw
      obtain ⟨hne, hhead⟩ := hgr g hg
      refine ⟨hne, ?_⟩
      have hfind : (allSources (psFor s k)).find?
          (fun q => q.1 == g.ssrcs.headI) =
          some (g.ssrcs.headI, pairSourceOf p g.ssrcs.headI) := by
        apply find_key_of_mem
        · exact (mem_catLists _ _).mpr
            ⟨pairSources p, List.mem_map.mpr ⟨p, hp, rfl⟩,
             mem_pairSources p g.ssrcs.headI hhead⟩
        · exact hndkeys
      have hbase := gmSrcFold_aget pu.1.id pu.2.id (allSources (psFor s k))
        (allSources (psFor s k)) g.ssrcs.headI hndkeys
      rw [hfind] at hbase
      have hbase2 : aget g.ssrcs.headI
          ((allSources (psFor s k)).foldl (gmSrcStep pu.1.id pu.2.id)
            (allSources (psFor s k))) =
          (if jsTruthyStr (pairSourceOf p g.ssrcs.headI).streamId then
            aget g.ssrcs.headI (allSources (psFor s k))
          else some { pairSourceOf p g.ssrcs.headI with
            streamId := some pu.1.id, trackId := some pu.2.id }) := hbase
      by_cases hpT : jsTruthyStr p.2.mediaId = true
      · have hpe : p = pu := by
          have hmemF : p ∈ (psFor s k).filter (fun q => jsTruthyStr q.2.mediaId) :=
            List.mem_filter.mpr ⟨hp, hpT⟩
          rw [hFone] at hmemF
          simpa using hmemF
        have hsrcF : jsTruthyStr (pairSourceOf p g.ssrcs.headI).streamId = false := by
          unfold pairSourceOf
          rw [if_pos hpT]
          rfl
        refine ⟨{ pairSourceOf p g.ssrcs.headI with
          streamId := some pu.1.id, trackId := some pu.2.id }, ?_, ?_, ?_⟩
        · rw [hbase2, if_neg (by simp [hsrcF])]
        · show some pu.1.id = some p.1.id
          rw [hpe]
        · show some pu.2.id = some p.2.id
          rw [hpe]
      · have hsrcT : jsTruthyStr (pairSourceOf p g.ssrcs.headI).streamId = true := by
          unfold pairSourceOf
          rw [if_neg hpT]
          simp [planBSource, jsTruthyStr, hid1]
        refine ⟨pairSourceOf p g.ssrcs.headI, ?_, ?_, ?_⟩
        · rw [hbase2, if_pos hsrcT]
          exact aget_allSources (psFor s k) p g.ssrcs.headI hp hhead hndkeys
        · unfold pairSourceOf
          rw [if_neg hpT]
          rfl
        · unfold pairSourceOf
          rw [if_neg hpT]
          rfl
    have hviewsG : ∀ p ∈ psFor s k, trackView G.2 p.1.id p.2.id =
        some (p.2.ssrcs, ([] : List (JStr × List Nat))) := by
      intro p hp
      rw [hGtv p.1.id p.2.id]
      by_cases hpe : p = pu
      · rw [if_pos (by rw [hpe]; exact ⟨rfl, rfl⟩), hfmap, hpe]
      · have hne2 : ¬(p.1.id = pu.1.id ∧ p.2.id = pu.2.id) :=
          pairwise_ids_ne (psFor s k) hids p hp pu hpuPs hpe
        rw [if_neg hne2]
        have hpf : jsTruthyStr p.2.mediaId = false := by
          cases hb : jsTruthyStr p.2.mediaId with
          | false => rfl
          | true =>
            exfalso
            have hmemF : p ∈ (psFor s k).filter (fun q => jsTruthyStr q.2.mediaId) :=
              List.mem_filter.mpr ⟨hp, hb⟩
            rw [hFone] at hmemF
            simp at hmemF
            exact hpe hmemF
        rw [hplanB.2 p.1.id p.2.id]
        have hplp : pairLookup
            ((psFor s k).filter fun q => !jsTruthyStr q.2.mediaId)
            p.1.id p.2.id = some p :=
          pairLookup_of_mem _ p (List.mem_filter.mpr ⟨hp, by simp [hpf]⟩) hidsF
        rw [hplp]
    have hotherG : ∀ sid tid, pairLookup (psFor s k) sid tid = none →
        trackView G.2 sid tid = trackView acc sid tid := by
      intro sid tid hpl
      rw [hGtv sid tid]
      have hnepu : ¬(sid = pu.1.id ∧ tid = pu.2.id) := by
        intro hc
        exact pairLookup_none_elim (psFor s k) sid tid hpl pu hpuPs
          ⟨hc.1.symm, hc.2.symm⟩
      rw [if_neg hnepu, hplanB.2 sid tid,
        pairLookup_filter_none (psFor s k) _ sid tid hpl]
      rfl
    obtain ⟨sdp2, hok, hwfH, hmediasH, hcharH⟩ := stageHplus s hwf k acc hinv
      media hk
      ((allSources (psFor s k)).foldl (gmSrcStep pu.1.id pu.2.id)
        (allSources (psFor s k)))
      G.2 hGwf hGmedias hlookG hviewsG hotherG
    refine ⟨sdp2.addMedia (procSim md).2, ?_, ?_⟩
    · rw [processMedia_run tree acc md f hfpf]
      have hSt1 : (procSt acc md f).1 =
          (allSources (psFor s k)).foldl (gmSrcStep pu.1.id pu.2.id)
            (allSources (psFor s k)) := by
        rw [hStB]
        exact hG1
      have hSt2 : (procSt acc md f).2 = G.2 := by rw [hStB]
      rw [hgroups, hSt1, hSt2, hok]
      rfl
    · exact invAt_pack s k acc hinv media hk sdp2 (procSim md).2 hkeys.1
        hkeys.2.1 hkeys.2.2 hwfH hmediasH hcharH

/-! ### Driving the whole media list -/

theorem drop_eq_cons_of_get? {α : Type} :
    ∀ (l : List α) (k : Nat) (x : α), l.get? k = some x →
      l.drop k = x :: l.drop (k + 1) := by
  intro l
  induction l with
  | nil => intro k x h; exact absurd h (by simp)
  | cons a t ih =>
    intro k x h
    cases k with
    | zero =>
      obtain rfl : a = x := Option.some_inj.mp h
      rfl
    | succ n =>
      rw [List.get?_cons_succ] at h
      show t.drop n = x :: t.drop (n + 1)
      exact ih n x h

theorem drop_eq_nil_of_get? {α : Type} :
    ∀ (l : List α) (k : Nat), l.get? k = none → l.drop k = [] := by
  intro l
  induction l with
  | nil => intro k _; simp
  | cons a t ih =>
    intro k h
    cases k with
    | zero => exact absurd h (by simp)
    | succ n =>
      rw [List.get?_cons_succ] at h
      show t.drop n = []
      exact ih n h

theorem find_append_none {α : Type} (pr : α → Bool) :
    ∀ (l1 l2 : List α), l1.find? pr = none →
      (l1 ++ l2).find? pr = l2.find? pr := by
  intro l1
  induction l1 with
  | nil => intro l2 _; rfl
  | cons a t ih =>
    intro l2 h
    by_cases ha : pr a = true
    · rw [List.find?_cons_of_pos _ ha] at h
      exact absurd h (by simp)
    · rw [List.find?_cons_of_neg _ ha] at h
      rw [List.cons_append, List.find?_cons_of_neg _ ha]
      exact ih l2 h

theorem find_append_some {α : Type} (pr : α → Bool) :
    ∀ (l1 l2 : List α) (x : α), l1.find? pr = some x →
      (l1 ++ l2).find? pr = some x := by
  intro l1
  induction l1 with
  | nil => intro l2 x h; exact absurd h (by simp)
  | cons a t ih =>
    intro l2 x h
    by_cases ha : pr a = true
    · rw [List.find?_cons_of_pos _ ha] at h
      rw [List.cons_append, List.find?_cons_of_pos _ ha]
      exact h
    · rw [List.find?_cons_of_neg _ ha] at h
      rw [List.cons_append, List.find?_cons_of_neg _ ha]
      exact ih l2 x h

theorem firstIdx_map {α β : Type} (g : α → β) (pr : β → Bool) (pr2 : α → Bool)
    (h : ∀ x, pr (g x) = pr2 x) :
    ∀ l : List α, firstIdx pr (l.map g) = firstIdx pr2 l := by
  intro l
  induction l with
  | nil => rfl
  | cons x t ih =>
    rw [List.map_cons]
    show (if pr (g x) then some 0 else (firstIdx pr (t.map g)).map fun i => i + 1) =
      firstIdx pr2 (x :: t)
    rw [h x, ih]
    rfl

theorem attachPred_mdOf (s : SDPInfo) (ice : ICEInfo) (dtls : DTLSInfo)
    (p : StreamInfo × TrackInfo) (m : MediaInfo) :
    attachPred p (mdOf s ice dtls m) = attachPredM p m := by
  obtain ⟨h1, h2, _⟩ := mdOf_fields s ice dtls m
  unfold attachPred attachPredM
  rw [h1, h2]

theorem attached_mds_get? (s : SDPInfo) (ice : ICEInfo) (dtls : DTLSInfo)
    (i : Nat) :
    (attachAll (streamTrackPairs s) (s.medias.map (mdOf s ice dtls))).get? i =
      (s.medias.get? i).map fun m => applyList (psFor s i) (mdOf s ice dtls m) := by
  rw [attachAll_get?, List.get?_map]
  have hfilter : ((streamTrackPairs s).filter fun p =>
      firstIdx (attachPred p) (s.medias.map (mdOf s ice dtls)) = some i) =
      psFor s i := by
    apply List.filter_congr
    intro p hp
    have hfi : firstIdx (attachPred p) (s.medias.map (mdOf s ice dtls)) =
        assignIdx s.medias p :=
      firstIdx_map (mdOf s ice dtls) (attachPred p) (attachPredM p)
        (fun m => attachPred_mdOf s ice dtls p m) s.medias
    rw [hfi]
  rw [hfilter]
  cases s.medias.get? i with
  | none => rfl
  | some m => rfl

theorem aget_tracks_find (stv : StreamInfo) (sid tid : JStr)
    (hid : stv.id = sid) :
    ∀ tracks : List (JStr × TrackInfo),
      (∀ q ∈ tracks, q.1 = q.2.id) →
      (match (tracks.map fun q => (stv, q.2)).find?
          (fun p => p.1.id == sid && p.2.id == tid) with
       | some p => some p.2
       | none => none) = aget tid tracks := by
  intro tracks
  induction tracks with
  | nil => intro _; rfl
  | cons q rest ih =>
    intro hq
    rw [List.map_cons]
    by_cases hqt : q.2.id = tid
    · rw [List.find?_cons_of_pos _ (by simp [hid, hqt])]
      show some q.2 = (if q.1 = tid then some q.2 else aget tid rest)
      rw [if_pos ((hq q (List.mem_cons_self q rest)).trans hqt)]
    · rw [List.find?_cons_of_neg _ (by simp [hqt])]
      rw [ih (fun r hr => hq r (List.mem_cons_of_mem q hr))]
      show aget tid rest = (if q.1 = tid then some q.2 else aget tid rest)
      rw [if_neg (fun hc => hqt ((hq q (List.mem_cons_self q rest)).symm.trans hc))]

theorem aget_pairs_lookup (sid tid : JStr) :
    ∀ streams : List (JStr × StreamInfo),
      (streams.map Prod.fst).Nodup →
      (∀ e ∈ streams, e.1 = e.2.id ∧ ∀ q ∈ e.2.tracks, q.1 = q.2.id) →
      ((aget sid streams).bind fun st => aget tid st.tracks) =
        (match pairLookup
            (streams.foldr
              (fun p acc => (p.2.tracks.map fun q => (p.2, q.2)) ++ acc) [])
            sid tid with
         | some p => some p.2
         | none => none) := by
  intro streams
  induction streams with
  | nil => intro _ _; rfl
  | cons e rest ih =>
    intro hnd hprops
    have hndc : (e.1 :: rest.map Prod.fst).Nodup := by
      rw [List.map_cons] at hnd
      exact hnd
    by_cases he : e.1 = sid
    · have hesid : e.2.id = sid :=
        (hprops e (List.mem_cons_self e rest)).1.symm.trans he
      have ha : aget sid (e :: rest) = some e.2 := by
        show (if e.1 = sid then some e.2 else aget sid rest) = some e.2
        rw [if_pos he]
      rw [ha]
      have h1 := aget_tracks_find e.2 sid tid hesid e.2.tracks
        (hprops e (List.mem_cons_self e rest)).2
      unfold pairLookup
      rw [List.foldr_cons]
      show aget tid e.2.tracks = _
      cases hfl : (e.2.tracks.map fun q => (e.2, q.2)).find?
          (fun p => p.1.id == sid && p.2.id == tid) with
      | some p =>
        rw [hfl] at h1
        rw [find_append_some _ _ _ _ hfl]
        exact h1.symm
      | none =>
        rw [hfl] at h1
        rw [find_append_none _ _ _ hfl]
        have h2 : (rest.foldr
            (fun p acc => (p.2.tracks.map fun q => (p.2, q.2)) ++ acc)
            []).find? (fun p => p.1.id == sid && p.2.id == tid) = none := by
          apply List.find?_eq_none.mpr
          intro pr hpr
          obtain ⟨e2, he2, q, hq, hpe⟩ := pair_mem_elim pr rest hpr
          simp only [Bool.and_eq_true, beq_iff_eq, not_and]
          intro hps _
          have hkey : e2.1 = sid := by
            rw [(hprops e2 (List.mem_cons_of_mem e he2)).1, ← hps, hpe]
          have hmem : sid ∈ rest.map Prod.fst := by
            rw [← hkey]
            exact List.mem_map.mpr ⟨e2, he2, rfl⟩
          rw [← he] at hmem
          exact absurd hmem (List.nodup_cons.mp hndc).1
        rw [h2]
        exact h1.symm
    · have ha : aget sid (e :: rest) = aget sid rest := by
        show (if e.1 = sid then some e.2 else aget sid rest) = aget sid rest
        rw [if_neg he]
      rw [ha]
      have h1 : (e.2.tracks.map fun q => (e.2, q.2)).find?
          (fun p => p.1.id == sid && p.2.id == tid) = none := by
        apply List.find?_eq_none.mpr
        intro pr hpr
        obtain ⟨q, hq, hqe⟩ := List.mem_map.mp hpr
        simp only [Bool.and_eq_true, beq_iff_eq, not_and]
        intro hps _
        apply he
        rw [(hprops e (List.mem_cons_self e rest)).1, ← hps, ← hqe]
      unfold pairLookup
      rw [List.foldr_cons, find_append_none _ _ _ h1]
      exact ih (List.nodup_cons.mp hndc).2
        (fun e2 he2 => hprops e2 (List.mem_cons_of_mem e he2))

theorem trackView_canonical (s : SDPInfo) (hwf : SDPWF s) (sid tid : JStr) :
    trackView s sid tid =
      (match pairLookup (streamTrackPairs s) sid tid with
       | some p => some (viewOf p.2)
       | none => none) := by
  have h := aget_pairs_lookup sid tid s.streams hwf.2.2.1
    (fun e he => ⟨(hwf.2.2.2.1 e he).1,
      fun q hq => ((hwf.2.2.2.1 e he).2.2.2.2 q hq).1⟩)
  unfold trackView streamTrackPairs
  rw [h]
  cases pairLookup
      (s.streams.foldr
        (fun p acc => (p.2.tracks.map fun q => (p.2, q.2)) ++ acc) [])
      sid tid with
  | none => rfl
  | some p => rfl

theorem assignIdx_isSome (s : SDPInfo) (hwf : SDPWF s)
    (p : StreamInfo × TrackInfo) (hp : p ∈ streamTrackPairs s) :
    ∃ j, assignIdx s.medias p = some j := by
  obtain ⟨hx1, hx2, htw⟩ := pair_props s hwf p hp
  obtain ⟨hsp2, hnd2, hgr, hmatch⟩ := htw
  unfold assignIdx
  apply firstIdx_isSome
  cases hmi : p.2.mediaId with
  | some m =>
    rw [hmi] at hmatch
    obtain ⟨hmne, md0, hmd0, hmid⟩ := hmatch
    refine ⟨md0, hmd0, ?_⟩
    unfold attachPredM
    rw [if_pos (by rw [hmi]; simp [jsTruthyStr, hmne]), hmi]
    simp [hmid]
  | none =>
    rw [hmi] at hmatch
    obtain ⟨hne, md0, hmd0, hmid⟩ := hmatch
    refine ⟨md0, hmd0, ?_⟩
    unfold attachPredM
    rw [if_neg (by rw [hmi]; simp [jsTruthyStr])]
    simp [hmid]

theorem process_fold_inv (tree : SdpTree) (s : SDPInfo) (hwf : SDPWF s)
    (ice : ICEInfo) (dtls : DTLSInfo) :
    ∀ (n k : Nat) (acc : SDPInfo), s.medias.length = k + n → invAt s k acc →
      ∃ acc2,
        (((attachAll (streamTrackPairs s)
            (s.medias.map (mdOf s ice dtls))).drop k).foldlM
          (processMedia tree) acc : Except JsError SDPInfo) = .ok acc2 ∧
        invAt s s.medias.length acc2 := by
  intro n
  induction n with
  | zero =>
    intro k acc hlen hinv
    have hget : s.medias.get? k = none := by
      apply List.get?_eq_none.mpr
      omega
    have hgetA : (attachAll (streamTrackPairs s)
        (s.medias.map (mdOf s ice dtls))).get? k = none := by
      rw [attached_mds_get?, hget]
      rfl
    rw [drop_eq_nil_of_get? _ k hgetA]
    refine ⟨acc, rfl, ?_⟩
    have hkl : s.medias.length = k := by omega
    rw [hkl]
    exact hinv
  | succ n2 ih =>
    intro k acc hlen hinv
    obtain ⟨media, hget⟩ : ∃ m, s.medias.get? k = some m := by
      cases hg : s.medias.get? k with
      | none =>
        have := List.get?_eq_none.mp hg
        omega
      | some m => exact ⟨m, rfl⟩
    have hgetA : (attachAll (streamTrackPairs s)
        (s.medias.map (mdOf s ice dtls))).get? k =
        some (applyList (psFor s k) (mdOf s ice dtls media)) := by
      rw [attached_mds_get?, hget]
      rfl
    obtain ⟨acc2, hstep, hinv2⟩ :=
      media_step tree s hwf ice dtls k acc hinv media hget
    obtain ⟨acc3, hrest, hinv3⟩ := ih (k + 1) acc2 (by omega) hinv2
    refine ⟨acc3, ?_, hinv3⟩
    rw [drop_eq_cons_of_get? _ k _ hgetA, List.foldlM_cons, hstep]
    show ((attachAll (streamTrackPairs s)
        (s.medias.map (mdOf s ice dtls))).drop (k + 1)).foldlM
      (processMedia tree) acc2 = .ok acc3
    exact hrest

theorem toTree_ok (s : SDPInfo) (now : Nat) (ice : ICEInfo) (dtls : DTLSInfo)
    (hice : s.ice = some ice) (hdtls : s.dtls = some dtls) :
    toTree s now = .ok (assembleTree s ice now
      (attachTracks s.streams (s.medias.map (mdOf s ice dtls)))) := by
  simp only [toTree, hice, deref_some_bind]
  rw [mapM_ok_of_forall (buildMD s ice) (mdOf s ice dtls) s.medias
    (fun m hm => buildMD_ok s ice dtls m hdtls)]
  rfl

theorem c1good_wf : SDPWF c1good := by
  refine ⟨by decide, ?_, by decide, ?_, ?_⟩
  · intro m hm
    rcases List.mem_cons.mp hm with rfl | hm2
    · exact ⟨by decide, by decide⟩
    · rcases List.mem_cons.mp hm2 with rfl | hm3
      · exact ⟨by decide, by decide⟩
      · exact absurd hm3 (by simp)
  · intro e he
    rcases List.mem_cons.mp he with rfl | he2
    · refine ⟨by decide, by decide, by decide, by decide, ?_⟩
      intro q hq
      rcases List.mem_cons.mp hq with rfl | hq2
      · refine ⟨by decide, by decide, by decide, by decide, ?_⟩
        show js "0" ≠ [] ∧ ∃ md ∈ c1good.medias, md.id = js "0"
        decide
      · rcases List.mem_cons.mp hq2 with rfl | hq3
        · refine ⟨by decide, by decide, by decide, by decide, ?_⟩
          show c1t2.ssrcs ≠ [] ∧
            ∃ md ∈ c1good.medias, jsLower md.type = jsLower c1t2.media
          decide
        · exact absurd hq3 (by simp)
    · exact absurd he2 (by simp)
  · show List.Pairwise _ (streamTrackPairs c1good)
    refine List.Pairwise.cons ?_ (List.Pairwise.cons (by simp) List.Pairwise.nil)
    intro b hb
    have hb2 : b = (c1stream, c1t2) := by simpa using hb
    subst hb2
    exact ⟨trivial, by decide⟩

/-- C1: the unconditional round-trip claim is refuted by C1_counterexample
(a codec literally named "red" is serialized by toString but silently
dropped by process). Amended to programmatically built sessions with ice,
dtls and at least one media line whose graph satisfies the stated
well-formedness conditions (SDPWF: distinct mids; codec maps keyed by the
codecs' own payload types with no RED/ULPFEC/RTX names and pairwise-distinct
emitted payloads; stream and track maps keyed by their own non-empty
space-free ids; resolvable tracks whose groups are non-empty and lead with
an owned ssrc; pairwise-distinct unified mediaIds and pairwise-disjoint ssrc
sets), the round trip holds: process (toString G) succeeds and preserves the
media types and ids, the per-media codec payload-type key lists, and every
track's ssrc list and source groups. -/
theorem C1_roundtrip_amended (s : SDPInfo) (now : Nat)
    (ice : ICEInfo) (dtls : DTLSInfo)
    (hice : s.ice = some ice) (hdtls : s.dtls = some dtls)
    (hne : s.medias ≠ []) (hwf : SDPWF s) :
    ∃ s2, roundTrip s now = .ok s2 ∧
      mediaTypesIds s2 = mediaTypesIds s ∧
      codecKeyLists s2 = codecKeyLists s ∧
      ∀ sid tid, trackView s2 sid tid = trackView s sid tid := by
  have htree := toTree_ok s now ice dtls hice hdtls
  have hinv0 : invAt s 0 { SDPInfo.mkNew none with version := 0 } := by
    refine ⟨rfl, rfl, fun e he => absurd he (List.not_mem_nil e), ?_⟩
    intro sid tid
    cases hpl : pairLookup (streamTrackPairs s) sid tid with
    | none => rfl
    | some p =>
      show (none : Option (List Nat × List (JStr × List Nat))) =
        (if (assignIdx s.medias p).getD s.medias.length < 0 then
          some (viewOf p.2) else none)
      rw [if_neg (Nat.not_lt_zero _)]
  obtain ⟨s2, hfold, hinvN⟩ := process_fold_inv
    (assembleTree s ice now
      (attachTracks s.streams (s.medias.map (mdOf s ice dtls))))
    s hwf ice dtls s.medias.length 0 { SDPInfo.mkNew none with version := 0 }
    (by omega) hinv0
  rw [List.drop_zero] at hfold
  refine ⟨s2, ?_, ?_, ?_, ?_⟩
  · unfold roundTrip
    rw [htree]
    show processTree (assembleTree s ice now
      (attachTracks s.streams (s.medias.map (mdOf s ice dtls)))) = .ok s2
    unfold processTree
    simp only []
    rw [show (assembleTree s ice now
        (attachTracks s.streams (s.medias.map (mdOf s ice dtls)))).media =
      attachTracks s.streams (s.medias.map (mdOf s ice dtls)) from rfl]
    rw [attachTracks_pairs]
    exact hfold
  · show s2.medias.map (fun m => (m.type, m.id)) =
      s.medias.map (fun m => (m.type, m.id))
    rw [hinvN.1, List.take_length]
  · show s2.medias.map (fun m => m.codecs.map Prod.fst) =
      s.medias.map (fun m => m.codecs.map Prod.fst)
    rw [hinvN.2.1, List.take_length]
  · intro sid tid
    rw [hinvN.2.2.2 sid tid, trackView_canonical s hwf sid tid]
    cases hpl : pairLookup (streamTrackPairs s) sid tid with
    | none => rfl
    | some p =>
      obtain ⟨hpmem, hp1, hp2⟩ := pairLookup_some_elim _ sid tid p hpl
      obtain ⟨j, hj⟩ := assignIdx_isSome s hwf p hpmem
      show (if (assignIdx s.medias p).getD s.medias.length < s.medias.length
          then some (viewOf p.2) else none) = some (viewOf p.2)
      rw [hj]
      simp only [Option.getD_some]
      rw [if_pos (firstIdx_lt_length (attachPredM p) s.medias j hj)]

/-- Witness: C1_roundtrip_amended applied to the concrete two-media session
c1good (unified opus audio track, plan-B VP8+RTX video track with an FID
group), with every hypothesis discharged at that input. -/
theorem C1_witness :
    c1good.ice = some c1ice ∧ c1good.dtls = some c1dtls ∧
    c1good.medias ≠ [] ∧ SDPWF c1good ∧
    ∃ s2, roundTrip c1good 7 = .ok s2 ∧
      mediaTypesIds s2 = mediaTypesIds c1good ∧
      codecKeyLists s2 = codecKeyLists c1good ∧
      ∀ sid tid, trackView s2 sid tid = trackView c1good sid tid :=
  ⟨rfl, rfl, by decide, c1good_wf,
    C1_roundtrip_amended c1good 7 c1ice c1dtls rfl rfl (by decide) c1good_wf⟩

end SemanticSDP
